import Mathlib

/-!
# XV-11 laser driver: the decoder of `XV11Laser::poll`

A shallow embedding of `src/src/xv11_laser.cpp`.

Conventions of the embedding.

* A byte is a `Nat`; theorems that need it assume `< 256` for the bytes of the
  stream.  Conversions to `uint8_t` / `uint16_t` are written `% 256` / `% 65536`
  at the places where the C++ code assigns to a variable of that type.
* The serial port is a finite `List Nat` of bytes still to be read.
  `boost::asio::read` of `n` bytes succeeds when `n` bytes remain and throws
  otherwise; the throw is the outcome `transportFailure`, carrying the scan
  object as it is at that moment.
* Floating point values are exact rationals (rounding to `float` is not
  modelled), with one extra value for the result of dividing a positive number
  by zero.
* `shutting_down_` is only written by `close()`; during one call of `poll`
  it is a constant.
* `angle_min`, `angle_max` and `angle_increment` are constants built from
  `M_PI`; `poll` stores them and never reads them, and they are left out.
-/

namespace XV11

/-! ## Data model -/

/-- Float values: an exact rational, or `+inf` (a positive number divided by zero). -/
inductive Flt where
  | val (q : ℚ)
  | inf
deriving DecidableEq

/-- Float division by a finite number `b ≥ 0`, for the dividends that occur in
`poll`: `+inf`, or a finite number that is positive whenever `b` is zero. -/
def Flt.div (a : Flt) (b : ℚ) : Flt :=
  match a with
  | .inf => .inf
  | .val q => if b = 0 then .inf else .val (q / b)

/-- The fields of `sensor_msgs::LaserScan` that `poll` writes. -/
@[ext]
structure LaserScan where
  ranges : List ℚ
  intensities : List ℚ
  time_increment : Flt
  scan_time : Flt
  range_min : ℚ
  range_max : ℚ
deriving DecidableEq

/-- A default-constructed scan message. -/
def LaserScan.empty : LaserScan :=
  { ranges := [], intensities := [], time_increment := .val 0, scan_time := .val 0,
    range_min := 0, range_max := 0 }

/-- The members of `XV11Laser` that `poll` reads or writes; `serial_` is the
list of bytes the port will still deliver.

Modelled from the spec: the declarations of `motor_speed_` and `rpms` are in
`xv11_laser.h`, which is absent.  `motor_speed_` is the raw 16-bit little-endian
speed field; `rpms` holds the integer quotient `rpms_sum / good_packets`
(at most 1023) exactly. -/
structure XV11Laser where
  firmware_ : Nat
  shutting_down_ : Bool
  motor_speed_ : Nat
  rpms : Nat
  serial_ : List Nat
deriving DecidableEq

/-- How a call of `poll` ends. -/
inductive Outcome where
  /-- Normal return: the object and the scan after the call. -/
  | returned (self : XV11Laser) (scan : LaserScan)
  /-- A read threw; `scan` is the scan object at that moment. -/
  | transportFailure (scan : LaserScan)
  /-- The iteration bound of the embedding of the packet walk was used up. -/
  | fuelExhausted
deriving DecidableEq

/-- Byte `i` of a buffer. -/
def byteAt (raw : List Nat) (i : Nat) : Nat := raw.getD i 0

/-! ## Sample decoding (lines 91-101 and 192-208) -/

/-- Line 99 and 204: `uint16_t range = ((byte1 & 0x3F) << 8) + byte0`. -/
def decodeRange (byte0 byte1 : Nat) : Nat :=
  (((byte1 &&& 0x3F) <<< 8) + byte0) % 65536

/-- Line 101 and 208: `uint16_t intensity = (byte3 << 8) + byte2`. -/
def decodeIntensity (byte2 byte3 : Nat) : Nat :=
  ((byte3 <<< 8) + byte2) % 65536

/-! ## Firmware 1 (lines 51-108) -/

/-- The start sequence matcher, lines 57-73: new `start_count` and whether the
whole start sequence has now been found. -/
def startStep1 (start_count temp_char : Nat) : Nat × Bool :=
  if start_count = 0 then
    if temp_char = 0x5A then (1, false) else (start_count, false)
  else if start_count = 1 then
    if temp_char = 0xA5 then (2, false) else (start_count, false)
  else if start_count = 2 then
    if temp_char = 0x00 then (3, false) else (start_count, false)
  else if start_count = 3 then
    if temp_char = 0xC0 then (0, true) else (start_count, false)
  else (start_count, false)

/-- One iteration of the loop of lines 89-105, for loop variable `i`. -/
def pushSample1 (raw_bytes : List Nat) (scan : LaserScan) (i : Nat) : LaserScan :=
  let byte0 := byteAt raw_bytes i
  let byte1 := byteAt raw_bytes (i + 1)
  let byte2 := byteAt raw_bytes (i + 2)
  let byte3 := byteAt raw_bytes (i + 3)
  let range := decodeRange byte0 byte1
  let intensity := decodeIntensity byte2 byte3
  { scan with
    ranges := scan.ranges ++ [(range : ℚ) / 1000],
    intensities := scan.intensities ++ [(intensity : ℚ)] }

/-- Lines 80-105: the scalar fields, then `push_back` for `i = 0, 4, ..., 1436`. -/
def decode1 (motor_speed raw_bytes_len : Nat) (raw_bytes : List Nat) (scan : LaserScan) :
    LaserScan :=
  let scan1 : LaserScan :=
    { scan with
      time_increment := .val ((motor_speed : ℚ) / 100000000),
      range_min := 6 / 100,
      range_max := 5 }
  (List.range' 0 (raw_bytes_len / 4) 4).foldl (pushSample1 raw_bytes) scan1

/-- Lines 75-105, run once the start sequence is complete: read the two speed
bytes (little-endian into `motor_speed_`), read the 1440 body bytes, decode. -/
def frame1 (self : XV11Laser) (scan : LaserScan) (serial : List Nat) : Outcome :=
  if serial.length < 2 then .transportFailure scan
  else
    let motor_speed := byteAt serial 0 + 256 * byteAt serial 1
    let serial1 := serial.drop 2
    if serial1.length < 1440 then .transportFailure scan
    else
      let raw_bytes := serial1.take 1440
      .returned { self with motor_speed_ := motor_speed, serial_ := serial1.drop 1440 }
        (decode1 motor_speed 1440 raw_bytes scan)

/-- The loop of lines 54-108, as a function of `start_count` and the bytes left. -/
def poll1Loop (self : XV11Laser) (scan : LaserScan) : Nat → List Nat → Outcome
  | start_count, serial =>
    if self.shutting_down_ then .returned { self with serial_ := serial } scan
    else
      match serial with
      | [] => .transportFailure scan
      | temp_char :: rest =>
        if (startStep1 start_count temp_char).2 then frame1 self scan rest
        else poll1Loop self scan (startStep1 start_count temp_char).1 rest

/-! ## Firmware 2 (lines 111-250) -/

/-- The call `std::vector::resize(360)`: keep the first 360 elements, fill up with zeros. -/
def resize360 (v : List ℚ) : List ℚ :=
  v.take 360 ++ List.replicate (360 - v.length) 0

/-- The variables of the packet walk (lines 128-132, 155) and the two vectors of
the scan it writes.  The last three fields are instrumentation, not program
state: the cursor values at which the loop body ran, the cursor values at which
a packet was accepted as good, and the angles written, each in order of time. -/
@[ext]
structure Walk where
  i : Nat
  angle : Nat
  good_packets : Nat
  rpms_sum : Nat
  ranges : List ℚ
  intensities : List ℚ
  visited : List Nat
  accepted : List Nat
  written : List Nat
deriving DecidableEq

/-- The loop of lines 167-175: the first `k` in `2..21` with
`raw_bytes[i+k] == HEADER_BYTE`, if there is one. -/
def premature (raw_bytes : List Nat) (i : Nat) : Option Nat :=
  (List.range' 2 20).find? (fun k => decide (byteAt raw_bytes (i + k) = 0xFA))

/-- One iteration of the loop of lines 186-212, for loop variable `j`. -/
def writeSample2 (raw_bytes : List Nat) (i packet_index : Nat) (w : Walk) (j : Nat) : Walk :=
  let angle := 4 * packet_index + (j - 4 - i) / 4
  let byte0 := byteAt raw_bytes j
  let byte1 := byteAt raw_bytes (j + 1)
  let byte2 := byteAt raw_bytes (j + 2)
  let byte3 := byteAt raw_bytes (j + 3)
  let range := decodeRange byte0 byte1
  let intensity := decodeIntensity byte2 byte3
  { w with
    angle := angle,
    ranges := w.ranges.set angle ((range : ℚ) / 1000),
    intensities := w.intensities.set angle (intensity : ℚ),
    written := w.written ++ [angle] }

/-- The body of the inner while loop, lines 159-229: the variables after the
iteration and whether it ended in `break`.  `i` is a `uint16_t`, `good_packets`
a `uint8_t`; `j` runs over `i+4, i+8, i+12, i+16`. -/
def walkBody (raw_bytes : List Nat) (w : Walk) : Walk × Bool :=
  let i := w.i
  let packet_index := (byteAt raw_bytes (i + 1) + 256 - 0xA0) % 256
  let w0 : Walk := { w with visited := w.visited ++ [i] }
  if byteAt raw_bytes i = 0xFA ∧ packet_index < 90 then
    match premature raw_bytes i with
    | some k => ({ w0 with i := (i + k) % 65536 }, false)
    | none =>
      let w1 : Walk :=
        { w0 with
          good_packets := (w0.good_packets + 1) % 256,
          rpms_sum := w0.rpms_sum +
            ((byteAt raw_bytes (i + 3) <<< 8) ||| byteAt raw_bytes (i + 2)) / 64,
          accepted := w0.accepted ++ [i] }
      let w2 := (List.range' (i + 4) 4 4).foldl (writeSample2 raw_bytes i packet_index) w1
      if w2.angle = 359 then (w2, true)
      else ({ w2 with i := (i + 22) % 65536 }, false)
  else ({ w0 with i := (i + 1) % 65536 }, false)

/-- The inner while loop, lines 157-230.  `fuel` bounds the number of times the
body runs; `none` when the bound is used up. -/
def walkLoop (shutting_down : Bool) (raw_bytes : List Nat) : Nat → Walk → Option Walk
  | fuel, w =>
    if shutting_down ∨ ¬ (w.i + 22 ≤ 1980) then some w
    else
      match fuel with
      | 0 => none
      | fuel + 1 =>
        if (walkBody raw_bytes w).2 then some (walkBody raw_bytes w).1
        else walkLoop shutting_down raw_bytes fuel (walkBody raw_bytes w).1

/-- The variables at line 155, before the inner loop (`angle` is not yet
initialised there; it is written before it is read). -/
def walkInit (scan : LaserScan) : Walk :=
  { i := 0, angle := 0, good_packets := 0, rpms_sum := 0,
    ranges := scan.ranges, intensities := scan.intensities,
    visited := [], accepted := [], written := [] }

/-- Lines 235-243: `rpms`, `scan_time` and `time_increment` from the two counters. -/
def timing2 (self : XV11Laser) (scan : LaserScan) (rpms_sum good_packets : Nat) :
    XV11Laser × LaserScan :=
  if rpms_sum > 0 ∧ good_packets > 0 then
    let rpms := rpms_sum / good_packets
    let scan_time := Flt.div (.val 60) (rpms : ℚ)
    ({ self with rpms := rpms },
     { scan with scan_time := scan_time, time_increment := scan_time.div 360 })
  else
    ({ self with rpms := 0 },
     { scan with scan_time := .val 0, time_increment := (Flt.val 0).div 360 })

/-- Lines 155-243: walk the filled buffer `raw_bytes` and derive the timing;
`serial` is what the port still holds. -/
def decode2 (self : XV11Laser) (scan : LaserScan) (raw_bytes serial : List Nat) : Outcome :=
  match walkLoop self.shutting_down_ raw_bytes 1980 (walkInit scan) with
  | none => .fuelExhausted
  | some w =>
    let scan1 : LaserScan := { scan with ranges := w.ranges, intensities := w.intensities }
    let r := timing2 { self with serial_ := serial } scan1 w.rpms_sum w.good_packets
    .returned r.1 r.2

/-- Lines 150-243, run once `0xFA, 0xA0` has been found (they are in
`raw_bytes[0]` and `raw_bytes[1]`): read the other 1978 bytes into
`raw_bytes[2..]`, then decode the buffer. -/
def frame2 (self : XV11Laser) (scan : LaserScan) (raw_bytes serial : List Nat) : Outcome :=
  if serial.length < 1978 then .transportFailure scan
  else decode2 self scan (raw_bytes.take 2 ++ serial.take 1978) (serial.drop 1978)

/-- The outer while loop, lines 135-249, as a function of `start_count`, the
buffer and the bytes left. -/
def poll2Loop (self : XV11Laser) (scan : LaserScan) : Nat → List Nat → List Nat → Outcome
  | start_count, raw_bytes, serial =>
    if self.shutting_down_ then .returned { self with serial_ := serial } scan
    else
      match serial with
      | [] => .transportFailure scan
      | b :: rest =>
        if start_count = 0 then
          if byteAt (raw_bytes.set start_count b) start_count = 0xFA then
            poll2Loop self scan 1 (raw_bytes.set start_count b) rest
          else poll2Loop self scan start_count (raw_bytes.set start_count b) rest
        else if start_count = 1 then
          if byteAt (raw_bytes.set start_count b) start_count = 0xA0 then
            frame2 self scan (raw_bytes.set start_count b) rest
          else poll2Loop self scan 0 (raw_bytes.set start_count b) rest
        else poll2Loop self scan start_count (raw_bytes.set start_count b) rest

/-- Lines 113-134: the fixed fields of the scan and the two `resize(360)`. -/
def setup2 (scan : LaserScan) : LaserScan :=
  { scan with
    range_min := 15 / 100,
    range_max := 5,
    ranges := resize360 scan.ranges,
    intensities := resize360 scan.intensities }

/-- The method `XV11Laser::poll`, lines 46-251.  The buffer `raw_bytes` of firmware 2 is
not initialised in the source; it starts here as zeros. -/
def poll (self : XV11Laser) (scan : LaserScan) : Outcome :=
  if self.firmware_ = 1 then poll1Loop self scan 0 self.serial_
  else if self.firmware_ = 2 then
    poll2Loop { self with rpms := 0 } (setup2 scan) 0 (List.replicate 1980 0) self.serial_
  else .returned self scan

/-! ## Concrete inputs -/

/-- The legacy example frame: start sequence, zero speed, zero body. -/
def legacyZeroStream : List Nat := [0x5A, 0xA5, 0x00, 0xC0, 0, 0] ++ List.replicate 1440 0

/-- A legacy stream in which `5A A5 00 C0` never occurs contiguously: a zero
byte stands between `5A` and `A5`.  Zero speed and zero body follow. -/
def legacySplitStream : List Nat :=
  [0x5A, 0x00, 0xA5, 0x00, 0xC0, 0, 0] ++ List.replicate 1440 0

/-- A whole gen-2 revolution: 90 packets in order, every packet with the speed
bytes `lo`, `hi`, zero samples and zero checksum bytes. -/
def fullFrame (lo hi : Nat) : List Nat :=
  (List.range 1980).map (fun i =>
    if i % 22 = 0 then 0xFA
    else if i % 22 = 1 then 0xA0 + i / 22
    else if i % 22 = 2 then lo
    else if i % 22 = 3 then hi
    else 0)

/-- A whole gen-2 revolution of a motor coming to rest: packet 0 carries the
raw speed 64 (one revolution per minute), the other 89 packets the raw speed 0;
all samples are zero. -/
def slowingFrame : List Nat :=
  (List.range 1980).map (fun i =>
    if i % 22 = 0 then 0xFA
    else if i % 22 = 1 then 0xA0 + i / 22
    else if i = 2 then 64
    else 0)

/-- The gen-2 example frame: one packet with index 0, raw speed 6400 and zero
samples, followed by zeros. -/
def singlePacketFrame : List Nat :=
  (List.range 1980).map (fun i =>
    if i = 0 then 0xFA else if i = 1 then 0xA0 else if i = 3 then 25 else 0)

/-- A gen-2 stream with a doubled header byte: `FA`, then `FA A0` followed by
1978 zero bytes. -/
def doubledHeaderStream : List Nat := [0xFA] ++ ([0xFA, 0xA0] ++ List.replicate 1978 0)

/-- A gen-2 stream that ends 100 bytes after the sync. -/
def truncatedStream : List Nat := [0x00, 0xFA, 0xA0] ++ List.replicate 100 7

/-- A scan object that still holds the 360 values of an earlier revolution,
every range and intensity being 1. -/
def staleScan : LaserScan :=
  { ranges := List.replicate 360 1, intensities := List.replicate 360 1,
    time_increment := .val 0, scan_time := .val 0, range_min := 0, range_max := 0 }

/-- A gen-2 frame with all 90 packet headers in place and a spurious `0xFA` at
offset 5 of packet 0; every other payload byte is zero. -/
def spuriousFrame : List Nat :=
  (List.range 1980).map (fun i =>
    if i % 22 = 0 then 0xFA
    else if i % 22 = 1 then 0xA0 + i / 22
    else if i = 5 then 0xFA
    else 0)

/-- A legacy stream with the speed bytes `34 12`, a zero body and three more
bytes after the frame. -/
def legacyTrailingStream : List Nat :=
  [0x5A, 0xA5, 0x00, 0xC0, 0x34, 0x12] ++ (List.replicate 1440 0 ++ [1, 2, 3])

/-! ## Auxiliary definitions for the statements about the packet walk -/

/-- The value of `packet_index` as computed at cursor `i` (line 159). -/
def pidxAt (raw_bytes : List Nat) (i : Nat) : Nat :=
  (byteAt raw_bytes (i + 1) + 256 - 0xA0) % 256

/-- The term added to `rpms_sum` for a packet at cursor `i` (line 183). -/
def speed64 (raw_bytes : List Nat) (i : Nat) : Nat :=
  ((byteAt raw_bytes (i + 3) <<< 8) ||| byteAt raw_bytes (i + 2)) / 64

/-- The range in metres decoded from the sample at offset `j`. -/
def sampleRange (raw_bytes : List Nat) (j : Nat) : ℚ :=
  (decodeRange (byteAt raw_bytes j) (byteAt raw_bytes (j + 1)) : ℚ) / 1000

/-- The intensity decoded from the sample at offset `j`. -/
def sampleIntensity (raw_bytes : List Nat) (j : Nat) : ℚ :=
  (decodeIntensity (byteAt raw_bytes (j + 2)) (byteAt raw_bytes (j + 3)) : ℚ)

/-- The four writes of a packet at cursor `c` into a vector, by the sample decoder `f`. -/
def write4 (f : Nat → ℚ) (p c : Nat) (v : List ℚ) : List ℚ :=
  (((v.set (4 * p) (f (c + 4))).set (4 * p + 1) (f (c + 8))).set (4 * p + 2) (f (c + 12))).set
    (4 * p + 3) (f (c + 16))

/-- The variables after a packet at cursor `w.i` has been accepted and decoded
(lines 180-212), before the cursor moves. -/
def accept (raw_bytes : List Nat) (w : Walk) : Walk :=
  { i := w.i
    angle := 4 * pidxAt raw_bytes w.i + 3
    good_packets := (w.good_packets + 1) % 256
    rpms_sum := w.rpms_sum + speed64 raw_bytes w.i
    ranges := write4 (sampleRange raw_bytes) (pidxAt raw_bytes w.i) w.i w.ranges
    intensities := write4 (sampleIntensity raw_bytes) (pidxAt raw_bytes w.i) w.i w.intensities
    visited := w.visited ++ [w.i]
    accepted := w.accepted ++ [w.i]
    written := w.written ++ [4 * pidxAt raw_bytes w.i, 4 * pidxAt raw_bytes w.i + 1,
      4 * pidxAt raw_bytes w.i + 2, 4 * pidxAt raw_bytes w.i + 3] }

/-- The variables after an iteration that only moves the cursor, to `i1`. -/
def moveTo (w : Walk) (i1 : Nat) : Walk :=
  { w with i := i1, visited := w.visited ++ [w.i] }

/-- The four angles written by a packet at cursor `c`. -/
def slotsAt (raw_bytes : List Nat) (c : Nat) : List Nat :=
  [4 * pidxAt raw_bytes c, 4 * pidxAt raw_bytes c + 1, 4 * pidxAt raw_bytes c + 2,
    4 * pidxAt raw_bytes c + 3]

/-- The writes of the packets at the cursors `acc`, in order, applied to a vector. -/
def replay (raw_bytes : List Nat) (f : Nat → ℚ) (v : List ℚ) (acc : List Nat) : List ℚ :=
  acc.foldl (fun v c => write4 f (pidxAt raw_bytes c) c v) v

/-- The variables of the walk are determined by the list of accepted cursors:
the counter, the speed sum, the angles written and the two vectors. -/
structure Consistent (raw_bytes : List Nat) (scan : LaserScan) (w : Walk) : Prop where
  good_packets : w.good_packets = w.accepted.length % 256
  rpms_sum : w.rpms_sum = (w.accepted.map (speed64 raw_bytes)).sum
  written : w.written = w.accepted.flatMap (slotsAt raw_bytes)
  ranges : w.ranges = replay raw_bytes (sampleRange raw_bytes) scan.ranges w.accepted
  intensities :
    w.intensities = replay raw_bytes (sampleIntensity raw_bytes) scan.intensities w.accepted

/-- A 1980-byte frame made of 90 packets in order: packet `p` starts at offset
`22p` with the bytes `0xFA`, `0xA0 + p` and has no `0xFA` at its offsets 2..21. -/
def FullRevolution (raw_bytes : List Nat) : Prop :=
  raw_bytes.length = 1980 ∧
  ∀ p, p < 90 →
    byteAt raw_bytes (22 * p) = 0xFA ∧ byteAt raw_bytes (22 * p + 1) = 0xA0 + p ∧
    ∀ k, 2 ≤ k → k ≤ 21 → byteAt raw_bytes (22 * p + k) ≠ 0xFA

/-! ## The two matchers run over a stream -/

/-- The firmware-2 matcher, lines 140-247, as a transition function: new
`start_count` and whether `0xFA, 0xA0` has now been found. -/
def startStep2 (start_count b : Nat) : Nat × Bool :=
  if start_count = 0 then
    if b = 0xFA then (1, false) else (start_count, false)
  else if start_count = 1 then
    if b = 0xA0 then (0, true) else (0, false)
  else (start_count, false)

/-- The bytes left in the port when the legacy matcher, started in state
`start_count`, completes the start sequence; `none` when the stream ends before
that (no sync is ever found). -/
def syncRest1 : Nat → List Nat → Option (List Nat)
  | _, [] => none
  | start_count, c :: rest =>
    if (startStep1 start_count c).2 then some rest
    else syncRest1 (startStep1 start_count c).1 rest

/-- The bytes left in the port when the firmware-2 matcher, started in state
`start_count`, has found `0xFA, 0xA0`; `none` when the stream ends before that. -/
def syncRest2 : Nat → List Nat → Option (List Nat)
  | _, [] => none
  | start_count, b :: rest =>
    if (startStep2 start_count b).2 then some rest
    else syncRest2 (startStep2 start_count b).1 rest

/-- The bytes left after sync, for the matcher of the given firmware. -/
def syncRest (firmware : Nat) (serial : List Nat) : Option (List Nat) :=
  if firmware = 1 then syncRest1 0 serial else syncRest2 0 serial

/-- The number of bytes `poll` reads after sync: 2 + 1440 for the legacy
format, 1978 for gen-2. -/
def frameBytes (firmware : Nat) : Nat :=
  if firmware = 1 then 2 + 1440 else 1978

/-- The two vectors of the scan that `poll` returns; `none` when it does not return. -/
def Outcome.vectors : Outcome → Option (List ℚ × List ℚ)
  | .returned _ scan => some (scan.ranges, scan.intensities)
  | .transportFailure _ => none
  | .fuelExhausted => none

/-- The state `w1` continues the walk from the state `w`: the records of `w`
are the beginning of those of `w1`, the cursor has not moved back, and whatever
was accepted after `w` lies at or beyond the cursor of `w`. -/
def Extends (w w1 : Walk) : Prop :=
  w.accepted <+: w1.accepted ∧ w.visited <+: w1.visited ∧ w.i ≤ w1.i ∧
  ∀ c ∈ w1.accepted, c ∈ w.accepted ∨ w.i ≤ c

/-- All 90 packet headers of the frame are in place: `raw[22q] = 0xFA` and
`raw[22q+1] = 0xA0 + q`. -/
def HeadersInPlace (raw_bytes : List Nat) : Prop :=
  ∀ q, q < 90 → byteAt raw_bytes (22 * q) = 0xFA ∧ byteAt raw_bytes (22 * q + 1) = 0xA0 + q

/-- The four bytes the legacy matcher compares against in the states
`start_count = 0, 1, 2, 3` (lines 58, 62, 66, 70). -/
def startSequence : List Nat := [0x5A, 0xA5, 0x00, 0xC0]

/-- The start sequence has occurred, in order, among the first `n` bytes of `s`,
and among no fewer. -/
structure FirstSubsequenceAt (s : List Nat) (n : Nat) : Prop where
  occurred : List.Sublist startSequence (s.take n)
  first : ∀ m, m < n → ¬ List.Sublist startSequence (s.take m)

/-! ## Firmware 1: decoding -/

theorem foldl_pushSample1_ranges (raw : List Nat) (l : List Nat) (sc : LaserScan) :
    (l.foldl (pushSample1 raw) sc).ranges =
      sc.ranges ++ l.map (fun i => (decodeRange (byteAt raw i) (byteAt raw (i + 1)) : ℚ) / 1000) := by
  induction l generalizing sc with
  | nil => simp
  | cons a l ih => simp [List.foldl_cons, ih, pushSample1]

theorem foldl_pushSample1_intensities (raw : List Nat) (l : List Nat) (sc : LaserScan) :
    (l.foldl (pushSample1 raw) sc).intensities =
      sc.intensities ++
        l.map (fun i => (decodeIntensity (byteAt raw (i + 2)) (byteAt raw (i + 3)) : ℚ)) := by
  induction l generalizing sc with
  | nil => simp
  | cons a l ih => simp [List.foldl_cons, ih, pushSample1]

theorem foldl_pushSample1_scalars (raw : List Nat) (l : List Nat) (sc : LaserScan) :
    (l.foldl (pushSample1 raw) sc).time_increment = sc.time_increment ∧
    (l.foldl (pushSample1 raw) sc).scan_time = sc.scan_time ∧
    (l.foldl (pushSample1 raw) sc).range_min = sc.range_min ∧
    (l.foldl (pushSample1 raw) sc).range_max = sc.range_max := by
  induction l generalizing sc with
  | nil => simp
  | cons a l ih => simp [List.foldl_cons, ih, pushSample1]

theorem byteAt_lt (b : List Nat) (hb : ∀ x ∈ b, x < 256) (i : Nat) : byteAt b i < 256 := by
  unfold byteAt
  by_cases h : i < b.length
  · rw [List.getD_eq_getElem _ _ h]; exact hb _ (List.getElem_mem h)
  · rw [List.getD_eq_default _ _ (by omega)]; decide

theorem decodeRange_eq (b0 b1 : Nat) (h0 : b0 < 256) :
    decodeRange b0 b1 = ((b1 &&& 0x3F) <<< 8) + b0 := by
  unfold decodeRange
  have h : b1 &&& 0x3F ≤ 0x3F := Nat.and_le_right
  rw [Nat.shiftLeft_eq]
  omega

theorem decodeIntensity_eq (b2 b3 : Nat) (h2 : b2 < 256) (h3 : b3 < 256) :
    decodeIntensity b2 b3 = (b3 <<< 8) + b2 := by
  unfold decodeIntensity
  rw [Nat.shiftLeft_eq]
  omega

theorem poll1_sync (self : XV11Laser) (scan : LaserScan) (rest : List Nat)
    (hsd : self.shutting_down_ = false) :
    poll1Loop self scan 0 (0x5A :: 0xA5 :: 0x00 :: 0xC0 :: rest) = frame1 self scan rest := by
  simp [poll1Loop, startStep1, hsd]

theorem frame1_ok (self : XV11Laser) (scan : LaserScan) (s0 s1 : Nat) (b rest : List Nat)
    (hlen : b.length = 1440) :
    frame1 self scan (s0 :: s1 :: (b ++ rest)) =
      .returned { self with motor_speed_ := s0 + 256 * s1, serial_ := rest }
        (decode1 (s0 + 256 * s1) 1440 b scan) := by
  have h1 : (List.drop 2 (s0 :: s1 :: (b ++ rest))) = b ++ rest := rfl
  have h2 : ¬ ((s0 :: s1 :: (b ++ rest)).length < 2) := by simp
  have h3 : ¬ ((b ++ rest).length < 1440) := by simp [hlen]
  have h4 : (b ++ rest).take 1440 = b := by
    rw [← hlen]; exact List.take_left _ _
  have h5 : (b ++ rest).drop 1440 = rest := by
    rw [← hlen]; exact List.drop_left _ _
  have h6 : byteAt (s0 :: s1 :: (b ++ rest)) 0 = s0 := rfl
  have h7 : byteAt (s0 :: s1 :: (b ++ rest)) 1 = s1 := rfl
  unfold frame1
  rw [if_neg h2]
  simp only [h1, if_neg h3, h4, h5, h6, h7]

theorem range'_eq_map (s n step : Nat) :
    List.range' s n step = (List.range n).map (fun k => s + step * k) := by
  apply List.ext_getElem
  · simp
  · intro k h1 h2
    simp [List.getElem_range']

theorem decode1_ranges (ms : Nat) (b : List Nat) (scan : LaserScan) :
    (decode1 ms 1440 b scan).ranges = scan.ranges ++ (List.range 360).map
      (fun k => (decodeRange (byteAt b (4 * k)) (byteAt b (4 * k + 1)) : ℚ) / 1000) := by
  unfold decode1
  rw [foldl_pushSample1_ranges, range'_eq_map, List.map_map]
  simp only [Nat.zero_add, Function.comp_def, Nat.reduceDiv]

theorem decode1_intensities (ms : Nat) (b : List Nat) (scan : LaserScan) :
    (decode1 ms 1440 b scan).intensities = scan.intensities ++ (List.range 360).map
      (fun k => (decodeIntensity (byteAt b (4 * k + 2)) (byteAt b (4 * k + 3)) : ℚ)) := by
  unfold decode1
  rw [foldl_pushSample1_intensities, range'_eq_map, List.map_map]
  simp only [Nat.zero_add, Function.comp_def, Nat.reduceDiv]

theorem byteAt_replicate_zero (n i : Nat) : byteAt (List.replicate n 0) i = 0 := by
  unfold byteAt
  by_cases h : i < n
  · rw [List.getD_eq_getElem _ _ (by rw [List.length_replicate]; exact h)]
    exact List.getElem_replicate _ _
  · rw [List.getD_eq_default _ _ (by rw [List.length_replicate]; omega)]

theorem map_range_const {α : Type} (n : Nat) (f : Nat → α) (c : α) (h : ∀ k, f k = c) :
    (List.range n).map f = List.replicate n c := by
  apply List.eq_replicate_iff.mpr
  refine ⟨by rw [List.length_map, List.length_range], ?_⟩
  intro x hx
  obtain ⟨k, -, rfl⟩ := List.mem_map.mp hx
  exact h k

theorem decode1_scalars (ms : Nat) (b : List Nat) (scan : LaserScan) :
    (decode1 ms 1440 b scan).time_increment = .val ((ms : ℚ) / 100000000) ∧
    (decode1 ms 1440 b scan).scan_time = scan.scan_time ∧
    (decode1 ms 1440 b scan).range_min = 6 / 100 ∧
    (decode1 ms 1440 b scan).range_max = 5 := by
  unfold decode1
  exact foldl_pushSample1_scalars _ _ _

theorem legacy_zero_example (ms rp : Nat) :
    poll ⟨1, false, ms, rp, legacyZeroStream⟩ LaserScan.empty =
      .returned ⟨1, false, 0, rp, []⟩
        { ranges := List.replicate 360 0, intensities := List.replicate 360 0,
          time_increment := .val 0, scan_time := .val 0,
          range_min := 6 / 100, range_max := 5 } := by
  have h := frame1_ok ⟨1, false, ms, rp, legacyZeroStream⟩ LaserScan.empty 0 0
    (List.replicate 1440 0) [] (List.length_replicate _ _)
  have hp : poll ⟨1, false, ms, rp, legacyZeroStream⟩ LaserScan.empty =
      frame1 ⟨1, false, ms, rp, legacyZeroStream⟩ LaserScan.empty
        (0 :: 0 :: (List.replicate 1440 0 ++ [])) := by
    unfold poll
    rw [if_pos rfl, List.append_nil]
    exact poll1_sync _ _ _ rfl
  obtain ⟨h1, h2, h3, h4⟩ := decode1_scalars (0 + 256 * 0) (List.replicate 1440 0) LaserScan.empty
  have hs : decode1 (0 + 256 * 0) 1440 (List.replicate 1440 0) LaserScan.empty =
      { ranges := List.replicate 360 0, intensities := List.replicate 360 0,
        time_increment := .val 0, scan_time := .val 0,
        range_min := 6 / 100, range_max := 5 } := by
    ext1
    · rw [decode1_ranges]
      show [] ++ _ = List.replicate 360 (0 : ℚ)
      rw [List.nil_append]
      exact map_range_const 360 _ 0 (fun k => by
        rw [byteAt_replicate_zero, byteAt_replicate_zero]; simp [decodeRange])
    · rw [decode1_intensities]
      show [] ++ _ = List.replicate 360 (0 : ℚ)
      rw [List.nil_append]
      exact map_range_const 360 _ 0 (fun k => by
        rw [byteAt_replicate_zero, byteAt_replicate_zero]; simp [decodeIntensity])
    · rw [h1]; simp
    · rw [h2]; rfl
    · rw [h3]
    · rw [h4]
  rw [hp, h, hs]

/-- C1. Legacy (firmware 1) decoding: on the stream `5A A5 00 C0`, two speed
bytes and a 1440-byte body `b`, `poll` with an empty scan returns, with exactly
360 ranges and 360 intensities, `ranges[k] = (((b[4k+1] & 0x3F) << 8) + b[4k]) / 1000`
and `intensities[k] = (b[4k+3] << 8) + b[4k+2]` for every `k < 360`; and on the
all-zero speed and body the scan has 360 ranges 0, 360 intensities 0 and
`time_increment` 0. -/
theorem poll_legacy_decode (ms rp s0 s1 : Nat) (b : List Nat)
    (hlen : b.length = 1440) (hbyte : ∀ x ∈ b, x < 256) :
    (∃ self1 scan1,
      poll { firmware_ := 1, shutting_down_ := false, motor_speed_ := ms, rpms := rp,
             serial_ := [0x5A, 0xA5, 0x00, 0xC0, s0, s1] ++ b } LaserScan.empty
        = .returned self1 scan1 ∧
      scan1.ranges.length = 360 ∧ scan1.intensities.length = 360 ∧
      ∀ k, k < 360 →
        scan1.ranges[k]? =
          some ((((byteAt b (4 * k + 1) &&& 0x3F) <<< 8) + byteAt b (4 * k) : Nat) / 1000 : ℚ) ∧
        scan1.intensities[k]? =
          some (((byteAt b (4 * k + 3) <<< 8) + byteAt b (4 * k + 2) : Nat) : ℚ)) ∧
    poll { firmware_ := 1, shutting_down_ := false, motor_speed_ := ms, rpms := rp,
           serial_ := legacyZeroStream } LaserScan.empty
      = .returned { firmware_ := 1, shutting_down_ := false, motor_speed_ := 0, rpms := rp,
                    serial_ := [] }
          { ranges := List.replicate 360 0, intensities := List.replicate 360 0,
            time_increment := .val 0, scan_time := .val 0,
            range_min := 6 / 100, range_max := 5 } := by
  refine ⟨?_, legacy_zero_example ms rp⟩
  have h := frame1_ok ⟨1, false, ms, rp, [0x5A, 0xA5, 0x00, 0xC0, s0, s1] ++ b⟩
    LaserScan.empty s0 s1 b [] hlen
  rw [List.append_nil] at h
  refine ⟨⟨1, false, s0 + 256 * s1, rp, []⟩, decode1 (s0 + 256 * s1) 1440 b LaserScan.empty,
    ?_, ?_, ?_, ?_⟩
  · unfold poll
    rw [if_pos rfl]
    exact (poll1_sync _ _ _ rfl).trans h
  · rw [decode1_ranges]
    simp only [LaserScan.empty, List.nil_append, List.length_map, List.length_range]
  · rw [decode1_intensities]
    simp only [LaserScan.empty, List.nil_append, List.length_map, List.length_range]
  · intro k hk
    rw [decode1_ranges, decode1_intensities]
    simp only [LaserScan.empty, List.nil_append, List.getElem?_map, List.getElem?_range hk,
      Option.map_some']
    rw [decodeRange_eq _ _ (byteAt_lt b hbyte _),
      decodeIntensity_eq _ _ (byteAt_lt b hbyte _) (byteAt_lt b hbyte _)]
    exact ⟨rfl, rfl⟩

/-- C1 at the all-zero frame. -/
theorem poll_legacy_decode_witness :
    (∃ self1 scan1,
      poll { firmware_ := 1, shutting_down_ := false, motor_speed_ := 0, rpms := 0,
             serial_ := [0x5A, 0xA5, 0x00, 0xC0, 0, 0] ++ List.replicate 1440 0 }
          LaserScan.empty
        = .returned self1 scan1 ∧
      scan1.ranges.length = 360 ∧ scan1.intensities.length = 360 ∧
      ∀ k, k < 360 →
        scan1.ranges[k]? =
          some ((((byteAt (List.replicate 1440 0) (4 * k + 1) &&& 0x3F) <<< 8)
            + byteAt (List.replicate 1440 0) (4 * k) : Nat) / 1000 : ℚ) ∧
        scan1.intensities[k]? =
          some (((byteAt (List.replicate 1440 0) (4 * k + 3) <<< 8)
            + byteAt (List.replicate 1440 0) (4 * k + 2) : Nat) : ℚ)) :=
  (poll_legacy_decode 0 0 0 0 (List.replicate 1440 0) (List.length_replicate _ _)
    (fun x hx => by rw [List.eq_of_mem_replicate hx]; decide)).1

/-! ## Firmware 1: the start sequence matcher -/

theorem poll1_split_sync (self : XV11Laser) (scan : LaserScan) (rest : List Nat)
    (hsd : self.shutting_down_ = false) :
    poll1Loop self scan 0 (0x5A :: 0x00 :: 0xA5 :: 0x00 :: 0xC0 :: rest) =
      frame1 self scan rest := by
  simp [poll1Loop, startStep1, hsd]

/-- C6 (the code at the failing input). In the legacy matcher a byte that is
not the expected one leaves `start_count` as it is (no reset to 0), in each of
the states 1, 2 and 3; so `poll` declares sync on `5A 00 A5 00 C0`, a stream in
which the start sequence never occurs contiguously, and returns a scan. -/
theorem legacy_matcher_keeps_state :
    startStep1 1 0x00 = (1, false) ∧ startStep1 2 0x5A = (2, false) ∧
    startStep1 3 0xA5 = (3, false) ∧
    ∃ scan1,
      poll { firmware_ := 1, shutting_down_ := false, motor_speed_ := 0, rpms := 0,
             serial_ := legacySplitStream } LaserScan.empty
        = .returned { firmware_ := 1, shutting_down_ := false, motor_speed_ := 0, rpms := 0,
                      serial_ := [] } scan1 := by
  refine ⟨by decide, by decide, by decide,
    decode1 (0 + 256 * 0) 1440 (List.replicate 1440 0) LaserScan.empty, ?_⟩
  have h := frame1_ok ⟨1, false, 0, 0, legacySplitStream⟩ LaserScan.empty 0 0
    (List.replicate 1440 0) [] (List.length_replicate _ _)
  rw [List.append_nil] at h
  unfold poll
  rw [if_pos rfl]
  have hs : poll1Loop ⟨1, false, 0, 0, legacySplitStream⟩ LaserScan.empty 0 legacySplitStream =
      frame1 ⟨1, false, 0, 0, legacySplitStream⟩ LaserScan.empty
        (0 :: 0 :: List.replicate 1440 0) := by
    exact poll1_split_sync _ _ _ rfl
  exact hs.trans h

/-! ## Firmware 2: one iteration of the packet walk -/

theorem walkBody_skip (raw : List Nat) (w : Walk)
    (h : ¬ (byteAt raw w.i = 0xFA ∧ pidxAt raw w.i < 90)) :
    walkBody raw w = (moveTo w ((w.i + 1) % 65536), false) := by
  unfold walkBody
  unfold pidxAt at h
  simp only [h, if_false, moveTo]

theorem walkBody_premature (raw : List Nat) (w : Walk) (k : Nat)
    (h : byteAt raw w.i = 0xFA ∧ pidxAt raw w.i < 90) (hk : premature raw w.i = some k) :
    walkBody raw w = (moveTo w ((w.i + k) % 65536), false) := by
  unfold walkBody
  unfold pidxAt at h
  simp only [h, and_self, if_true, hk, moveTo]

theorem walkBody_good (raw : List Nat) (w : Walk)
    (h : byteAt raw w.i = 0xFA ∧ pidxAt raw w.i < 90) (hk : premature raw w.i = none) :
    walkBody raw w =
      if pidxAt raw w.i = 89 then (accept raw w, true)
      else ({ accept raw w with i := (w.i + 22) % 65536 }, false) := by
  unfold walkBody
  have h1 := h
  unfold pidxAt at h1
  simp only [h1, and_self, if_true, hk]
  have hr : List.range' (w.i + 4) 4 4 = [w.i + 4, w.i + 8, w.i + 12, w.i + 16] := by
    simp [List.range']
  have e0 : (w.i + 4 - 4 - w.i) / 4 = 0 := by omega
  have e1 : (w.i + 8 - 4 - w.i) / 4 = 1 := by omega
  have e2 : (w.i + 12 - 4 - w.i) / 4 = 2 := by omega
  have e3 : (w.i + 16 - 4 - w.i) / 4 = 3 := by omega
  rw [hr]
  simp only [List.foldl_cons, List.foldl_nil, writeSample2, e0, e1, e2, e3, Nat.add_zero]
  have hp : (byteAt raw (w.i + 1) + 256 - 160) % 256 = pidxAt raw w.i := rfl
  simp only [hp]
  have ha : (4 * pidxAt raw w.i + 3 = 359) ↔ pidxAt raw w.i = 89 := by omega
  simp only [ha]
  split
  · simp [accept, write4, sampleRange, sampleIntensity, speed64, List.append_assoc]
  · simp [accept, write4, sampleRange, sampleIntensity, speed64, List.append_assoc]

theorem find_range'_some (p : Nat → Bool) (n s k : Nat)
    (h : (List.range' s n).find? p = some k) :
    s ≤ k ∧ k < s + n ∧ p k = true ∧ ∀ j, s ≤ j → j < k → p j = false := by
  induction n generalizing s with
  | zero => simp at h
  | succ n ih =>
    rw [List.range'_succ, List.find?_cons] at h
    cases hp : p s with
    | true =>
      rw [hp] at h
      have hk : s = k := by simpa using h
      subst hk
      exact ⟨le_refl _, by omega, hp, fun j h1 h2 => by omega⟩
    | false =>
      rw [hp] at h
      obtain ⟨h1, h2, h3, h4⟩ := ih (s + 1) h
      refine ⟨by omega, by omega, h3, fun j hj1 hj2 => ?_⟩
      by_cases hjs : j = s
      · rw [hjs]; exact hp
      · exact h4 j (by omega) hj2

theorem find_range'_none (p : Nat → Bool) (n s : Nat)
    (h : (List.range' s n).find? p = none) :
    ∀ j, s ≤ j → j < s + n → p j = false := by
  intro j h1 h2
  rw [List.find?_eq_none] at h
  have := h j (by rw [List.mem_range'_1]; exact ⟨h1, h2⟩)
  simpa using this

theorem premature_some (raw : List Nat) (i k : Nat) (h : premature raw i = some k) :
    2 ≤ k ∧ k ≤ 21 ∧ byteAt raw (i + k) = 0xFA ∧
      ∀ j, 2 ≤ j → j < k → byteAt raw (i + j) ≠ 0xFA := by
  obtain ⟨h1, h2, h3, h4⟩ := find_range'_some _ _ _ _ h
  refine ⟨h1, by omega, by simpa using h3, fun j hj1 hj2 => ?_⟩
  simpa using h4 j hj1 hj2

theorem premature_none (raw : List Nat) (i : Nat) (h : premature raw i = none) :
    ∀ j, 2 ≤ j → j ≤ 21 → byteAt raw (i + j) ≠ 0xFA := by
  intro j h1 h2
  simpa using find_range'_none _ _ _ h j h1 (by omega)

theorem premature_none_of (raw : List Nat) (i : Nat)
    (h : ∀ j, 2 ≤ j → j ≤ 21 → byteAt raw (i + j) ≠ 0xFA) : premature raw i = none := by
  unfold premature
  rw [List.find?_eq_none]
  intro j hj
  rw [List.mem_range'_1] at hj
  simpa using h j hj.1 (by omega)


theorem walkLoop_done (raw : List Nat) (fuel : Nat) (w : Walk) (h : ¬ (w.i + 22 ≤ 1980)) :
    walkLoop false raw fuel w = some w := by
  unfold walkLoop
  simp [h]

theorem walkLoop_zero (raw : List Nat) (w : Walk) (h : w.i + 22 ≤ 1980) :
    walkLoop false raw 0 w = none := by
  unfold walkLoop
  simp [h]

theorem walkLoop_succ (raw : List Nat) (fuel : Nat) (w : Walk) (h : w.i + 22 ≤ 1980) :
    walkLoop false raw (fuel + 1) w =
      if (walkBody raw w).2 then some (walkBody raw w).1
      else walkLoop false raw fuel (walkBody raw w).1 := by
  rw [walkLoop]
  simp [h]

theorem walkBody_cases (raw : List Nat) (w : Walk) (hc : w.i + 22 ≤ 1980) :
    (∃ k, 1 ≤ k ∧ k ≤ 21 ∧ walkBody raw w = (moveTo w (w.i + k), false)) ∨
    (byteAt raw w.i = 0xFA ∧ pidxAt raw w.i < 90 ∧ premature raw w.i = none ∧
      ((pidxAt raw w.i = 89 ∧ walkBody raw w = (accept raw w, true)) ∨
       (pidxAt raw w.i ≠ 89 ∧
         walkBody raw w = ({ accept raw w with i := w.i + 22 }, false)))) := by
  by_cases h : byteAt raw w.i = 0xFA ∧ pidxAt raw w.i < 90
  · cases hk : premature raw w.i with
    | some k =>
      obtain ⟨h1, h2, -, -⟩ := premature_some raw w.i k hk
      left
      refine ⟨k, by omega, h2, ?_⟩
      rw [walkBody_premature raw w k h hk, Nat.mod_eq_of_lt (by omega)]
    | none =>
      right
      refine ⟨h.1, h.2, rfl, ?_⟩
      rw [walkBody_good raw w h hk]
      by_cases h89 : pidxAt raw w.i = 89
      · left; exact ⟨h89, by rw [if_pos h89]⟩
      · right; exact ⟨h89, by rw [if_neg h89, Nat.mod_eq_of_lt (by omega)]⟩
  · left
    refine ⟨1, le_refl _, by omega, ?_⟩
    rw [walkBody_skip raw w h, Nat.mod_eq_of_lt (by omega)]

/-- Every iteration that does not break moves the cursor forward, by at most 22. -/
theorem walkBody_cursor (raw : List Nat) (w : Walk) (hc : w.i + 22 ≤ 1980)
    (hb : (walkBody raw w).2 = false) :
    w.i + 1 ≤ (walkBody raw w).1.i ∧ (walkBody raw w).1.i ≤ w.i + 22 := by
  rcases walkBody_cases raw w hc with ⟨k, h1, h2, h⟩ | ⟨-, -, -, ⟨-, h⟩ | ⟨-, h⟩⟩
  · rw [h]; simp only [moveTo]; omega
  · rw [h] at hb; simp at hb
  · rw [h]; simp only [accept]; omega

/-- The walk ends: with `fuel + i ≥ 1959` the bound is not used up. -/
theorem walkLoop_total (raw : List Nat) (fuel : Nat) (w : Walk) (hf : 1959 ≤ fuel + w.i) :
    ∃ w1, walkLoop false raw fuel w = some w1 := by
  induction fuel generalizing w with
  | zero =>
    exact ⟨w, walkLoop_done raw 0 w (by omega)⟩
  | succ fuel ih =>
    by_cases hc : w.i + 22 ≤ 1980
    · rw [walkLoop_succ raw fuel w hc]
      cases hb : (walkBody raw w).2 with
      | true => exact ⟨(walkBody raw w).1, by simp⟩
      | false =>
        have := walkBody_cursor raw w hc hb
        simp only [Bool.false_eq_true, if_false]
        exact ih _ (by omega)
    · exact ⟨w, walkLoop_done raw _ w hc⟩

theorem walkLoop_fuel_succ (raw : List Nat) (fuel : Nat) (w w1 : Walk)
    (h : walkLoop false raw fuel w = some w1) : walkLoop false raw (fuel + 1) w = some w1 := by
  induction fuel generalizing w with
  | zero =>
    by_cases hc : w.i + 22 ≤ 1980
    · rw [walkLoop_zero raw w hc] at h; exact absurd h (by simp)
    · rw [walkLoop_done raw _ w hc] at h ⊢; exact h
  | succ fuel ih =>
    by_cases hc : w.i + 22 ≤ 1980
    · rw [walkLoop_succ raw _ w hc] at h ⊢
      cases hb : (walkBody raw w).2 with
      | true => rw [hb] at h; simpa using h
      | false =>
        rw [hb] at h
        simp only [Bool.false_eq_true, if_false] at h ⊢
        exact ih _ h
    · rw [walkLoop_done raw _ w hc] at h ⊢; exact h

/-- One iteration that does not break, seen from the whole loop. -/
theorem walkLoop_step (raw : List Nat) (w : Walk) (hc : w.i + 22 ≤ 1980)
    (hb : (walkBody raw w).2 = false) :
    walkLoop false raw 1980 w = walkLoop false raw 1980 (walkBody raw w).1 := by
  have h1 : walkLoop false raw 1980 w = walkLoop false raw 1979 (walkBody raw w).1 := by
    rw [walkLoop_succ raw 1979 w hc, hb]; simp
  obtain ⟨w1, h2⟩ := walkLoop_total raw 1979 (walkBody raw w).1 (by omega)
  rw [h1, h2, walkLoop_fuel_succ raw 1979 _ w1 h2]

/-- An iteration that breaks ends the loop. -/
theorem walkLoop_break (raw : List Nat) (w : Walk) (hc : w.i + 22 ≤ 1980)
    (hb : (walkBody raw w).2 = true) :
    walkLoop false raw 1980 w = some (walkBody raw w).1 := by
  rw [walkLoop_succ raw 1979 w hc, hb]; simp

/-- Invariants: a property kept by every iteration holds when the loop ends. -/
theorem walkLoop_invariant (raw : List Nat) (P : Walk → Prop)
    (hstep : ∀ w, w.i + 22 ≤ 1980 → P w → P (walkBody raw w).1)
    (fuel : Nat) (w w1 : Walk) (h0 : P w) (h : walkLoop false raw fuel w = some w1) : P w1 := by
  induction fuel generalizing w with
  | zero =>
    by_cases hc : w.i + 22 ≤ 1980
    · rw [walkLoop_zero raw w hc] at h; exact absurd h (by simp)
    · rw [walkLoop_done raw _ w hc] at h; cases h; exact h0
  | succ fuel ih =>
    by_cases hc : w.i + 22 ≤ 1980
    · rw [walkLoop_succ raw _ w hc] at h
      cases hb : (walkBody raw w).2 with
      | true =>
        rw [hb] at h
        simp only [if_true, Option.some.injEq] at h
        rw [← h]; exact hstep w hc h0
      | false =>
        rw [hb] at h
        simp only [Bool.false_eq_true, if_false] at h
        exact ih _ (hstep w hc h0) h
    · rw [walkLoop_done raw _ w hc] at h; cases h; exact h0


theorem consistent_init (raw : List Nat) (scan : LaserScan) :
    Consistent raw scan (walkInit scan) :=
  ⟨rfl, rfl, rfl, rfl, rfl⟩

theorem consistent_moveTo (raw : List Nat) (scan : LaserScan) (w : Walk) (i1 : Nat)
    (h : Consistent raw scan w) : Consistent raw scan (moveTo w i1) :=
  ⟨h.good_packets, h.rpms_sum, h.written, h.ranges, h.intensities⟩

theorem consistent_accept (raw : List Nat) (scan : LaserScan) (w : Walk)
    (h : Consistent raw scan w) : Consistent raw scan (accept raw w) := by
  constructor
  · simp only [accept, List.length_append, List.length_singleton, h.good_packets]
    omega
  · simp only [accept, List.map_append, List.sum_append, h.rpms_sum, List.map_cons,
      List.map_nil, List.sum_cons, List.sum_nil, Nat.add_zero]
  · simp only [accept, h.written, List.flatMap_append, List.flatMap_cons, List.flatMap_nil,
      List.append_nil, slotsAt]
  · simp only [accept, h.ranges, replay, List.foldl_append, List.foldl_cons, List.foldl_nil]
  · simp only [accept, h.intensities, replay, List.foldl_append, List.foldl_cons,
      List.foldl_nil]

theorem consistent_accept_move (raw : List Nat) (scan : LaserScan) (w : Walk) (i1 : Nat)
    (h : Consistent raw scan w) : Consistent raw scan { accept raw w with i := i1 } := by
  have h1 := consistent_accept raw scan w h
  exact ⟨h1.good_packets, h1.rpms_sum, h1.written, h1.ranges, h1.intensities⟩

theorem consistent_body (raw : List Nat) (scan : LaserScan) (w : Walk)
    (hc : w.i + 22 ≤ 1980) (h : Consistent raw scan w) :
    Consistent raw scan (walkBody raw w).1 := by
  rcases walkBody_cases raw w hc with ⟨k, -, -, hb⟩ | ⟨-, -, -, ⟨-, hb⟩ | ⟨-, hb⟩⟩
  · rw [hb]; exact consistent_moveTo raw scan w _ h
  · rw [hb]; exact consistent_accept raw scan w h
  · rw [hb]; exact consistent_accept_move raw scan w _ h

/-- The result of the walk is determined by the accepted cursors. -/
theorem walkLoop_consistent (raw : List Nat) (scan : LaserScan) (fuel : Nat) (w1 : Walk)
    (h : walkLoop false raw fuel (walkInit scan) = some w1) : Consistent raw scan w1 :=
  walkLoop_invariant raw (Consistent raw scan) (consistent_body raw scan) fuel _ w1
    (consistent_init raw scan) h

theorem write4_length (f : Nat → ℚ) (p c : Nat) (v : List ℚ) :
    (write4 f p c v).length = v.length := by
  simp [write4]

theorem write4_get_other (f : Nat → ℚ) (p c a : Nat) (v : List ℚ) (h : a / 4 ≠ p) :
    (write4 f p c v)[a]? = v[a]? := by
  unfold write4
  rw [List.getElem?_set_ne (by omega), List.getElem?_set_ne (by omega),
    List.getElem?_set_ne (by omega), List.getElem?_set_ne (by omega)]

theorem write4_get_slot (f : Nat → ℚ) (p c m : Nat) (v : List ℚ) (hm : m < 4)
    (hv : 4 * p + m < v.length) :
    (write4 f p c v)[4 * p + m]? = some (f (c + 4 + 4 * m)) := by
  unfold write4
  simp only [List.getElem?_set, List.length_set]
  have : m = 0 ∨ m = 1 ∨ m = 2 ∨ m = 3 := by omega
  rcases this with rfl | rfl | rfl | rfl <;> simp <;> omega

theorem replay_nil (raw : List Nat) (f : Nat → ℚ) (v : List ℚ) : replay raw f v [] = v := rfl

theorem replay_cons (raw : List Nat) (f : Nat → ℚ) (v : List ℚ) (c : Nat) (acc : List Nat) :
    replay raw f v (c :: acc) = replay raw f (write4 f (pidxAt raw c) c v) acc := rfl

theorem replay_length (raw : List Nat) (f : Nat → ℚ) (v : List ℚ) (acc : List Nat) :
    (replay raw f v acc).length = v.length := by
  induction acc generalizing v with
  | nil => rfl
  | cons c acc ih => rw [replay_cons, ih, write4_length]

/-- A slot that no accepted packet covers keeps its value. -/
theorem replay_get_other (raw : List Nat) (f : Nat → ℚ) (v : List ℚ) (acc : List Nat) (a : Nat)
    (h : ∀ c ∈ acc, pidxAt raw c ≠ a / 4) : (replay raw f v acc)[a]? = v[a]? := by
  induction acc generalizing v with
  | nil => rfl
  | cons c acc ih =>
    rw [replay_cons, ih _ (fun d hd => h d (List.mem_cons_of_mem _ hd)),
      write4_get_other _ _ _ _ _ (fun e => h c (List.mem_cons_self _ _) e.symm)]

/-- A slot covered by exactly one accepted packet holds that packet's sample. -/
theorem replay_get_slot (raw : List Nat) (f : Nat → ℚ) (v : List ℚ) (acc : List Nat)
    (c m : Nat) (hnd : (acc.map (pidxAt raw)).Nodup) (hc : c ∈ acc) (hm : m < 4)
    (hv : 4 * pidxAt raw c + m < v.length) :
    (replay raw f v acc)[4 * pidxAt raw c + m]? = some (f (c + 4 + 4 * m)) := by
  induction acc generalizing v with
  | nil => simp at hc
  | cons d acc ih =>
    rw [List.map_cons, List.nodup_cons] at hnd
    rw [replay_cons]
    by_cases hcd : c ∈ acc
    · exact ih _ hnd.2 hcd (by rw [write4_length]; exact hv)
    · have hd : c = d := by
        rcases List.mem_cons.mp hc with h | h
        · exact h
        · exact absurd h hcd
      subst hd
      rw [replay_get_other raw f _ acc _ (fun e he hpe => hnd.1 ?_), write4_get_slot f _ c m v hm hv]
      have : (4 * pidxAt raw c + m) / 4 = pidxAt raw c := by omega
      rw [this] at hpe
      rw [← hpe]
      exact List.mem_map_of_mem _ he

theorem fullRevolution_header (raw : List Nat) (h : FullRevolution raw) (p : Nat) (hp : p < 90) :
    (byteAt raw (22 * p) = 0xFA ∧ pidxAt raw (22 * p) < 90) ∧ pidxAt raw (22 * p) = p ∧
      premature raw (22 * p) = none := by
  obtain ⟨h1, h2, h3⟩ := h.2 p hp
  have hp : pidxAt raw (22 * p) = p := by
    unfold pidxAt; rw [h2]; omega
  exact ⟨⟨h1, by omega⟩, hp, premature_none_of raw _ h3⟩

theorem fullRevolution_walk (raw : List Nat) (h : FullRevolution raw) (m n : Nat) (w : Walk)
    (hn : n + m = 89) (hi : w.i = 22 * n) :
    ∃ w1, walkLoop false raw 1980 w = some w1 ∧
      w1.accepted = w.accepted ++ (List.range' n (m + 1)).map (fun p => 22 * p) := by
  induction m generalizing n w with
  | zero =>
    obtain ⟨h1, h2, h3⟩ := fullRevolution_header raw h n (by omega)
    rw [← hi] at h1 h2 h3
    have hb := walkBody_good raw w h1 h3
    rw [if_pos (by omega)] at hb
    refine ⟨accept raw w, ?_, ?_⟩
    · have := walkLoop_break raw w (by omega) (by rw [hb])
      rw [this, hb]
    · simp [accept, hi]
  | succ m ih =>
    obtain ⟨h1, h2, h3⟩ := fullRevolution_header raw h n (by omega)
    rw [← hi] at h1 h2 h3
    have hb := walkBody_good raw w h1 h3
    rw [if_neg (by omega), Nat.mod_eq_of_lt (by omega)] at hb
    have hs := walkLoop_step raw w (by omega) (by rw [hb])
    rw [hb] at hs
    obtain ⟨w1, hw1, ha⟩ := ih (n + 1) { accept raw w with i := w.i + 22 } (by omega)
      (by simp only; omega)
    refine ⟨w1, hs.trans hw1, ?_⟩
    rw [ha]
    simp only [accept, List.append_assoc, List.singleton_append, hi]
    rw [List.range'_succ n (m + 1), List.map_cons]

theorem flatMap_slots_range (n : Nat) :
    (List.range n).flatMap (fun p => [4 * p, 4 * p + 1, 4 * p + 2, 4 * p + 3])
      = List.range (4 * n) := by
  induction n with
  | zero => rfl
  | succ n ih =>
    rw [List.range_succ, List.flatMap_append, ih]
    simp only [List.flatMap_cons, List.flatMap_nil, List.append_nil]
    rw [show 4 * (n + 1) = 4 * n + 1 + 1 + 1 + 1 from by ring]
    simp only [List.range_succ, List.append_assoc, List.singleton_append]
    rfl


theorem take2_set (buf : List Nat) (x y : Nat) (h : 2 ≤ buf.length) :
    ((buf.set 0 x).set 1 y).take 2 = [x, y] := by
  match buf, h with
  | _ :: _ :: t, _ => rfl

theorem poll2_sync_head (self : XV11Laser) (scan : LaserScan) (buf s : List Nat)
    (hsd : self.shutting_down_ = false) (hbuf : 2 ≤ buf.length) :
    poll2Loop self scan 0 buf (0xFA :: 0xA0 :: s) =
      frame2 self scan ((buf.set 0 0xFA).set 1 0xA0) s := by
  match buf, hbuf with
  | a :: b :: t, _ => simp [poll2Loop, hsd, byteAt]

theorem frame2_ok (self : XV11Laser) (scan : LaserScan) (buf body rest : List Nat)
    (x y : Nat) (hbuf : buf.take 2 = [x, y]) (hlen : body.length = 1978) :
    frame2 self scan buf (body ++ rest) = decode2 self scan (x :: y :: body) rest := by
  have h3 : ¬ ((body ++ rest).length < 1978) := by
    rw [List.length_append, hlen]; omega
  have h4 : (body ++ rest).take 1978 = body := by
    rw [← hlen]; exact List.take_left _ _
  have h5 : (body ++ rest).drop 1978 = rest := by
    rw [← hlen]; exact List.drop_left _ _
  unfold frame2
  rw [if_neg h3, h4, h5, hbuf]
  rfl

theorem frame2_short (self : XV11Laser) (scan : LaserScan) (buf s : List Nat)
    (h : s.length < 1978) : frame2 self scan buf s = .transportFailure scan := by
  unfold frame2
  rw [if_pos h]

/-- The outcome of `poll` for firmware 2 on a stream that starts with `FA A0` and holds a whole frame. -/
theorem poll2_frame (ms rp : Nat) (scan : LaserScan) (body rest : List Nat)
    (hlen : body.length = 1978) :
    poll { firmware_ := 2, shutting_down_ := false, motor_speed_ := ms, rpms := rp,
           serial_ := 0xFA :: 0xA0 :: (body ++ rest) } scan =
      decode2 { firmware_ := 2, shutting_down_ := false, motor_speed_ := ms, rpms := 0,
                serial_ := 0xFA :: 0xA0 :: (body ++ rest) } (setup2 scan)
        (0xFA :: 0xA0 :: body) rest := by
  unfold poll
  rw [if_neg (show ¬ ((2 : Nat) = 1) by decide), if_pos rfl]
  simp only []
  rw [poll2_sync_head _ _ _ _ rfl (by rw [List.length_replicate]; omega)]
  exact frame2_ok _ _ _ body rest 0xFA 0xA0
    (take2_set _ _ _ (by rw [List.length_replicate]; omega)) hlen

theorem timing2_vectors (self : XV11Laser) (scan : LaserScan) (a b : Nat) :
    (timing2 self scan a b).2.ranges = scan.ranges ∧
    (timing2 self scan a b).2.intensities = scan.intensities := by
  unfold timing2
  split <;> exact ⟨rfl, rfl⟩

theorem decode2_returned (self : XV11Laser) (scan : LaserScan) (raw rest : List Nat) (w : Walk)
    (hsd : self.shutting_down_ = false)
    (h : walkLoop false raw 1980 (walkInit scan) = some w) :
    decode2 self scan raw rest =
      .returned
        (timing2 { self with serial_ := rest }
          { scan with ranges := w.ranges, intensities := w.intensities }
          w.rpms_sum w.good_packets).1
        (timing2 { self with serial_ := rest }
          { scan with ranges := w.ranges, intensities := w.intensities }
          w.rpms_sum w.good_packets).2 := by
  unfold decode2
  rw [hsd, h]

/-- A frame is its first two bytes followed by the other bytes. -/
theorem frame_split (raw : List Nat) (h : raw.length = 1980) :
    raw = byteAt raw 0 :: byteAt raw 1 :: raw.drop 2 ∧ (raw.drop 2).length = 1978 := by
  match raw, h with
  | a :: b :: t, h =>
    refine ⟨rfl, ?_⟩
    simp only [List.length_cons] at h
    simp only [List.drop_succ_cons, List.drop_zero]
    omega

theorem byteAt_map_range (n i : Nat) (f : Nat → Nat) (h : i < n) :
    byteAt ((List.range n).map f) i = f i := by
  unfold byteAt
  rw [List.getD_eq_getElem _ _ (by rw [List.length_map, List.length_range]; exact h)]
  rw [List.getElem_map, List.getElem_range]

theorem fullFrame_revolution (lo hi : Nat) (hlo : lo ≠ 0xFA) (hhi : hi ≠ 0xFA) :
    FullRevolution (fullFrame lo hi) := by
  refine ⟨by unfold fullFrame; rw [List.length_map, List.length_range], fun p hp => ?_⟩
  refine ⟨?_, ?_, fun k h1 h2 => ?_⟩
  · unfold fullFrame
    rw [byteAt_map_range _ _ _ (by omega), if_pos (by omega)]
  · unfold fullFrame
    rw [byteAt_map_range _ _ _ (by omega), if_neg (by omega), if_pos (by omega)]
    congr 1
    omega
  · unfold fullFrame
    rw [byteAt_map_range _ _ _ (by omega), if_neg (by omega), if_neg (by omega)]
    split
    · exact hlo
    · split
      · exact hhi
      · decide

theorem fullFrame_bytes (lo hi : Nat) (hlo : lo < 256) (hhi : hi < 256) :
    ∀ x ∈ fullFrame lo hi, x < 256 := by
  intro x hx
  unfold fullFrame at hx
  obtain ⟨i, hi1, rfl⟩ := List.mem_map.mp hx
  rw [List.mem_range] at hi1
  split
  · decide
  · split
    · omega
    · split
      · exact hlo
      · split
        · exact hhi
        · decide

theorem setup2_lengths (scan : LaserScan) :
    (setup2 scan).ranges.length = 360 ∧ (setup2 scan).intensities.length = 360 := by
  simp only [setup2, resize360, List.length_append, List.length_take, List.length_replicate]
  omega

/-- The walk over a whole revolution: the 90 packets are accepted, in order. -/
theorem fullRevolution_result (raw : List Nat) (scan : LaserScan) (h : FullRevolution raw) :
    ∃ w1, walkLoop false raw 1980 (walkInit scan) = some w1 ∧
      w1.accepted = (List.range 90).map (fun p => 22 * p) ∧ Consistent raw scan w1 := by
  obtain ⟨w1, h1, h2⟩ := fullRevolution_walk raw h 89 0 (walkInit scan) rfl rfl
  refine ⟨w1, h1, ?_, walkLoop_consistent raw scan 1980 w1 h1⟩
  rw [h2, List.range_eq_range']
  rfl

theorem fullRevolution_pidx (raw : List Nat) (h : FullRevolution raw) :
    ((List.range 90).map (fun p => 22 * p)).map (pidxAt raw) = List.range 90 := by
  rw [List.map_map]
  conv_rhs => rw [← List.map_id (List.range 90)]
  apply List.map_congr_left
  intro p hp
  rw [List.mem_range] at hp
  exact (fullRevolution_header raw h p hp).2.1

theorem fullRevolution_written (raw : List Nat) (h : FullRevolution raw) :
    ((List.range 90).map (fun p => 22 * p)).flatMap (slotsAt raw) = List.range 360 := by
  rw [← flatMap_slots_range 90, List.flatMap_map]
  apply List.flatMap_congr
  intro p hp
  rw [List.mem_range] at hp
  simp only [slotsAt, (fullRevolution_header raw h p hp).2.1]

/-! ## Firmware 2: a whole revolution -/

/-- The outcome of `poll` on a whole revolution, in terms of the result of the walk. -/
theorem fullRevolution_poll (ms rp : Nat) (scan : LaserScan) (raw rest : List Nat)
    (hrev : FullRevolution raw) :
    ∃ w1, walkLoop false raw 1980 (walkInit (setup2 scan)) = some w1 ∧
      w1.accepted = (List.range 90).map (fun p => 22 * p) ∧
      Consistent raw (setup2 scan) w1 ∧
      poll { firmware_ := 2, shutting_down_ := false, motor_speed_ := ms, rpms := rp,
             serial_ := raw ++ rest } scan =
        .returned
          (timing2
            { firmware_ := 2, shutting_down_ := false, motor_speed_ := ms, rpms := 0,
              serial_ := rest }
            { setup2 scan with ranges := w1.ranges, intensities := w1.intensities }
            w1.rpms_sum w1.good_packets).1
          (timing2
            { firmware_ := 2, shutting_down_ := false, motor_speed_ := ms, rpms := 0,
              serial_ := rest }
            { setup2 scan with ranges := w1.ranges, intensities := w1.intensities }
            w1.rpms_sum w1.good_packets).2 := by
  obtain ⟨w1, hw, hacc, hcons⟩ := fullRevolution_result raw (setup2 scan) hrev
  obtain ⟨hsplit, hdl⟩ := frame_split raw hrev.1
  obtain ⟨h0, h1, -⟩ := hrev.2 0 (by omega)
  rw [h0] at hsplit
  rw [show byteAt raw (22 * 0 + 1) = byteAt raw 1 from rfl] at h1
  rw [h1] at hsplit
  have hp := poll2_frame ms rp scan (raw.drop 2) rest hdl
  rw [show (0xFA :: 0xA0 :: (raw.drop 2 ++ rest)) = (0xFA :: (0xA0 + 0) :: raw.drop 2) ++ rest
    from rfl, ← hsplit] at hp
  rw [decode2_returned _ _ raw rest w1 rfl hw] at hp
  exact ⟨w1, hw, hacc, hcons, hp⟩

/-- C2. Gen-2 full revolution: on a 1980-byte frame of 90 packets in order
(packet `p` at offset `22p` with bytes `0xFA`, `0xA0+p`, no `0xFA` at its
offsets 2..21) the walk ends having counted exactly 90 good packets, accepted
at the cursors `0, 22, ..., 1958`, and having written each of the 360 angles
exactly once (the angles written are `0, 1, ..., 359`); slot `4p+m` holds the
range `(((byte1 & 0x3F) << 8) + byte0) / 1000` and the intensity
`(byte3 << 8) + byte2` of the sample at offset `22p+4+4m`, and these are the
vectors of the scan that `poll` returns. -/
theorem gen2_full_revolution (ms rp : Nat) (scan : LaserScan) (raw rest : List Nat)
    (hrev : FullRevolution raw) (hbyte : ∀ x ∈ raw, x < 256) :
    ∃ w1, walkLoop false raw 1980 (walkInit (setup2 scan)) = some w1 ∧
      w1.good_packets = 90 ∧
      w1.accepted = (List.range 90).map (fun p => 22 * p) ∧
      w1.written = List.range 360 ∧
      (∀ p m, p < 90 → m < 4 →
        w1.ranges[4 * p + m]? =
          some ((((byteAt raw (22 * p + 4 + 4 * m + 1) &&& 0x3F) <<< 8)
            + byteAt raw (22 * p + 4 + 4 * m) : Nat) / 1000 : ℚ) ∧
        w1.intensities[4 * p + m]? =
          some (((byteAt raw (22 * p + 4 + 4 * m + 3) <<< 8)
            + byteAt raw (22 * p + 4 + 4 * m + 2) : Nat) : ℚ)) ∧
      ∃ self1 scan1,
        poll { firmware_ := 2, shutting_down_ := false, motor_speed_ := ms, rpms := rp,
               serial_ := raw ++ rest } scan = .returned self1 scan1 ∧
        scan1.ranges = w1.ranges ∧ scan1.intensities = w1.intensities ∧
        scan1.ranges.length = 360 ∧ scan1.intensities.length = 360 := by
  obtain ⟨w1, hw, hacc, hcons⟩ := fullRevolution_result raw (setup2 scan) hrev
  have hnd : (w1.accepted.map (pidxAt raw)).Nodup := by
    rw [hacc, fullRevolution_pidx raw hrev]; exact List.nodup_range 90
  obtain ⟨hlr, hli⟩ := setup2_lengths scan
  refine ⟨w1, hw, ?_, hacc, ?_, ?_, ?_⟩
  · rw [hcons.good_packets, hacc, List.length_map, List.length_range]
  · rw [hcons.written, hacc]; exact fullRevolution_written raw hrev
  · intro p m hp hm
    have hmem : 22 * p ∈ w1.accepted := by
      rw [hacc]; exact List.mem_map.mpr ⟨p, List.mem_range.mpr hp, rfl⟩
    have hpx : pidxAt raw (22 * p) = p := (fullRevolution_header raw hrev p hp).2.1
    have hr := replay_get_slot raw (sampleRange raw) (setup2 scan).ranges w1.accepted
      (22 * p) m hnd hmem hm (by rw [hpx, hlr]; omega)
    have hi := replay_get_slot raw (sampleIntensity raw) (setup2 scan).intensities w1.accepted
      (22 * p) m hnd hmem hm (by rw [hpx, hli]; omega)
    rw [hpx] at hr hi
    rw [hcons.ranges, hcons.intensities, hr, hi]
    unfold sampleRange sampleIntensity
    rw [decodeRange_eq _ _ (byteAt_lt raw hbyte _),
      decodeIntensity_eq _ _ (byteAt_lt raw hbyte _) (byteAt_lt raw hbyte _)]
    exact ⟨rfl, rfl⟩
  · obtain ⟨hsplit, hdl⟩ := frame_split raw hrev.1
    obtain ⟨h0, h1, -⟩ := hrev.2 0 (by omega)
    rw [h0] at hsplit
    rw [show byteAt raw (22 * 0 + 1) = byteAt raw 1 from rfl] at h1
    rw [h1] at hsplit
    have hp := poll2_frame ms rp scan (raw.drop 2) rest hdl
    rw [show (0xFA :: 0xA0 :: (raw.drop 2 ++ rest)) = (0xFA :: (0xA0 + 0) :: raw.drop 2) ++ rest
      from rfl, ← hsplit] at hp
    rw [decode2_returned _ _ raw rest w1 rfl hw] at hp
    obtain ⟨ht1, ht2⟩ := timing2_vectors
      { firmware_ := 2, shutting_down_ := false, motor_speed_ := ms, rpms := 0, serial_ := rest }
      { setup2 scan with ranges := w1.ranges, intensities := w1.intensities }
      w1.rpms_sum w1.good_packets
    refine ⟨_, _, hp, ht1, ht2, ?_, ?_⟩
    · rw [ht1, hcons.ranges, replay_length, hlr]
    · rw [ht2, hcons.intensities, replay_length, hli]

/-- C2 at the revolution whose packets all carry the speed 6400 and zero samples. -/
theorem gen2_full_revolution_witness :
    ∃ w1, walkLoop false (fullFrame 0 25) 1980 (walkInit (setup2 LaserScan.empty)) = some w1 ∧
      w1.good_packets = 90 ∧
      w1.accepted = (List.range 90).map (fun p => 22 * p) ∧
      w1.written = List.range 360 ∧
      (∀ p m, p < 90 → m < 4 →
        w1.ranges[4 * p + m]? =
          some ((((byteAt (fullFrame 0 25) (22 * p + 4 + 4 * m + 1) &&& 0x3F) <<< 8)
            + byteAt (fullFrame 0 25) (22 * p + 4 + 4 * m) : Nat) / 1000 : ℚ) ∧
        w1.intensities[4 * p + m]? =
          some (((byteAt (fullFrame 0 25) (22 * p + 4 + 4 * m + 3) <<< 8)
            + byteAt (fullFrame 0 25) (22 * p + 4 + 4 * m + 2) : Nat) : ℚ)) ∧
      ∃ self1 scan1,
        poll { firmware_ := 2, shutting_down_ := false, motor_speed_ := 0, rpms := 0,
               serial_ := fullFrame 0 25 ++ [] } LaserScan.empty = .returned self1 scan1 ∧
        scan1.ranges = w1.ranges ∧ scan1.intensities = w1.intensities ∧
        scan1.ranges.length = 360 ∧ scan1.intensities.length = 360 :=
  gen2_full_revolution 0 0 LaserScan.empty (fullFrame 0 25) []
    (fullFrame_revolution 0 25 (by decide) (by decide))
    (fullFrame_bytes 0 25 (by decide) (by decide))

/-! ## Firmware 2: the motor speed of a whole revolution -/

theorem speed64_eq (raw : List Nat) (hbyte : ∀ x ∈ raw, x < 256) (c : Nat) :
    speed64 raw c = (byteAt raw (c + 2) + 256 * byteAt raw (c + 3)) / 64 := by
  unfold speed64
  have h2 : byteAt raw (c + 2) < 2 ^ 8 := byteAt_lt raw hbyte _
  rw [Nat.shiftLeft_eq, Nat.mul_comm, ← Nat.mul_add_lt_is_or h2, Nat.add_comm]

theorem timing2_rpms (self : XV11Laser) (scan : LaserScan) (a b : Nat) :
    (timing2 self scan a b).1.rpms = if b = 0 then 0 else a / b := by
  unfold timing2
  by_cases ha : a > 0
  · by_cases hb : b > 0
    · rw [if_pos ⟨ha, hb⟩, if_neg (by omega)]
    · rw [if_neg (by omega), if_pos (by omega)]
  · rw [if_neg (by omega)]
    have : a = 0 := by omega
    subst this
    split <;> simp

/-- The value of `rpms` after `poll` on a whole revolution, in terms of the
speed bytes of the packets. -/
theorem fullRevolution_rpms (ms rp : Nat) (scan : LaserScan) (raw rest : List Nat)
    (hrev : FullRevolution raw) (hbyte : ∀ x ∈ raw, x < 256) :
    ∃ self1 scan1,
      poll { firmware_ := 2, shutting_down_ := false, motor_speed_ := ms, rpms := rp,
             serial_ := raw ++ rest } scan = .returned self1 scan1 ∧
      self1.rpms =
        ((List.range 90).map
          (fun p => (byteAt raw (22 * p + 2) + 256 * byteAt raw (22 * p + 3)) / 64)).sum / 90 := by
  obtain ⟨w1, -, hacc, hcons, hp⟩ := fullRevolution_poll ms rp scan raw rest hrev
  have hsum : w1.rpms_sum = ((List.range 90).map
      (fun p => (byteAt raw (22 * p + 2) + 256 * byteAt raw (22 * p + 3)) / 64)).sum := by
    rw [hcons.rpms_sum, hacc, List.map_map]
    congr 1
    apply List.map_congr_left
    intro p _
    exact speed64_eq raw hbyte (22 * p)
  have hgp : w1.good_packets = 90 := by
    rw [hcons.good_packets, hacc, List.length_map, List.length_range]
  refine ⟨_, _, hp, ?_⟩
  rw [timing2_rpms, hgp, hsum, if_neg (by decide)]

theorem fullFrame_speed (lo hi p : Nat) (hp : p < 90) :
    byteAt (fullFrame lo hi) (22 * p + 2) = lo ∧ byteAt (fullFrame lo hi) (22 * p + 3) = hi := by
  unfold fullFrame
  constructor
  · rw [byteAt_map_range _ _ _ (by omega), if_neg (by omega), if_neg (by omega),
      if_pos (by omega)]
  · rw [byteAt_map_range _ _ _ (by omega), if_neg (by omega), if_neg (by omega),
      if_neg (by omega), if_pos (by omega)]

theorem map_range_const_of_lt {α : Type} (n : Nat) (f : Nat → α) (c : α)
    (h : ∀ k, k < n → f k = c) : (List.range n).map f = List.replicate n c := by
  apply List.eq_replicate_iff.mpr
  refine ⟨by rw [List.length_map, List.length_range], ?_⟩
  intro x hx
  obtain ⟨k, hk, rfl⟩ := List.mem_map.mp hx
  exact h k (List.mem_range.mp hk)

/-- C5 (as stated, refuted). On the revolution whose 90 packets all carry the
raw speed 100, `poll` computes `rpms = 1`, while the average of `raw_speed_i/64`
taken as exact rationals is `25/16`. -/
theorem gen2_rpm_exact_average_fails :
    ∃ self1 scan1,
      poll { firmware_ := 2, shutting_down_ := false, motor_speed_ := 0, rpms := 0,
             serial_ := fullFrame 100 0 ++ [] } LaserScan.empty = .returned self1 scan1 ∧
      (self1.rpms : ℚ) ≠
        ((List.range 90).map
          (fun p => ((byteAt (fullFrame 100 0) (22 * p + 2)
            + 256 * byteAt (fullFrame 100 0) (22 * p + 3) : Nat) : ℚ) / 64)).sum / 90 := by
  obtain ⟨self1, scan1, hp, hr⟩ := fullRevolution_rpms 0 0 LaserScan.empty (fullFrame 100 0) []
    (fullFrame_revolution 100 0 (by decide) (by decide))
    (fullFrame_bytes 100 0 (by decide) (by decide))
  refine ⟨self1, scan1, hp, ?_⟩
  have h1 : (List.range 90).map
      (fun p => (byteAt (fullFrame 100 0) (22 * p + 2)
        + 256 * byteAt (fullFrame 100 0) (22 * p + 3)) / 64) = List.replicate 90 1 :=
    map_range_const_of_lt 90 _ 1 (fun k hk => by
      rw [(fullFrame_speed 100 0 k hk).1, (fullFrame_speed 100 0 k hk).2])
  have h2 : (List.range 90).map
      (fun p => ((byteAt (fullFrame 100 0) (22 * p + 2)
        + 256 * byteAt (fullFrame 100 0) (22 * p + 3) : Nat) : ℚ) / 64)
        = List.replicate 90 (25 / 16 : ℚ) :=
    map_range_const_of_lt 90 _ _ (fun k hk => by
      rw [(fullFrame_speed 100 0 k hk).1, (fullFrame_speed 100 0 k hk).2]; norm_num)
  rw [hr, h1, h2, List.sum_replicate, List.sum_replicate]
  norm_num

/-- C5 (amended). On a whole revolution of 90 well-formed packets the `rpms`
computed by `poll` is the integer quotient by 90 of the sum of the integer
quotients `raw_speed_i / 64`, where `raw_speed_i` is the little-endian speed
field of packet `i`. -/
theorem gen2_rpm_floor_average (ms rp : Nat) (scan : LaserScan) (raw rest : List Nat)
    (hrev : FullRevolution raw) (hbyte : ∀ x ∈ raw, x < 256) :
    ∃ self1 scan1,
      poll { firmware_ := 2, shutting_down_ := false, motor_speed_ := ms, rpms := rp,
             serial_ := raw ++ rest } scan = .returned self1 scan1 ∧
      self1.rpms =
        ((List.range 90).map
          (fun p => (byteAt raw (22 * p + 2) + 256 * byteAt raw (22 * p + 3)) / 64)).sum / 90 := by
  -- the walk accepts the 90 packets; its counters are sums over them
  obtain ⟨w1, -, hacc, hcons, hp⟩ := fullRevolution_poll ms rp scan raw rest hrev
  refine ⟨_, _, hp, ?_⟩
  rw [timing2_rpms, hcons.good_packets, hcons.rpms_sum, hacc, List.length_map,
    List.length_range, if_neg (by decide), List.map_map]
  -- each term of the sum is the integer quotient of the little-endian speed by 64
  congr 2
  apply List.map_congr_left
  intro p _
  exact speed64_eq raw hbyte (22 * p)

/-- C5 (amended) at the revolution whose packets all carry the raw speed 6400. -/
theorem gen2_rpm_floor_average_witness :
    ∃ self1 scan1,
      poll { firmware_ := 2, shutting_down_ := false, motor_speed_ := 0, rpms := 0,
             serial_ := fullFrame 0 25 ++ [] } LaserScan.empty = .returned self1 scan1 ∧
      self1.rpms =
        ((List.range 90).map
          (fun p => (byteAt (fullFrame 0 25) (22 * p + 2)
            + 256 * byteAt (fullFrame 0 25) (22 * p + 3)) / 64)).sum / 90 :=
  gen2_rpm_floor_average 0 0 LaserScan.empty (fullFrame 0 25) []
    (fullFrame_revolution 0 25 (by decide) (by decide))
    (fullFrame_bytes 0 25 (by decide) (by decide))

/-! ## Firmware 2: timing -/

theorem slowingFrame_revolution : FullRevolution slowingFrame := by
  refine ⟨by unfold slowingFrame; rw [List.length_map, List.length_range], fun p hp => ?_⟩
  refine ⟨?_, ?_, fun k h1 h2 => ?_⟩
  · unfold slowingFrame
    rw [byteAt_map_range _ _ _ (by omega), if_pos (by omega)]
  · unfold slowingFrame
    rw [byteAt_map_range _ _ _ (by omega), if_neg (by omega), if_pos (by omega)]
    congr 1
    omega
  · unfold slowingFrame
    rw [byteAt_map_range _ _ _ (by omega), if_neg (by omega), if_neg (by omega)]
    split <;> decide

theorem slowingFrame_speed64 (p : Nat) (hp : p < 90) :
    speed64 slowingFrame (22 * p) = if p = 0 then 1 else 0 := by
  unfold speed64 slowingFrame
  rw [byteAt_map_range _ _ _ (by omega), byteAt_map_range _ _ _ (by omega),
    if_neg (by omega), if_neg (by omega), if_neg (by omega), if_neg (by omega),
    if_neg (by omega)]
  by_cases h : p = 0
  · subst h; rfl
  · rw [if_neg (by omega), if_neg h]; rfl

theorem sum_map_range_first (f : Nat → Nat) (n c : Nat) (h0 : f 0 = c)
    (h : ∀ k, 0 < k → k < n + 1 → f k = 0) : ((List.range (n + 1)).map f).sum = c := by
  rw [List.range_eq_range', List.range'_succ, List.map_cons, List.sum_cons, h0]
  have ht : (List.range' (0 + 1) n).map f = List.replicate n 0 := by
    apply List.eq_replicate_iff.mpr
    refine ⟨by rw [List.length_map, List.length_range'], ?_⟩
    intro x hx
    obtain ⟨k, hk, rfl⟩ := List.mem_map.mp hx
    rw [List.mem_range'_1] at hk
    exact h k (by omega) (by omega)
  rw [ht, List.sum_replicate, smul_zero, Nat.add_zero]

theorem slowingFrame_sum :
    (((List.range 90).map (fun p => 22 * p)).map (speed64 slowingFrame)).sum = 1 := by
  have h0 : speed64 slowingFrame (22 * 0) = 1 := by
    rw [slowingFrame_speed64 0 (by omega), if_pos rfl]
  have ht : ∀ k, 0 < k → k < 89 + 1 → speed64 slowingFrame (22 * k) = 0 := by
    intro k h1 h2
    rw [slowingFrame_speed64 k h2, if_neg (by omega)]
  rw [List.map_map]
  simp only [Function.comp_def]
  exact sum_map_range_first (fun p => speed64 slowingFrame (22 * p)) 89 1 h0 ht

/-- C4 (the code at the failing input). On the revolution `slowingFrame`
(90 well-formed packets, raw speeds 64, 0, ..., 0) `poll` finds
`rpms_sum = 1` and `good_packets = 90`, passes the guard, computes `rpms = 0`
and carries out `60.0 / rpms`: the scan is returned with `scan_time = +inf`
and `time_increment = +inf`, not 0. -/
theorem gen2_scan_time_division_by_zero :
    ∃ self1 scan1,
      poll { firmware_ := 2, shutting_down_ := false, motor_speed_ := 0, rpms := 0,
             serial_ := slowingFrame ++ [] } LaserScan.empty = .returned self1 scan1 ∧
      self1.rpms = 0 ∧ scan1.scan_time = Flt.inf ∧ scan1.time_increment = Flt.inf := by
  obtain ⟨w1, -, hacc, hcons, hp⟩ :=
    fullRevolution_poll 0 0 LaserScan.empty slowingFrame [] slowingFrame_revolution
  have hs : w1.rpms_sum = 1 := by rw [hcons.rpms_sum, hacc]; exact slowingFrame_sum
  have hg : w1.good_packets = 90 := by
    rw [hcons.good_packets, hacc, List.length_map, List.length_range]
  rw [hs, hg] at hp
  refine ⟨_, _, hp, ?_, ?_, ?_⟩ <;> simp [timing2, Flt.div]

/-! ## Firmware 2: a single good packet -/

/-- From a cursor after which the buffer holds no header byte, the walk only
moves the cursor: nothing more is accepted. -/
theorem walkLoop_no_header (raw : List Nat) (n : Nat) (w : Walk)
    (hn : w.i + n = 1959)
    (h : ∀ j, w.i ≤ j → j < 1959 → byteAt raw j ≠ 0xFA) :
    ∃ w1, walkLoop false raw 1980 w = some w1 ∧ w1.accepted = w.accepted := by
  induction n generalizing w with
  | zero => exact ⟨w, walkLoop_done raw _ w (by omega), rfl⟩
  | succ n ih =>
    have hb := walkBody_skip raw w (fun hh => h w.i (le_refl _) (by omega) hh.1)
    rw [Nat.mod_eq_of_lt (by omega)] at hb
    have hs := walkLoop_step raw w (by omega) (by rw [hb])
    rw [hb] at hs
    obtain ⟨w1, hw1, ha⟩ := ih (moveTo w (w.i + 1)) (by simp only [moveTo]; omega)
      (fun j h1 h2 => h j (by simp only [moveTo] at h1; omega) h2)
    exact ⟨w1, hs.trans hw1, ha⟩

theorem singlePacketFrame_byte (j : Nat) (hj : j < 1980) :
    byteAt singlePacketFrame j =
      if j = 0 then 0xFA else if j = 1 then 0xA0 else if j = 3 then 25 else 0 := by
  unfold singlePacketFrame
  rw [byteAt_map_range _ _ _ hj]

theorem singlePacketFrame_accepted (scan : LaserScan) :
    ∃ w1, walkLoop false singlePacketFrame 1980 (walkInit scan) = some w1 ∧
      w1.accepted = [0] := by
  have h0 : byteAt singlePacketFrame 0 = 0xFA := by
    rw [singlePacketFrame_byte 0 (by omega), if_pos rfl]
  have h1 : pidxAt singlePacketFrame 0 = 0 := by
    unfold pidxAt
    rw [singlePacketFrame_byte (0 + 1) (by omega), if_neg (by omega), if_pos rfl]
  have h2 : premature singlePacketFrame 0 = none := by
    apply premature_none_of
    intro j hj1 hj2
    rw [singlePacketFrame_byte (0 + j) (by omega), if_neg (by omega), if_neg (by omega)]
    split <;> decide
  have hb := walkBody_good singlePacketFrame (walkInit scan)
    ⟨h0, by rw [show (walkInit scan).i = 0 from rfl, h1]; omega⟩ h2
  rw [show (walkInit scan).i = 0 from rfl, h1,
    if_neg (by omega)] at hb
  have hs := walkLoop_step singlePacketFrame (walkInit scan)
    (by show 0 + 22 ≤ 1980; omega) (by rw [hb])
  rw [hb] at hs
  obtain ⟨w1, hw1, ha⟩ := walkLoop_no_header singlePacketFrame 1937
    { accept singlePacketFrame (walkInit scan) with i := (0 + 22) % 65536 }
    rfl
    (fun j hj1 hj2 => by
      have hj : 22 ≤ j := hj1
      rw [singlePacketFrame_byte j (by omega), if_neg (by omega), if_neg (by omega),
        if_neg (by omega)]
      decide)
  exact ⟨w1, hs.trans hw1, ha⟩


theorem byteAt_0_add (raw : List Nat) (j : Nat) : byteAt raw (0 + j) = byteAt raw j := by
  rw [Nat.zero_add]

theorem resize360_length (v : List ℚ) : (resize360 v).length = 360 := by
  simp only [resize360, List.length_append, List.length_take, List.length_replicate]
  omega

theorem resize360_nil_get (a : Nat) (ha : a < 360) : (resize360 [])[a]? = some 0 := by
  unfold resize360
  rw [List.take_nil, List.nil_append, List.getElem?_replicate]
  rw [if_pos (by simpa using ha)]

/-- C10. Gen-2 single good packet: on a 1980-byte frame whose first 22 bytes
are a well-formed packet with index `p` and raw speed `s`, the walk on a fresh
scan ends, and when no other cursor position was accepted it ends with
`good_packets = 1`, `rpms_sum = s / 64`, exactly the four angles `4p..4p+3`
written, from the packet's samples, and every other slot at the default 0.
On the example frame (`p = 0`, `s = 6400`, zero samples, zeros after the
packet) no other cursor is accepted, `rpms_sum = 100`, `good_packets = 1` and
all 360 ranges and intensities are 0. -/
theorem gen2_single_good_packet (raw : List Nat) (p s : Nat)
    (_hlen : raw.length = 1980) (hbyte : ∀ x ∈ raw, x < 256)
    (h0 : byteAt raw 0 = 0xFA) (h1 : byteAt raw 1 = 0xA0 + p) (hp : p < 90)
    (hs : s = byteAt raw 2 + 256 * byteAt raw 3)
    (hno : ∀ k, 2 ≤ k → k ≤ 21 → byteAt raw k ≠ 0xFA) :
    (∃ w1, walkLoop false raw 1980 (walkInit (setup2 LaserScan.empty)) = some w1 ∧
      0 ∈ w1.accepted ∧
      (w1.accepted = [0] →
        w1.good_packets = 1 ∧ w1.rpms_sum = s / 64 ∧
        w1.written = [4 * p, 4 * p + 1, 4 * p + 2, 4 * p + 3] ∧
        (∀ m, m < 4 →
          w1.ranges[4 * p + m]? =
            some ((((byteAt raw (4 + 4 * m + 1) &&& 0x3F) <<< 8)
              + byteAt raw (4 + 4 * m) : Nat) / 1000 : ℚ) ∧
          w1.intensities[4 * p + m]? =
            some (((byteAt raw (4 + 4 * m + 3) <<< 8) + byteAt raw (4 + 4 * m + 2) : Nat) : ℚ)) ∧
        (∀ a, a < 360 → a / 4 ≠ p →
          w1.ranges[a]? = some 0 ∧ w1.intensities[a]? = some 0))) ∧
    (∃ w1, walkLoop false singlePacketFrame 1980 (walkInit (setup2 LaserScan.empty)) = some w1 ∧
      w1.accepted = [0] ∧ w1.good_packets = 1 ∧ w1.rpms_sum = 100 ∧
      w1.written = [0, 1, 2, 3] ∧
      w1.ranges = List.replicate 360 0 ∧ w1.intensities = List.replicate 360 0) := by
  have hpx : pidxAt raw 0 = p := by unfold pidxAt; rw [show 0 + 1 = 1 from rfl, h1]; omega
  constructor
  · obtain ⟨w1, hw⟩ := walkLoop_total raw 1980 (walkInit (setup2 LaserScan.empty)) (by omega)
    have hcons := walkLoop_consistent raw _ 1980 w1 hw
    refine ⟨w1, hw, ?_, fun hacc => ?_⟩
    · -- the first iteration accepts the packet at cursor 0
      have hpre : premature raw 0 = none :=
        premature_none_of raw 0 (fun j a b => by rw [byteAt_0_add]; exact hno j a b)
      have hb := walkBody_good raw (walkInit (setup2 LaserScan.empty))
        ⟨h0, by rw [show (walkInit (setup2 LaserScan.empty)).i = 0 from rfl, hpx]; exact hp⟩ hpre
      have hmem : 0 ∈ (walkBody raw (walkInit (setup2 LaserScan.empty))).1.accepted := by
        rw [hb]; split <;> simp [accept, walkInit]
      have hc : (walkInit (setup2 LaserScan.empty)).i + 22 ≤ 1980 := by
        show 0 + 22 ≤ 1980; omega
      have hw2 := hw
      rw [walkLoop_succ raw 1979 _ hc] at hw2
      cases hbr : (walkBody raw (walkInit (setup2 LaserScan.empty))).2 with
      | true =>
        rw [hbr] at hw2
        simp only [if_true, Option.some.injEq] at hw2
        rw [← hw2]; exact hmem
      | false =>
        rw [hbr] at hw2
        simp only [Bool.false_eq_true, if_false] at hw2
        exact walkLoop_invariant raw (fun w => 0 ∈ w.accepted)
          (fun w hcw hin => by
            rcases walkBody_cases raw w hcw with ⟨k, -, -, hb⟩ | ⟨-, -, -, ⟨-, hb⟩ | ⟨-, hb⟩⟩
            · rw [hb]; exact hin
            · rw [hb]; exact List.mem_append_left _ hin
            · rw [hb]; exact List.mem_append_left _ hin)
          1979 _ w1 hmem hw2
    · refine ⟨?_, ?_, ?_, ?_, ?_⟩
      · rw [hcons.good_packets, hacc]; rfl
      · rw [hcons.rpms_sum, hacc, hs]
        simp only [List.map_cons, List.map_nil, List.sum_cons, List.sum_nil, Nat.add_zero]
        rw [speed64_eq raw hbyte 0]
      · rw [hcons.written, hacc]
        simp only [List.flatMap_cons, List.flatMap_nil, List.append_nil, slotsAt, hpx]
      · intro m hm
        have hnd : (([0] : List Nat).map (pidxAt raw)).Nodup := by simp
        have hr := replay_get_slot raw (sampleRange raw) (setup2 LaserScan.empty).ranges [0]
          0 m hnd (List.mem_singleton.mpr rfl) hm
          (by rw [hpx, (setup2_lengths _).1]; omega)
        have hi := replay_get_slot raw (sampleIntensity raw)
          (setup2 LaserScan.empty).intensities [0]
          0 m hnd (List.mem_singleton.mpr rfl) hm
          (by rw [hpx, (setup2_lengths _).2]; omega)
        rw [hpx] at hr hi
        rw [hcons.ranges, hcons.intensities, hacc, hr, hi]
        unfold sampleRange sampleIntensity
        rw [decodeRange_eq _ _ (byteAt_lt raw hbyte _),
          decodeIntensity_eq _ _ (byteAt_lt raw hbyte _) (byteAt_lt raw hbyte _)]
        simp only [Nat.zero_add, and_self]
      · intro a ha hap
        have hoth : ∀ c ∈ ([0] : List Nat), pidxAt raw c ≠ a / 4 := by
          intro c hc
          rw [List.mem_singleton.mp hc, hpx]
          exact fun e => hap e.symm
        rw [hcons.ranges, hcons.intensities, hacc,
          replay_get_other raw _ _ _ a hoth, replay_get_other raw _ _ _ a hoth]
        exact ⟨resize360_nil_get a ha, resize360_nil_get a ha⟩
  · obtain ⟨w1, hw, hacc⟩ := singlePacketFrame_accepted (setup2 LaserScan.empty)
    have hcons := walkLoop_consistent singlePacketFrame _ 1980 w1 hw
    have hzero : ∀ (f : Nat → ℚ), (∀ j, 4 ≤ j → j ≤ 16 → f j = 0) →
        replay singlePacketFrame f (resize360 []) [0] = List.replicate 360 0 := by
      intro f hf
      apply List.ext_getElem?
      intro a
      by_cases ha : a < 360
      · rw [List.getElem?_replicate, if_pos ha]
        by_cases hq : a / 4 = pidxAt singlePacketFrame 0
        · have hnd : (([0] : List Nat).map (pidxAt singlePacketFrame)).Nodup := by simp
          have := replay_get_slot singlePacketFrame f (resize360 []) [0] 0 (a % 4) hnd
            (List.mem_singleton.mpr rfl) (Nat.mod_lt _ (by omega))
            (by rw [← hq, resize360_length]; omega)
          rw [← hq, show 4 * (a / 4) + a % 4 = a from Nat.div_add_mod a 4] at this
          rw [this, hf _ (by omega) (by omega)]
        · rw [replay_get_other singlePacketFrame f _ _ a
            (fun c hc => by rw [List.mem_singleton.mp hc]; exact fun e => hq e.symm)]
          exact resize360_nil_get a ha
      · rw [List.getElem?_eq_none (by rw [replay_length, resize360_length]; omega),
          List.getElem?_eq_none (by rw [List.length_replicate]; omega)]
    refine ⟨w1, hw, hacc, ?_, ?_, ?_, ?_, ?_⟩
    · rw [hcons.good_packets, hacc]; rfl
    · rw [hcons.rpms_sum, hacc]
      simp only [List.map_cons, List.map_nil, List.sum_cons, List.sum_nil, Nat.add_zero]
      unfold speed64
      rw [singlePacketFrame_byte (0 + 3) (by omega), singlePacketFrame_byte (0 + 2) (by omega)]
      rfl
    · rw [hcons.written, hacc]
      simp only [List.flatMap_cons, List.flatMap_nil, List.append_nil, slotsAt]
      unfold pidxAt
      rw [singlePacketFrame_byte (0 + 1) (by omega)]
      rfl
    · rw [hcons.ranges, hacc]
      apply hzero
      intro j hj1 hj2
      unfold sampleRange
      rw [singlePacketFrame_byte j (by omega), singlePacketFrame_byte (j + 1) (by omega)]
      rw [if_neg (by omega), if_neg (by omega), if_neg (by omega), if_neg (by omega),
        if_neg (by omega), if_neg (by omega)]
      simp [decodeRange]
    · rw [hcons.intensities, hacc]
      apply hzero
      intro j hj1 hj2
      unfold sampleIntensity
      rw [singlePacketFrame_byte (j + 2) (by omega), singlePacketFrame_byte (j + 3) (by omega)]
      rw [if_neg (by omega), if_neg (by omega), if_neg (by omega), if_neg (by omega),
        if_neg (by omega), if_neg (by omega)]
      simp [decodeIntensity]

theorem singlePacketFrame_bytes : ∀ x ∈ singlePacketFrame, x < 256 := by
  intro x hx
  unfold singlePacketFrame at hx
  obtain ⟨i, -, rfl⟩ := List.mem_map.mp hx
  split
  · decide
  · split
    · decide
    · split <;> decide

/-- C10 at the example frame: index 0, raw speed 6400, zero samples. -/
theorem gen2_single_good_packet_witness :
    ∃ w1, walkLoop false singlePacketFrame 1980 (walkInit (setup2 LaserScan.empty)) = some w1 ∧
      0 ∈ w1.accepted ∧
      (w1.accepted = [0] →
        w1.good_packets = 1 ∧ w1.rpms_sum = 6400 / 64 ∧
        w1.written = [4 * 0, 4 * 0 + 1, 4 * 0 + 2, 4 * 0 + 3] ∧
        (∀ m, m < 4 →
          w1.ranges[4 * 0 + m]? =
            some ((((byteAt singlePacketFrame (4 + 4 * m + 1) &&& 0x3F) <<< 8)
              + byteAt singlePacketFrame (4 + 4 * m) : Nat) / 1000 : ℚ) ∧
          w1.intensities[4 * 0 + m]? =
            some (((byteAt singlePacketFrame (4 + 4 * m + 3) <<< 8)
              + byteAt singlePacketFrame (4 + 4 * m + 2) : Nat) : ℚ)) ∧
        (∀ a, a < 360 → a / 4 ≠ 0 →
          w1.ranges[a]? = some 0 ∧ w1.intensities[a]? = some 0)) :=
  (gen2_single_good_packet singlePacketFrame 0 6400
    (by unfold singlePacketFrame; rw [List.length_map, List.length_range])
    singlePacketFrame_bytes
    (by rw [singlePacketFrame_byte 0 (by omega), if_pos rfl])
    (by rw [singlePacketFrame_byte 1 (by omega), if_neg (by omega), if_pos rfl])
    (by omega)
    (by rw [singlePacketFrame_byte 2 (by omega), singlePacketFrame_byte 3 (by omega)]; rfl)
    (fun k hk1 hk2 => by
      rw [singlePacketFrame_byte k (by omega), if_neg (by omega), if_neg (by omega)]
      split <;> decide)).1

/-! ## Firmware 2: frame synchronisation -/

theorem byteAt_set_self (buf : List Nat) (i b : Nat) (h : i < buf.length) :
    byteAt (buf.set i b) i = b := by
  unfold byteAt
  rw [List.getD_eq_getElem _ _ (by rw [List.length_set]; exact h), List.getElem_set_self]

theorem poll2_state0_hit (self : XV11Laser) (scan : LaserScan) (buf s : List Nat)
    (hsd : self.shutting_down_ = false) (hbuf : 2 ≤ buf.length) :
    poll2Loop self scan 0 buf (0xFA :: s) = poll2Loop self scan 1 (buf.set 0 0xFA) s := by
  rw [poll2Loop]
  simp [hsd, byteAt_set_self buf 0 _ (by omega)]

theorem poll2_state0_miss (self : XV11Laser) (scan : LaserScan) (buf s : List Nat) (b : Nat)
    (hsd : self.shutting_down_ = false) (hbuf : 2 ≤ buf.length) (hb : b ≠ 0xFA) :
    poll2Loop self scan 0 buf (b :: s) = poll2Loop self scan 0 (buf.set 0 b) s := by
  rw [poll2Loop]
  simp [hsd, byteAt_set_self buf 0 _ (by omega), hb]

theorem poll2_state1_hit (self : XV11Laser) (scan : LaserScan) (buf s : List Nat)
    (hsd : self.shutting_down_ = false) (hbuf : 2 ≤ buf.length) :
    poll2Loop self scan 1 buf (0xA0 :: s) = frame2 self scan (buf.set 1 0xA0) s := by
  rw [poll2Loop]
  simp [hsd, byteAt_set_self buf 1 _ (by omega)]

theorem poll2_state1_miss (self : XV11Laser) (scan : LaserScan) (buf s : List Nat) (b : Nat)
    (hsd : self.shutting_down_ = false) (hbuf : 2 ≤ buf.length) (hb : b ≠ 0xA0) :
    poll2Loop self scan 1 buf (b :: s) = poll2Loop self scan 0 (buf.set 1 b) s := by
  rw [poll2Loop]
  simp [hsd, byteAt_set_self buf 1 _ (by omega), hb]

theorem poll2_end (self : XV11Laser) (scan : LaserScan) (buf : List Nat) (st : Nat)
    (hsd : self.shutting_down_ = false) :
    poll2Loop self scan st buf [] = .transportFailure scan := by
  rw [poll2Loop]
  simp [hsd]

/-- A stream without a header byte never synchronises: the read fails at its end. -/
theorem poll2_no_header (self : XV11Laser) (scan : LaserScan) (s buf : List Nat)
    (hsd : self.shutting_down_ = false) (hbuf : 2 ≤ buf.length)
    (h : ∀ b ∈ s, b ≠ 0xFA) :
    poll2Loop self scan 0 buf s = .transportFailure scan := by
  induction s generalizing buf with
  | nil => exact poll2_end self scan buf 0 hsd
  | cons b s ih =>
    rw [poll2_state0_miss self scan buf s b hsd hbuf (h b (List.mem_cons_self _ _))]
    exact ih _ (by rw [List.length_set]; exact hbuf) (fun c hc => h c (List.mem_cons_of_mem _ hc))

theorem decode2_ne_failure (self : XV11Laser) (scan scan1 : LaserScan) (raw rest : List Nat) :
    decode2 self scan raw rest ≠ .transportFailure scan1 := by
  unfold decode2
  split <;> simp


/-- On a prefix without `FA A0` that does not end in `FA`, the matcher is back
in state 0 at its end. -/
theorem poll2_skip_leading (self : XV11Laser) (scan : LaserScan) (pre s : List Nat)
    (hsd : self.shutting_down_ = false) (st : Nat) (buf : List Nat) (hbuf : 2 ≤ buf.length)
    (hst : st = 0 ∨ (st = 1 ∧ pre ≠ [] ∧ pre.head? ≠ some 0xA0))
    (hpre1 : ¬ [0xFA, 0xA0] <:+: pre) (hpre2 : pre.getLast? ≠ some 0xFA) :
    ∃ buf1, 2 ≤ buf1.length ∧
      poll2Loop self scan st buf (pre ++ s) = poll2Loop self scan 0 buf1 s := by
  induction pre generalizing st buf with
  | nil =>
    rcases hst with h | ⟨-, h, -⟩
    · subst h; exact ⟨buf, hbuf, rfl⟩
    · exact absurd rfl h
  | cons b t ih =>
    have ht1 : ¬ [0xFA, 0xA0] <:+: t := fun h => hpre1 (List.infix_cons h)
    have ht2 : t.getLast? ≠ some 0xFA := by
      cases t with
      | nil => simp
      | cons c u => rw [List.getLast?_cons_cons] at hpre2; exact hpre2
    rw [List.cons_append]
    rcases hst with h | ⟨h, -, hh⟩
    · subst h
      by_cases hb : b = 0xFA
      · subst hb
        rw [poll2_state0_hit self scan buf _ hsd hbuf]
        have hne : t ≠ [] := by
          intro e; subst e; exact hpre2 rfl
        have hhead : t.head? ≠ some 0xA0 := by
          intro e
          cases t with
          | nil => exact hne rfl
          | cons c u =>
            have hc : c = 0xA0 := by simpa using e
            subst hc
            exact hpre1 ⟨[], u, rfl⟩
        exact ih 1 _ (by rw [List.length_set]; exact hbuf) (Or.inr ⟨rfl, hne, hhead⟩) ht1 ht2
      · rw [poll2_state0_miss self scan buf _ b hsd hbuf hb]
        exact ih 0 _ (by rw [List.length_set]; exact hbuf) (Or.inl rfl) ht1 ht2
    · subst h
      have hb : b ≠ 0xA0 := fun e => hh (by rw [e]; rfl)
      rw [poll2_state1_miss self scan buf _ b hsd hbuf hb]
      exact ih 0 _ (by rw [List.length_set]; exact hbuf) (Or.inl rfl) ht1 ht2

/-- An even number of header bytes takes the matcher from state 0 back to state 0. -/
theorem poll2_skip_pairs (self : XV11Laser) (scan : LaserScan) (s : List Nat)
    (hsd : self.shutting_down_ = false) (m : Nat) (buf : List Nat) (hbuf : 2 ≤ buf.length) :
    ∃ buf1, 2 ≤ buf1.length ∧
      poll2Loop self scan 0 buf (List.replicate (2 * m) 0xFA ++ s) =
        poll2Loop self scan 0 buf1 s := by
  induction m generalizing buf with
  | zero => exact ⟨buf, hbuf, rfl⟩
  | succ m ih =>
    have e : List.replicate (2 * (m + 1)) 0xFA ++ s
        = 0xFA :: 0xFA :: (List.replicate (2 * m) 0xFA ++ s) := by
      rw [show 2 * (m + 1) = 2 * m + 1 + 1 from by ring, List.replicate_succ, List.replicate_succ]
      rfl
    rw [e, poll2_state0_hit self scan buf _ hsd hbuf,
      poll2_state1_miss self scan _ _ 0xFA hsd (by rw [List.length_set]; exact hbuf) (by decide)]
    exact ih _ (by rw [List.length_set, List.length_set]; exact hbuf)

/-- What the port held before the frame does not enter the decoding. -/
theorem decode2_serial (self : XV11Laser) (scan : LaserScan) (raw rest x : List Nat) :
    decode2 self scan raw rest = decode2 { self with serial_ := x } scan raw rest := by
  unfold decode2
  simp only []

/-- C7 (as stated, refuted). The stream `FA FA A0` followed by 1978 zero bytes
contains `FA A0` followed by 1978 more bytes, yet `poll` does not synchronise
there: the matcher pairs the second `FA` with the first, falls back to state 0
and reads on until the read fails; no frame is decoded. -/
theorem gen2_sync_misses_doubled_header :
    poll { firmware_ := 2, shutting_down_ := false, motor_speed_ := 0, rpms := 0,
           serial_ := doubledHeaderStream } LaserScan.empty
      = .transportFailure (setup2 LaserScan.empty) ∧
    poll { firmware_ := 2, shutting_down_ := false, motor_speed_ := 0, rpms := 0,
           serial_ := doubledHeaderStream } LaserScan.empty
      ≠ decode2 { firmware_ := 2, shutting_down_ := false, motor_speed_ := 0, rpms := 0,
                  serial_ := [] } (setup2 LaserScan.empty)
          ([0xFA, 0xA0] ++ List.replicate 1978 0) [] := by
  have h : poll { firmware_ := 2, shutting_down_ := false, motor_speed_ := 0, rpms := 0,
                  serial_ := doubledHeaderStream } LaserScan.empty
      = .transportFailure (setup2 LaserScan.empty) := by
    unfold poll
    rw [if_neg (show ¬ ((2 : Nat) = 1) by decide), if_pos rfl]
    simp only []
    have hs : doubledHeaderStream = 0xFA :: 0xFA :: 0xA0 :: List.replicate 1978 0 := rfl
    rw [hs, poll2_state0_hit _ _ _ _ rfl (by rw [List.length_replicate]; omega),
      poll2_state1_miss _ _ _ _ 0xFA rfl (by rw [List.length_set, List.length_replicate]; omega)
        (by decide)]
    apply poll2_no_header _ _ _ _ rfl
      (by rw [List.length_set, List.length_set, List.length_replicate]; omega)
    intro b hb
    rcases List.mem_cons.mp hb with e | e
    · rw [e]; decide
    · rw [List.eq_of_mem_replicate e]; decide
  refine ⟨h, ?_⟩
  rw [h]
  exact fun e => decode2_ne_failure _ _ _ _ _ e.symm

/-- C7 (amended). When the first contiguous `FA A0` of the stream is preceded
by an even number (possibly zero) of consecutive `FA` bytes, that is the stream
is `pre ++ FA^(2m) ++ FA A0 ++ body ++ rest` where `pre` contains no contiguous
`FA A0` and does not end in `FA`, and `body` has 1978 bytes, `poll` synchronises
at that occurrence: the frame it decodes is `FA A0 ++ body`, the port is left
with `rest`, and the bytes before the occurrence do not enter the result. -/
theorem gen2_sync_first_occurrence (ms rp : Nat) (scan : LaserScan)
    (pre body rest : List Nat) (m : Nat)
    (hpre1 : ¬ [0xFA, 0xA0] <:+: pre) (hpre2 : pre.getLast? ≠ some 0xFA)
    (hlen : body.length = 1978) :
    poll { firmware_ := 2, shutting_down_ := false, motor_speed_ := ms, rpms := rp,
           serial_ := pre ++ (List.replicate (2 * m) 0xFA ++ 0xFA :: 0xA0 :: (body ++ rest)) }
        scan =
      decode2 { firmware_ := 2, shutting_down_ := false, motor_speed_ := ms, rpms := 0,
                serial_ := rest } (setup2 scan) (0xFA :: 0xA0 :: body) rest := by
  unfold poll
  rw [if_neg (show ¬ ((2 : Nat) = 1) by decide), if_pos rfl]
  simp only []
  obtain ⟨buf1, hb1, h1⟩ := poll2_skip_leading
    { firmware_ := 2, shutting_down_ := false, motor_speed_ := ms, rpms := 0,
      serial_ := pre ++ (List.replicate (2 * m) 0xFA ++ 0xFA :: 0xA0 :: (body ++ rest)) }
    (setup2 scan) pre (List.replicate (2 * m) 0xFA ++ 0xFA :: 0xA0 :: (body ++ rest))
    rfl 0 (List.replicate 1980 0) (by rw [List.length_replicate]; omega) (Or.inl rfl) hpre1 hpre2
  obtain ⟨buf2, hb2, h2⟩ := poll2_skip_pairs
    { firmware_ := 2, shutting_down_ := false, motor_speed_ := ms, rpms := 0,
      serial_ := pre ++ (List.replicate (2 * m) 0xFA ++ 0xFA :: 0xA0 :: (body ++ rest)) }
    (setup2 scan) (0xFA :: 0xA0 :: (body ++ rest)) rfl m buf1 hb1
  rw [h1, h2, poll2_sync_head _ _ _ _ rfl hb2,
    frame2_ok _ _ _ body rest 0xFA 0xA0 (take2_set _ _ _ hb2) hlen]
  exact decode2_serial _ _ _ _ rest

/-- C7 (amended) at the stream `01 A0 FA FA FA A0`, 1978 zero bytes, `07`. -/
theorem gen2_sync_first_occurrence_witness :
    poll { firmware_ := 2, shutting_down_ := false, motor_speed_ := 0, rpms := 0,
           serial_ := [0x01, 0xA0] ++ (List.replicate (2 * 1) 0xFA
             ++ 0xFA :: 0xA0 :: (List.replicate 1978 0 ++ [0x07])) }
        LaserScan.empty =
      decode2 { firmware_ := 2, shutting_down_ := false, motor_speed_ := 0, rpms := 0,
                serial_ := [0x07] } (setup2 LaserScan.empty)
        (0xFA :: 0xA0 :: List.replicate 1978 0) [0x07] :=
  gen2_sync_first_occurrence 0 0 LaserScan.empty [0x01, 0xA0] (List.replicate 1978 0) [0x07] 1
    (by decide) (by decide) (List.length_replicate _ _)

/-! ## Transport failure -/

theorem poll1Loop_sync (self : XV11Laser) (scan : LaserScan) (s : List Nat) (st : Nat)
    (hsd : self.shutting_down_ = false) :
    poll1Loop self scan st s =
      match syncRest1 st s with
      | none => .transportFailure scan
      | some rest => frame1 self scan rest := by
  induction s generalizing st with
  | nil => rw [poll1Loop, syncRest1]; simp [hsd]
  | cons c s ih =>
    rw [poll1Loop, syncRest1]
    simp only [hsd, Bool.false_eq_true, if_false]
    by_cases h : (startStep1 st c).2 = true
    · rw [if_pos h, if_pos h]
    · rw [if_neg h, if_neg h]; exact ih _

theorem poll2Loop_sync (self : XV11Laser) (scan : LaserScan) (s : List Nat) (st : Nat)
    (buf : List Nat) (hsd : self.shutting_down_ = false) (hbuf : 2 ≤ buf.length)
    (hst : st ≤ 1) :
    ∃ buf1, poll2Loop self scan st buf s =
      match syncRest2 st s with
      | none => .transportFailure scan
      | some rest => frame2 self scan buf1 rest := by
  induction s generalizing st buf with
  | nil => exact ⟨buf, by rw [poll2_end self scan buf st hsd, syncRest2]⟩
  | cons b s ih =>
    rw [syncRest2]
    have hcases : st = 0 ∨ st = 1 := by omega
    rcases hcases with h | h
    · subst h
      by_cases hb : b = 0xFA
      · subst hb
        rw [poll2_state0_hit self scan buf s hsd hbuf]
        have e : startStep2 0 0xFA = (1, false) := by decide
        rw [e]
        simp only [Bool.false_eq_true, if_false]
        exact ih 1 _ (by rw [List.length_set]; exact hbuf) (le_refl _)
      · rw [poll2_state0_miss self scan buf s b hsd hbuf hb]
        have e : startStep2 0 b = (0, false) := by simp [startStep2, hb]
        rw [e]
        simp only [Bool.false_eq_true, if_false]
        exact ih 0 _ (by rw [List.length_set]; exact hbuf) (by omega)
    · subst h
      by_cases hb : b = 0xA0
      · subst hb
        rw [poll2_state1_hit self scan buf s hsd hbuf]
        have e : startStep2 1 0xA0 = (0, true) := by decide
        rw [e]
        exact ⟨buf.set 1 0xA0, by simp⟩
      · rw [poll2_state1_miss self scan buf s b hsd hbuf hb]
        have e : startStep2 1 b = (0, false) := by simp [startStep2, hb]
        rw [e]
        simp only [Bool.false_eq_true, if_false]
        exact ih 0 _ (by rw [List.length_set]; exact hbuf) (by omega)

theorem frame1_short (self : XV11Laser) (scan : LaserScan) (s : List Nat)
    (h : s.length < 2 + 1440) : frame1 self scan s = .transportFailure scan := by
  unfold frame1
  by_cases h2 : s.length < 2
  · rw [if_pos h2]
  · rw [if_neg h2]
    simp only []
    rw [if_pos (by rw [List.length_drop]; omega)]


/-- C8. No partial scan on transport failure: for both firmware variants, when
the matcher never finds the sync in the stream, or finds it and fewer bytes
than the frame body needs (2 + 1440 for legacy, 1978 for gen-2) are left, `poll`
ends in a transport failure and returns no scan.  At the failure the scan object
holds no decoded value: for firmware 1 it is untouched; for firmware 2 it is the
scan as set up before the first read: the two range bounds stored and the two
vectors resized to 360. -/
theorem poll_no_partial_scan (fw ms rp : Nat) (s : List Nat) (scan : LaserScan)
    (hfw : fw = 1 ∨ fw = 2)
    (h : syncRest fw s = none ∨
      ∃ rest, syncRest fw s = some rest ∧ rest.length < frameBytes fw) :
    poll { firmware_ := fw, shutting_down_ := false, motor_speed_ := ms, rpms := rp,
           serial_ := s } scan
      = .transportFailure (if fw = 1 then scan else setup2 scan) ∧
    (setup2 scan).ranges = resize360 scan.ranges ∧
    (setup2 scan).intensities = resize360 scan.intensities := by
  refine ⟨?_, rfl, rfl⟩
  rcases hfw with hfw | hfw
  · subst hfw
    unfold poll
    rw [if_pos rfl, if_pos rfl]
    simp only [syncRest, frameBytes, if_true] at h
    rw [poll1Loop_sync _ _ _ _ rfl]
    rcases h with h | ⟨rest, h, hl⟩
    · rw [h]
    · rw [h]; exact frame1_short _ _ _ hl
  · subst hfw
    unfold poll
    rw [if_neg (show ¬ ((2 : Nat) = 1) by decide), if_pos rfl,
      if_neg (show ¬ ((2 : Nat) = 1) by decide)]
    simp only [syncRest, frameBytes, show ¬ ((2 : Nat) = 1) by decide, if_false] at h
    simp only []
    obtain ⟨buf1, hb⟩ := poll2Loop_sync
      { firmware_ := 2, shutting_down_ := false, motor_speed_ := ms, rpms := 0, serial_ := s }
      (setup2 scan) s 0 (List.replicate 1980 0) rfl
      (by rw [List.length_replicate]; omega) (by omega)
    rw [hb]
    rcases h with h | ⟨rest, h, hl⟩
    · rw [h]
    · rw [h]; exact frame2_short _ _ _ _ hl

/-- C8 at a gen-2 stream that ends 100 bytes after the sync. -/
theorem poll_no_partial_scan_witness :
    poll { firmware_ := 2, shutting_down_ := false, motor_speed_ := 0, rpms := 0,
           serial_ := truncatedStream } LaserScan.empty
      = .transportFailure (if 2 = 1 then LaserScan.empty else setup2 LaserScan.empty) ∧
    (setup2 LaserScan.empty).ranges = resize360 LaserScan.empty.ranges ∧
    (setup2 LaserScan.empty).intensities = resize360 LaserScan.empty.intensities :=
  poll_no_partial_scan 2 0 0 truncatedStream LaserScan.empty (Or.inr rfl)
    (Or.inr ⟨List.replicate 100 7, by decide, by rw [List.length_replicate]; decide⟩)

/-! ## Prior contents of the scan -/

theorem take2_set1 (buf : List Nat) (x y : Nat) (h : 2 ≤ buf.length)
    (h0 : byteAt buf 0 = x) : (buf.set 1 y).take 2 = [x, y] := by
  match buf, h with
  | a :: b :: t, _ =>
    have : a = x := h0
    subst this
    rfl

theorem frame2_buffer (self : XV11Laser) (scan : LaserScan) (buf1 buf2 s : List Nat)
    (h : buf1.take 2 = buf2.take 2) : frame2 self scan buf1 s = frame2 self scan buf2 s := by
  unfold frame2
  rw [h]

/-- The firmware-2 loop in terms of its matcher: a transport failure when no
sync is found, the frame step on the bytes after the sync otherwise. -/
theorem poll2Loop_outcome (self : XV11Laser) (scan : LaserScan) (s : List Nat) (st : Nat)
    (buf : List Nat) (hsd : self.shutting_down_ = false) (hbuf : 2 ≤ buf.length)
    (hst : st = 0 ∨ (st = 1 ∧ byteAt buf 0 = 0xFA)) :
    poll2Loop self scan st buf s =
      match syncRest2 st s with
      | none => .transportFailure scan
      | some rest => frame2 self scan [0xFA, 0xA0] rest := by
  induction s generalizing st buf with
  | nil => rw [poll2_end self scan buf st hsd, syncRest2]
  | cons b s ih =>
    rw [syncRest2]
    rcases hst with h | ⟨h, h0⟩
    · subst h
      by_cases hb : b = 0xFA
      · subst hb
        rw [poll2_state0_hit self scan buf s hsd hbuf]
        have e : startStep2 0 0xFA = (1, false) := by decide
        rw [e]
        simp only [Bool.false_eq_true, if_false]
        exact ih 1 _ (by rw [List.length_set]; exact hbuf)
          (Or.inr ⟨rfl, byteAt_set_self buf 0 _ (by omega)⟩)
      · rw [poll2_state0_miss self scan buf s b hsd hbuf hb]
        have e : startStep2 0 b = (0, false) := by simp [startStep2, hb]
        rw [e]
        simp only [Bool.false_eq_true, if_false]
        exact ih 0 _ (by rw [List.length_set]; exact hbuf) (Or.inl rfl)
    · subst h
      by_cases hb : b = 0xA0
      · subst hb
        rw [poll2_state1_hit self scan buf s hsd hbuf]
        have e : startStep2 1 0xA0 = (0, true) := by decide
        rw [e]
        simp only [if_true]
        exact frame2_buffer self scan _ _ s (take2_set1 buf 0xFA 0xA0 hbuf h0)
      · rw [poll2_state1_miss self scan buf s b hsd hbuf hb]
        have e : startStep2 1 b = (0, false) := by simp [startStep2, hb]
        rw [e]
        simp only [Bool.false_eq_true, if_false]
        exact ih 0 _ (by rw [List.length_set]; exact hbuf) (Or.inl rfl)

theorem decode2_vectors (self : XV11Laser) (scan : LaserScan) (raw rest : List Nat)
    (hsd : self.shutting_down_ = false) :
    (decode2 self scan raw rest).vectors =
      (walkLoop false raw 1980 (walkInit scan)).map (fun w => (w.ranges, w.intensities)) := by
  unfold decode2
  rw [hsd]
  cases h : walkLoop false raw 1980 (walkInit scan) with
  | none => rfl
  | some w =>
    simp only [Option.map_some', Outcome.vectors]
    rw [(timing2_vectors _ _ _ _).1, (timing2_vectors _ _ _ _).2]

theorem frame2_vectors (self : XV11Laser) (scan : LaserScan) (buf s : List Nat)
    (hsd : self.shutting_down_ = false) :
    (frame2 self scan buf s).vectors =
      if s.length < 1978 then none
      else (walkLoop false (buf.take 2 ++ s.take 1978) 1980 (walkInit scan)).map
        (fun w => (w.ranges, w.intensities)) := by
  unfold frame2
  split
  · rfl
  · exact decode2_vectors _ _ _ _ hsd

theorem frame1_vectors (self : XV11Laser) (scan : LaserScan) (s : List Nat) :
    (frame1 self scan s).vectors =
      if s.length < 2 + 1440 then none
      else some
        (scan.ranges ++ (decode1 (byteAt s 0 + 256 * byteAt s 1) 1440
            ((s.drop 2).take 1440) LaserScan.empty).ranges,
         scan.intensities ++ (decode1 (byteAt s 0 + 256 * byteAt s 1) 1440
            ((s.drop 2).take 1440) LaserScan.empty).intensities) := by
  by_cases h : s.length < 2 + 1440
  · rw [frame1_short self scan s h, if_pos h]; rfl
  · rw [if_neg h]
    unfold frame1
    rw [if_neg (by omega)]
    simp only []
    rw [if_neg (by rw [List.length_drop]; omega)]
    simp only [Outcome.vectors, decode1_ranges, decode1_intensities, LaserScan.empty,
      List.nil_append]


theorem poll1_vectors (ms rp : Nat) (s : List Nat) (scan : LaserScan) :
    (poll { firmware_ := 1, shutting_down_ := false, motor_speed_ := ms, rpms := rp,
            serial_ := s } scan).vectors =
      match syncRest1 0 s with
      | none => none
      | some rest =>
        if rest.length < 2 + 1440 then none
        else some
          (scan.ranges ++ (decode1 (byteAt rest 0 + 256 * byteAt rest 1) 1440
              ((rest.drop 2).take 1440) LaserScan.empty).ranges,
           scan.intensities ++ (decode1 (byteAt rest 0 + 256 * byteAt rest 1) 1440
              ((rest.drop 2).take 1440) LaserScan.empty).intensities) := by
  unfold poll
  rw [if_pos rfl, poll1Loop_sync _ _ _ _ rfl]
  cases syncRest1 0 s with
  | none => rfl
  | some rest => exact frame1_vectors _ _ _

theorem poll2_vectors (ms rp : Nat) (s : List Nat) (scan : LaserScan) :
    (poll { firmware_ := 2, shutting_down_ := false, motor_speed_ := ms, rpms := rp,
            serial_ := s } scan).vectors =
      match syncRest2 0 s with
      | none => none
      | some rest =>
        if rest.length < 1978 then none
        else (walkLoop false ([0xFA, 0xA0] ++ rest.take 1978) 1980
          (walkInit (setup2 scan))).map (fun w => (w.ranges, w.intensities)) := by
  unfold poll
  rw [if_neg (show ¬ ((2 : Nat) = 1) by decide), if_pos rfl]
  simp only []
  rw [poll2Loop_outcome _ _ _ _ _ rfl (by rw [List.length_replicate]; omega) (Or.inl rfl)]
  cases syncRest2 0 s with
  | none => rfl
  | some rest => exact frame2_vectors _ _ _ _ rfl

/-- After the walk every slot that was not written holds what the vector held before. -/
theorem walk_unwritten (raw : List Nat) (scan : LaserScan) (w1 : Walk)
    (h : walkLoop false raw 1980 (walkInit scan) = some w1) (a : Nat) (ha : a ∉ w1.written) :
    w1.ranges[a]? = scan.ranges[a]? ∧ w1.intensities[a]? = scan.intensities[a]? := by
  have hcons := walkLoop_consistent raw scan 1980 w1 h
  have hoth : ∀ c ∈ w1.accepted, pidxAt raw c ≠ a / 4 := by
    intro c hc e
    apply ha
    rw [hcons.written, List.mem_flatMap]
    refine ⟨c, hc, ?_⟩
    simp only [slotsAt, List.mem_cons, List.mem_singleton, List.not_mem_nil, or_false]
    omega
  rw [hcons.ranges, hcons.intensities, replay_get_other raw _ _ _ a hoth,
    replay_get_other raw _ _ _ a hoth]
  exact ⟨rfl, rfl⟩

theorem walk_lengths (raw : List Nat) (scan : LaserScan) (w1 : Walk)
    (h : walkLoop false raw 1980 (walkInit scan) = some w1) :
    w1.ranges.length = scan.ranges.length ∧ w1.intensities.length = scan.intensities.length := by
  have hcons := walkLoop_consistent raw scan 1980 w1 h
  rw [hcons.ranges, hcons.intensities, replay_length, replay_length]
  exact ⟨rfl, rfl⟩

theorem walkInit_fresh (scanA scanB : LaserScan)
    (hA : scanA.ranges = [] ∧ scanA.intensities = [])
    (hB : scanB.ranges = [] ∧ scanB.intensities = []) :
    walkInit (setup2 scanA) = walkInit (setup2 scanB) := by
  simp only [walkInit, setup2, hA.1, hA.2, hB.1, hB.2]

/-- C9 (amended). For each firmware variant and every byte stream, two calls
of `poll` with scan objects whose ranges and intensities are empty give the
same ranges and intensities (or both do not return); a returned scan then has
exactly 360 of each; and in the gen-2 walk of any buffer every slot that is not
written holds 0. -/
theorem poll_fresh_scan_independent (fw ms rp : Nat) (s : List Nat) (scanA scanB : LaserScan)
    (hfw : fw = 1 ∨ fw = 2)
    (hA : scanA.ranges = [] ∧ scanA.intensities = [])
    (hB : scanB.ranges = [] ∧ scanB.intensities = []) :
    (poll { firmware_ := fw, shutting_down_ := false, motor_speed_ := ms, rpms := rp,
            serial_ := s } scanA).vectors =
      (poll { firmware_ := fw, shutting_down_ := false, motor_speed_ := ms, rpms := rp,
              serial_ := s } scanB).vectors ∧
    (∀ r i,
      (poll { firmware_ := fw, shutting_down_ := false, motor_speed_ := ms, rpms := rp,
              serial_ := s } scanA).vectors = some (r, i) →
      r.length = 360 ∧ i.length = 360) ∧
    (∀ raw, ∃ w1, walkLoop false raw 1980 (walkInit (setup2 scanA)) = some w1 ∧
      ∀ a, a < 360 → a ∉ w1.written → w1.ranges[a]? = some 0 ∧ w1.intensities[a]? = some 0) := by
  refine ⟨?_, ?_, ?_⟩
  · rcases hfw with hfw | hfw
    · subst hfw
      rw [poll1_vectors, poll1_vectors, hA.1, hA.2, hB.1, hB.2]
    · subst hfw
      rw [poll2_vectors, poll2_vectors, walkInit_fresh scanA scanB hA hB]
  · intro r i h
    rcases hfw with hfw | hfw
    · subst hfw
      rw [poll1_vectors] at h
      cases hs : syncRest1 0 s with
      | none => rw [hs] at h; exact absurd h (by simp)
      | some rest =>
        rw [hs] at h
        simp only [] at h
        by_cases hl : rest.length < 2 + 1440
        · rw [if_pos hl] at h; exact absurd h (by simp)
        · rw [if_neg hl, hA.1, hA.2] at h
          obtain ⟨h1, h2⟩ := Prod.mk.inj (Option.some.inj h)
          rw [← h1, ← h2, decode1_ranges, decode1_intensities]
          simp only [LaserScan.empty, List.nil_append, List.length_map, List.length_range,
            and_self]
    · subst hfw
      rw [poll2_vectors] at h
      cases hs : syncRest2 0 s with
      | none => rw [hs] at h; exact absurd h (by simp)
      | some rest =>
        rw [hs] at h
        simp only [] at h
        by_cases hl : rest.length < 1978
        · rw [if_pos hl] at h; exact absurd h (by simp)
        · rw [if_neg hl] at h
          cases hw : walkLoop false ([0xFA, 0xA0] ++ rest.take 1978) 1980
              (walkInit (setup2 scanA)) with
          | none => rw [hw] at h; exact absurd h (by simp)
          | some w1 =>
            rw [hw, Option.map_some'] at h
            obtain ⟨e1, e2⟩ := Prod.mk.inj (Option.some.inj h)
            obtain ⟨h1, h2⟩ := walk_lengths _ _ w1 hw
            rw [← e1, ← e2, h1, h2]
            exact setup2_lengths scanA
  · intro raw
    obtain ⟨w1, hw⟩ := walkLoop_total raw 1980 (walkInit (setup2 scanA)) (by omega)
    refine ⟨w1, hw, fun a ha hna => ?_⟩
    obtain ⟨h1, h2⟩ := walk_unwritten raw (setup2 scanA) w1 hw a hna
    rw [h1, h2]
    simp only [setup2, hA.1, hA.2]
    exact ⟨resize360_nil_get a ha, resize360_nil_get a ha⟩


theorem syncRest1_head (rest : List Nat) :
    syncRest1 0 (0x5A :: 0xA5 :: 0x00 :: 0xC0 :: rest) = some rest := by
  simp [syncRest1, startStep1]

theorem syncRest2_head (rest : List Nat) : syncRest2 0 (0xFA :: 0xA0 :: rest) = some rest := by
  simp [syncRest2, startStep2]

/-- The vectors returned by `poll` for firmware 2 on a stream that is one frame. -/
theorem poll2_frame_vectors (ms rp : Nat) (scan : LaserScan) (raw : List Nat)
    (hlen : raw.length = 1980) (h0 : byteAt raw 0 = 0xFA) (h1 : byteAt raw 1 = 0xA0) :
    (poll { firmware_ := 2, shutting_down_ := false, motor_speed_ := ms, rpms := rp,
            serial_ := raw } scan).vectors =
      (walkLoop false raw 1980 (walkInit (setup2 scan))).map
        (fun w => (w.ranges, w.intensities)) := by
  match raw, hlen, h0, h1 with
  | a :: b :: t, hlen, h0, h1 =>
    have ha : a = 0xFA := h0
    have hb : b = 0xA0 := h1
    subst ha hb
    have ht : t.length = 1978 := by
      simp only [List.length_cons] at hlen; omega
    rw [poll2_vectors, syncRest2_head]
    simp only []
    rw [if_neg (by omega), List.take_of_length_le (by omega)]
    rfl

/-- C9 (as stated, refuted). The vectors that `poll` returns depend on what
the scan object held before.  Firmware 1, zero frame: with an empty scan the
result has 360 ranges, with a scan that holds 360 older values it has 720.
Firmware 2, frame with the single packet 0: slot 4 is not written, and it is 0
for an empty scan and still 1 for the scan that held 360 ones. -/
theorem poll_keeps_prior_scan_contents :
    (∃ rA iA rB iB,
      (poll { firmware_ := 1, shutting_down_ := false, motor_speed_ := 0, rpms := 0,
              serial_ := legacyZeroStream } LaserScan.empty).vectors = some (rA, iA) ∧
      (poll { firmware_ := 1, shutting_down_ := false, motor_speed_ := 0, rpms := 0,
              serial_ := legacyZeroStream } staleScan).vectors = some (rB, iB) ∧
      rA.length = 360 ∧ rB.length = 720) ∧
    (∃ rA iA rB iB,
      (poll { firmware_ := 2, shutting_down_ := false, motor_speed_ := 0, rpms := 0,
              serial_ := singlePacketFrame } LaserScan.empty).vectors = some (rA, iA) ∧
      (poll { firmware_ := 2, shutting_down_ := false, motor_speed_ := 0, rpms := 0,
              serial_ := singlePacketFrame } staleScan).vectors = some (rB, iB) ∧
      rA[4]? = some 0 ∧ rB[4]? = some 1) := by
  constructor
  · have hs : syncRest1 0 legacyZeroStream = some (0 :: 0 :: List.replicate 1440 0) :=
      syncRest1_head _
    have hl : ¬ ((0 :: 0 :: List.replicate 1440 (0 : Nat)).length < 2 + 1440) := by
      rw [List.length_cons, List.length_cons, List.length_replicate]; omega
    have key : ∀ scan : LaserScan, ∃ r i,
        (poll { firmware_ := 1, shutting_down_ := false, motor_speed_ := 0, rpms := 0,
                serial_ := legacyZeroStream } scan).vectors = some (r, i) ∧
        r.length = scan.ranges.length + 360 := by
      intro scan
      have hv := poll1_vectors 0 0 legacyZeroStream scan
      rw [hs] at hv
      simp only [] at hv
      rw [if_neg hl] at hv
      refine ⟨_, _, hv, ?_⟩
      rw [List.length_append, decode1_ranges]
      simp only [LaserScan.empty, List.nil_append, List.length_map, List.length_range]
    obtain ⟨rA, iA, hA, hAl⟩ := key LaserScan.empty
    obtain ⟨rB, iB, hB, hBl⟩ := key staleScan
    refine ⟨rA, iA, rB, iB, hA, hB, ?_, ?_⟩
    · rw [hAl]; rfl
    · rw [hBl]; unfold staleScan; rw [List.length_replicate]
  · have hlen : singlePacketFrame.length = 1980 := by
      unfold singlePacketFrame; rw [List.length_map, List.length_range]
    have h0 : byteAt singlePacketFrame 0 = 0xFA := by
      rw [singlePacketFrame_byte 0 (by omega), if_pos rfl]
    have h1 : byteAt singlePacketFrame 1 = 0xA0 := by
      rw [singlePacketFrame_byte 1 (by omega), if_neg (by omega), if_pos rfl]
    have hp : pidxAt singlePacketFrame 0 = 0 := by
      unfold pidxAt; rw [show 0 + 1 = 1 from rfl, h1]
    have key : ∀ scan : LaserScan, ∃ r i,
        (poll { firmware_ := 2, shutting_down_ := false, motor_speed_ := 0, rpms := 0,
                serial_ := singlePacketFrame } scan).vectors = some (r, i) ∧
        r[4]? = (resize360 scan.ranges)[4]? := by
      intro scan
      obtain ⟨w1, hw, hacc⟩ := singlePacketFrame_accepted (setup2 scan)
      refine ⟨w1.ranges, w1.intensities, ?_, ?_⟩
      · rw [poll2_frame_vectors 0 0 scan singlePacketFrame hlen h0 h1, hw]; rfl
      · have hcons := walkLoop_consistent singlePacketFrame (setup2 scan) 1980 w1 hw
        rw [hcons.ranges, hacc, replay_get_other singlePacketFrame _ _ _ 4
          (fun c hc => by rw [List.mem_singleton.mp hc, hp]; decide)]
        rfl
    obtain ⟨rA, iA, hA, hA4⟩ := key LaserScan.empty
    obtain ⟨rB, iB, hB, hB4⟩ := key staleScan
    refine ⟨rA, iA, rB, iB, hA, hB, ?_, ?_⟩
    · rw [hA4]; exact resize360_nil_get 4 (by omega)
    · rw [hB4]
      unfold resize360 staleScan
      rw [List.getElem?_append_left (by
        rw [List.length_take, List.length_replicate]; omega),
        List.getElem?_take_of_lt (by omega), List.getElem?_replicate_of_lt (by omega)]

/-- C9 (amended) for firmware 2, the single-packet frame and two fresh scans
that differ in their scalar fields. -/
theorem poll_fresh_scan_independent_witness :
    (poll { firmware_ := 2, shutting_down_ := false, motor_speed_ := 0, rpms := 0,
            serial_ := singlePacketFrame } LaserScan.empty).vectors =
      (poll { firmware_ := 2, shutting_down_ := false, motor_speed_ := 0, rpms := 0,
              serial_ := singlePacketFrame }
        { LaserScan.empty with range_min := 1, scan_time := .val 2 }).vectors ∧
    (∀ r i,
      (poll { firmware_ := 2, shutting_down_ := false, motor_speed_ := 0, rpms := 0,
              serial_ := singlePacketFrame } LaserScan.empty).vectors = some (r, i) →
      r.length = 360 ∧ i.length = 360) ∧
    (∀ raw, ∃ w1, walkLoop false raw 1980 (walkInit (setup2 LaserScan.empty)) = some w1 ∧
      ∀ a, a < 360 → a ∉ w1.written → w1.ranges[a]? = some 0 ∧ w1.intensities[a]? = some 0) :=
  poll_fresh_scan_independent 2 0 0 singlePacketFrame LaserScan.empty
    { LaserScan.empty with range_min := 1, scan_time := .val 2 }
    (Or.inr rfl) ⟨rfl, rfl⟩ ⟨rfl, rfl⟩

/-! ## Firmware 2: resynchronisation inside the frame -/

theorem extends_refl (w : Walk) : Extends w w :=
  ⟨List.prefix_refl _, List.prefix_refl _, le_refl _, fun _ hc => Or.inl hc⟩

theorem extends_trans (a b c : Walk) (h1 : Extends a b) (h2 : Extends b c) : Extends a c := by
  obtain ⟨a1, a2, a3, a4⟩ := h1
  obtain ⟨b1, b2, b3, b4⟩ := h2
  refine ⟨a1.trans b1, a2.trans b2, by omega, fun x hx => ?_⟩
  rcases b4 x hx with h | h
  · exact a4 x h
  · exact Or.inr (by omega)

theorem extends_body (raw : List Nat) (w : Walk) (hc : w.i + 22 ≤ 1980) :
    Extends w (walkBody raw w).1 := by
  rcases walkBody_cases raw w hc with ⟨k, -, -, hb⟩ | ⟨-, -, -, ⟨-, hb⟩ | ⟨-, hb⟩⟩
  · rw [hb]
    exact ⟨List.prefix_refl _, List.prefix_append _ _, by simp only [moveTo]; omega,
      fun _ hx => Or.inl hx⟩
  · rw [hb]
    refine ⟨List.prefix_append _ _, List.prefix_append _ _, le_refl _, fun x hx => ?_⟩
    rcases List.mem_append.mp hx with h | h
    · exact Or.inl h
    · exact Or.inr (by rw [List.mem_singleton.mp h])
  · rw [hb]
    refine ⟨List.prefix_append _ _, List.prefix_append _ _, by simp only [accept]; omega,
      fun x hx => ?_⟩
    rcases List.mem_append.mp hx with h | h
    · exact Or.inl h
    · exact Or.inr (by rw [List.mem_singleton.mp h])

/-- The result of the loop continues the state it was started in. -/
theorem walkLoop_extends (raw : List Nat) (fuel : Nat) (w w1 : Walk)
    (h : walkLoop false raw fuel w = some w1) : Extends w w1 :=
  walkLoop_invariant raw (Extends w)
    (fun v hv he => extends_trans w v _ he (extends_body raw v hv)) fuel w w1 (extends_refl w) h

/-- The result of the loop continues the state after the first iteration. -/
theorem walkLoop_extends_body (raw : List Nat) (w w1 : Walk) (hc : w.i + 22 ≤ 1980)
    (h : walkLoop false raw 1980 w = some w1) : Extends (walkBody raw w).1 w1 := by
  cases hb : (walkBody raw w).2 with
  | true =>
    rw [walkLoop_break raw w hc hb] at h
    cases h
    exact extends_refl _
  | false =>
    rw [walkLoop_step raw w hc hb] at h
    exact walkLoop_extends raw 1980 _ w1 h

theorem headers_pidx (raw : List Nat) (H : HeadersInPlace raw) (q : Nat) (hq : q < 90) :
    byteAt raw (22 * q) = 0xFA ∧ pidxAt raw (22 * q) = q := by
  obtain ⟨h1, h2⟩ := H q hq
  refine ⟨h1, ?_⟩
  unfold pidxAt
  rw [h2]; omega

/-- Between two headers an iteration only moves the cursor, and not beyond the
next header. -/
theorem between_headers_body (raw : List Nat) (H : HeadersInPlace raw) (q n : Nat) (w : Walk)
    (hq : q + 1 ≤ 89) (hn : w.i + n = 22 * (q + 1)) (hpos : 0 < n) (hlo : 22 * q < w.i) :
    ∃ k, 1 ≤ k ∧ k ≤ n ∧ walkBody raw w = (moveTo w (w.i + k), false) := by
  have hFA : byteAt raw (w.i + n) = 0xFA := by rw [hn]; exact (H (q + 1) (by omega)).1
  by_cases hh : byteAt raw w.i = 0xFA ∧ pidxAt raw w.i < 90
  · have hn2 : 2 ≤ n := by
      by_contra hlt
      have h1 : n = 1 := by omega
      subst h1
      have : pidxAt raw w.i = 90 := by unfold pidxAt; rw [hFA]
      omega
    cases hk : premature raw w.i with
    | none => exact absurd hFA (premature_none raw w.i hk n hn2 (by omega))
    | some k =>
      obtain ⟨k1, k2, -, k4⟩ := premature_some raw w.i k hk
      have hkn : k ≤ n := by
        by_contra hlt
        exact k4 n hn2 (by omega) hFA
      refine ⟨k, by omega, hkn, ?_⟩
      rw [walkBody_premature raw w k hh hk, Nat.mod_eq_of_lt (by omega)]
  · refine ⟨1, le_refl _, hpos, ?_⟩
    rw [walkBody_skip raw w hh, Nat.mod_eq_of_lt (by omega)]

/-- From a cursor between two headers the walk arrives exactly at the next
header, accepting nothing on the way. -/
theorem cross_to_header (raw : List Nat) (H : HeadersInPlace raw) (q : Nat) (hq : q + 1 ≤ 89)
    (n : Nat) (w : Walk) (hn : w.i + n = 22 * (q + 1)) (hlo : 22 * q < w.i) :
    ∃ w1, walkLoop false raw 1980 w = walkLoop false raw 1980 w1 ∧ w1.i = 22 * (q + 1) ∧
      w1.accepted = w.accepted ∧
      ∃ l, w1.visited = w.visited ++ l ∧ (0 < n → l.head? = some w.i) := by
  induction n using Nat.strong_induction_on generalizing w with
  | _ n ih =>
    by_cases hpos : 0 < n
    · obtain ⟨k, hk1, hk2, hb⟩ := between_headers_body raw H q n w hq hn hpos hlo
      have hs := walkLoop_step raw w (by omega) (by rw [hb])
      rw [hb] at hs
      obtain ⟨w1, e1, e2, e3, l, e4, -⟩ := ih (n - k) (by omega) (moveTo w (w.i + k))
        (by simp only [moveTo]; omega) (by simp only [moveTo]; omega)
      refine ⟨w1, hs.trans e1, e2, e3, w.i :: l, ?_, fun _ => rfl⟩
      rw [e4]
      simp only [moveTo, List.append_assoc, List.singleton_append]
    · exact ⟨w, rfl, by omega, rfl, [], by rw [List.append_nil], fun h => absurd h hpos⟩

/-- With all headers in place the cursor comes to every header. -/
theorem reach_header (raw : List Nat) (H : HeadersInPlace raw) (scan : LaserScan) (q : Nat)
    (hq : q ≤ 89) :
    ∃ w, walkLoop false raw 1980 (walkInit scan) = walkLoop false raw 1980 w ∧
      w.i = 22 * q ∧ ∀ c ∈ w.accepted, c < 22 * q := by
  induction q with
  | zero => exact ⟨walkInit scan, rfl, rfl, fun c hc => by simp [walkInit] at hc⟩
  | succ q ih =>
    obtain ⟨w, e1, e2, e3⟩ := ih (by omega)
    obtain ⟨h1, h2⟩ := headers_pidx raw H q (by omega)
    rw [← e2] at h1 h2
    cases hk : premature raw w.i with
    | none =>
      have hb := walkBody_good raw w ⟨h1, by omega⟩ hk
      rw [if_neg (by omega), Nat.mod_eq_of_lt (by omega)] at hb
      have hs := walkLoop_step raw w (by omega) (by rw [hb])
      rw [hb] at hs
      refine ⟨_, e1.trans hs, by simp only []; omega, fun c hc => ?_⟩
      rcases List.mem_append.mp hc with h | h
      · have := e3 c h; omega
      · rw [List.mem_singleton.mp h]; omega
    | some k =>
      obtain ⟨k1, k2, -, -⟩ := premature_some raw w.i k hk
      have hb := walkBody_premature raw w k ⟨h1, by omega⟩ hk
      rw [Nat.mod_eq_of_lt (by omega)] at hb
      have hs := walkLoop_step raw w (by omega) (by rw [hb])
      rw [hb] at hs
      obtain ⟨w1, f1, f2, f3, -⟩ := cross_to_header raw H q (by omega) (22 - k)
        (moveTo w (w.i + k)) (by simp only [moveTo]; omega) (by simp only [moveTo]; omega)
      refine ⟨w1, (e1.trans hs).trans f1, f2, fun c hc => ?_⟩
      rw [f3] at hc
      have := e3 c hc
      omega


/-- C3. Gen-2 resynchronisation after a spurious header: in a 1980-byte frame
with all packet headers in place, when packet `p < 89` holds a `0xFA` at an
offset in 2..21 and packet `p+1` holds none there, the walk ends and
packet `p` is not accepted as good; from cursor `22p` the cursor goes to the
offending byte `22p + k0` (the first `0xFA` at offsets 2..21), not 22 bytes
ahead; nothing is accepted at a cursor inside packet `p`; the cursor then comes
to `22(p+1)` exactly, where packet `p+1` is accepted as a good packet and its
four angles `4(p+1)..4(p+1)+3` are written. -/
theorem gen2_resync_after_spurious_header (raw : List Nat) (scan : LaserScan) (p : Nat)
    (_hlen : raw.length = 1980) (H : HeadersInPlace raw) (hp : p < 89)
    (hbad : ∃ k, 2 ≤ k ∧ k ≤ 21 ∧ byteAt raw (22 * p + k) = 0xFA)
    (hgood : ∀ k, 2 ≤ k → k ≤ 21 → byteAt raw (22 * (p + 1) + k) ≠ 0xFA) :
    ∃ w1 k0, walkLoop false raw 1980 (walkInit scan) = some w1 ∧
      (2 ≤ k0 ∧ k0 ≤ 21 ∧ byteAt raw (22 * p + k0) = 0xFA ∧
        ∀ j, 2 ≤ j → j < k0 → byteAt raw (22 * p + j) ≠ 0xFA) ∧
      22 * p ∉ w1.accepted ∧
      (∃ l1 l2, w1.visited = l1 ++ 22 * p :: (22 * p + k0) :: l2) ∧
      (∀ c ∈ w1.accepted, c < 22 * p ∨ 22 * (p + 1) ≤ c) ∧
      22 * (p + 1) ∈ w1.visited ∧ 22 * (p + 1) ∈ w1.accepted ∧
      ∀ m, m < 4 → 4 * (p + 1) + m ∈ w1.written := by
  obtain ⟨w1, hw1⟩ := walkLoop_total raw 1980 (walkInit scan) (by omega)
  -- the state at the header of packet `p`
  obtain ⟨w, e1, e2, e3⟩ := reach_header raw H scan p (by omega)
  obtain ⟨h1, h2⟩ := headers_pidx raw H p (by omega)
  rw [← e2] at h1 h2
  -- the premature header byte
  have hk : ∃ k0, premature raw w.i = some k0 := by
    cases hk : premature raw w.i with
    | some k0 => exact ⟨k0, rfl⟩
    | none =>
      obtain ⟨k, k1, k2, k3⟩ := hbad
      rw [← e2] at k3
      exact absurd k3 (premature_none raw w.i hk k k1 k2)
  obtain ⟨k0, hk⟩ := hk
  obtain ⟨k1, k2, k3, k4⟩ := premature_some raw w.i k0 hk
  have hb := walkBody_premature raw w k0 ⟨h1, by omega⟩ hk
  rw [Nat.mod_eq_of_lt (by omega)] at hb
  have hs := walkLoop_step raw w (by omega) (by rw [hb])
  rw [hb] at hs
  -- on to the header of packet `p + 1`
  obtain ⟨w2, f1, f2, f3, l, f4, f5⟩ := cross_to_header raw H p (by omega) (22 - k0)
    (moveTo w (w.i + k0)) (by simp only [moveTo]; omega) (by simp only [moveTo]; omega)
  have hw2 : walkLoop false raw 1980 w2 = some w1 := by
    rw [← f1, ← hs, ← e1]; exact hw1
  -- packet `p + 1` is accepted
  obtain ⟨g1, g2⟩ := headers_pidx raw H (p + 1) (by omega)
  rw [← f2] at g1 g2
  have hpre : premature raw w2.i = none :=
    premature_none_of raw w2.i (fun j a b => by rw [f2]; exact hgood j a b)
  have hc2 : w2.i + 22 ≤ 1980 := by omega
  have hext := walkLoop_extends_body raw w2 w1 hc2 hw2
  have hbody : (walkBody raw w2).1.accepted = w.accepted ++ [22 * (p + 1)] ∧
      (walkBody raw w2).1.visited = w.visited ++ 22 * p :: (l ++ [22 * (p + 1)]) ∧
      22 * (p + 1) ≤ (walkBody raw w2).1.i := by
    rw [walkBody_good raw w2 ⟨g1, by omega⟩ hpre]
    have ha : (accept raw w2).accepted = w.accepted ++ [22 * (p + 1)] := by
      simp only [accept, f3, f2, moveTo]
    have hv : (accept raw w2).visited = w.visited ++ 22 * p :: (l ++ [22 * (p + 1)]) := by
      simp only [accept, f4, f2, moveTo, e2, List.append_assoc, List.singleton_append,
        List.cons_append, List.nil_append]
    split
    · exact ⟨ha, hv, by simp only [accept]; omega⟩
    · exact ⟨ha, hv, by simp only []; omega⟩
  obtain ⟨b1, b2, b3⟩ := hbody
  obtain ⟨x1, x2, x3, x4⟩ := hext
  have hl : l.head? = some (22 * p + k0) := by
    have := f5 (by omega)
    simp only [moveTo] at this
    rw [this, e2]
  have hacc : ∀ c ∈ w1.accepted, c < 22 * p ∨ 22 * (p + 1) ≤ c := by
    intro c hc
    rcases x4 c hc with h | h
    · rw [b1] at h
      rcases List.mem_append.mp h with h | h
      · exact Or.inl (e3 c h)
      · exact Or.inr (by rw [List.mem_singleton.mp h])
    · exact Or.inr (by omega)
  have hmem : 22 * (p + 1) ∈ w1.accepted :=
    x1.subset (by rw [b1]; exact List.mem_append_right _ (List.mem_singleton.mpr rfl))
  refine ⟨w1, k0, hw1, ⟨k1, k2, by rw [← e2]; exact k3, fun j a b => by
    rw [← e2]; exact k4 j a b⟩, ?_, ?_, hacc, ?_, hmem, ?_⟩
  · intro hin
    rcases hacc _ hin with h | h <;> omega
  · obtain ⟨t, ht⟩ := x2
    rw [b2] at ht
    cases l with
    | nil => simp at hl
    | cons a l' =>
      have ha : a = 22 * p + k0 := by simpa using hl
      subst ha
      exact ⟨w.visited, l' ++ [22 * (p + 1)] ++ t, by
        rw [← ht]; simp only [List.append_assoc, List.cons_append]⟩
  · exact x2.subset (by
      rw [b2]
      simp only [List.mem_append, List.mem_cons, List.mem_singleton, true_or, or_true])
  · intro m hm
    have hcons := walkLoop_consistent raw scan 1980 w1 hw1
    rw [hcons.written, List.mem_flatMap]
    refine ⟨22 * (p + 1), hmem, ?_⟩
    rw [f2] at g2
    simp only [slotsAt, g2, List.mem_cons, List.mem_singleton, List.not_mem_nil, or_false]
    omega


theorem spuriousFrame_byte (j : Nat) (hj : j < 1980) :
    byteAt spuriousFrame j =
      if j % 22 = 0 then 0xFA else if j % 22 = 1 then 0xA0 + j / 22
      else if j = 5 then 0xFA else 0 := by
  unfold spuriousFrame
  rw [byteAt_map_range _ _ _ hj]

theorem spuriousFrame_headers : HeadersInPlace spuriousFrame := by
  intro q hq
  constructor
  · rw [spuriousFrame_byte _ (by omega), if_pos (by omega)]
  · rw [spuriousFrame_byte _ (by omega), if_neg (by omega), if_pos (by omega)]
    congr 1
    omega

/-- C3 at the frame with a spurious `0xFA` at offset 5 of packet 0. -/
theorem gen2_resync_after_spurious_header_witness :
    ∃ w1 k0, walkLoop false spuriousFrame 1980 (walkInit (setup2 LaserScan.empty)) = some w1 ∧
      (2 ≤ k0 ∧ k0 ≤ 21 ∧ byteAt spuriousFrame (22 * 0 + k0) = 0xFA ∧
        ∀ j, 2 ≤ j → j < k0 → byteAt spuriousFrame (22 * 0 + j) ≠ 0xFA) ∧
      22 * 0 ∉ w1.accepted ∧
      (∃ l1 l2, w1.visited = l1 ++ 22 * 0 :: (22 * 0 + k0) :: l2) ∧
      (∀ c ∈ w1.accepted, c < 22 * 0 ∨ 22 * (0 + 1) ≤ c) ∧
      22 * (0 + 1) ∈ w1.visited ∧ 22 * (0 + 1) ∈ w1.accepted ∧
      ∀ m, m < 4 → 4 * (0 + 1) + m ∈ w1.written :=
  gen2_resync_after_spurious_header spuriousFrame (setup2 LaserScan.empty) 0
    (by unfold spuriousFrame; rw [List.length_map, List.length_range])
    spuriousFrame_headers (by omega)
    ⟨5, by omega, by omega, by
      rw [spuriousFrame_byte _ (by omega), if_neg (by omega), if_neg (by omega),
        if_pos (by omega)]⟩
    (fun k h1 h2 => by
      rw [spuriousFrame_byte _ (by omega), if_neg (by omega), if_neg (by omega),
        if_neg (by omega)]
      decide)

/-! ## Firmware 1: frame layout -/

/-- C11. Legacy frame layout: once the matcher has completed the start
sequence, `poll` reads exactly the next two bytes `s0`, `s1` as the
little-endian raw speed `s0 + 256 * s1` (stored in `motor_speed_`) and sets
`time_increment = raw_speed / 10^8`, then reads exactly the next 1440 bytes `b`
as the body, from which the 360 samples are decoded, and returns; the bytes
`rest` after these 1442 bytes stay unread in the port. -/
theorem poll_legacy_frame_layout (ms rp s0 s1 : Nat) (s b rest : List Nat) (scan : LaserScan)
    (hsync : syncRest1 0 s = some (s0 :: s1 :: (b ++ rest))) (hlen : b.length = 1440) :
    ∃ scan1,
      poll { firmware_ := 1, shutting_down_ := false, motor_speed_ := ms, rpms := rp,
             serial_ := s } scan
        = .returned { firmware_ := 1, shutting_down_ := false, motor_speed_ := s0 + 256 * s1,
                      rpms := rp, serial_ := rest } scan1 ∧
      scan1.time_increment = .val (((s0 + 256 * s1 : Nat) : ℚ) / 100000000) ∧
      scan1.ranges = scan.ranges ++ (List.range 360).map
        (fun k => (decodeRange (byteAt b (4 * k)) (byteAt b (4 * k + 1)) : ℚ) / 1000) ∧
      scan1.intensities = scan.intensities ++ (List.range 360).map
        (fun k => (decodeIntensity (byteAt b (4 * k + 2)) (byteAt b (4 * k + 3)) : ℚ)) := by
  refine ⟨decode1 (s0 + 256 * s1) 1440 b scan, ?_, (decode1_scalars _ b scan).1,
    decode1_ranges _ b scan, decode1_intensities _ b scan⟩
  unfold poll
  rw [if_pos rfl, poll1Loop_sync _ _ _ _ rfl, hsync]
  exact frame1_ok _ scan s0 s1 b rest hlen

/-- C11 at a stream with speed bytes `34 12`, a zero body and three bytes after the frame. -/
theorem poll_legacy_frame_layout_witness :
    ∃ scan1,
      poll { firmware_ := 1, shutting_down_ := false, motor_speed_ := 0, rpms := 0,
             serial_ := legacyTrailingStream } LaserScan.empty
        = .returned { firmware_ := 1, shutting_down_ := false, motor_speed_ := 0x34 + 256 * 0x12,
                      rpms := 0, serial_ := [1, 2, 3] } scan1 ∧
      scan1.time_increment = .val (((0x34 + 256 * 0x12 : Nat) : ℚ) / 100000000) ∧
      scan1.ranges = LaserScan.empty.ranges ++ (List.range 360).map
        (fun k => (decodeRange (byteAt (List.replicate 1440 0) (4 * k))
          (byteAt (List.replicate 1440 0) (4 * k + 1)) : ℚ) / 1000) ∧
      scan1.intensities = LaserScan.empty.intensities ++ (List.range 360).map
        (fun k => (decodeIntensity (byteAt (List.replicate 1440 0) (4 * k + 2))
          (byteAt (List.replicate 1440 0) (4 * k + 3)) : ℚ)) :=
  poll_legacy_frame_layout 0 0 0x34 0x12 legacyTrailingStream (List.replicate 1440 0) [1, 2, 3]
    LaserScan.empty (syncRest1_head _) (List.length_replicate _ _)

/-! ## Sample decoding: range and flags -/

set_option maxRecDepth 100000 in
theorem flag_bits_masked : ∀ b1, b1 < 256 →
    (b1 ^^^ 0x40) &&& 0x3F = b1 &&& 0x3F ∧ (b1 ^^^ 0x80) &&& 0x3F = b1 &&& 0x3F ∧
    (b1 ^^^ 0xC0) &&& 0x3F = b1 &&& 0x3F := by
  decide

theorem decodeRange_le (b0 b1 : Nat) (h0 : b0 < 256) : decodeRange b0 b1 ≤ 16383 := by
  rw [decodeRange_eq b0 b1 h0, Nat.shiftLeft_eq]
  have h : b1 &&& 0x3F ≤ 0x3F := Nat.and_le_right
  omega

/-- C15. The range is a 14-bit value and does not depend on the flag bits: for
every sample `(byte0, byte1, byte2, byte3)` the decoded range in millimetres is
at most 16383, and flipping any of the top two bits of `byte1` (exclusive or
with `0x40`, `0x80` or `0xC0`) changes neither the range nor the intensity that
the legacy decoder appends nor the ones the gen-2 decoder writes. -/
theorem sample_range_flag_independent (b0 b1 b2 b3 f i p : Nat) (scan : LaserScan) (w : Walk)
    (hb0 : b0 < 256) (hb1 : b1 < 256) (hf : f = 0x40 ∨ f = 0x80 ∨ f = 0xC0) :
    decodeRange b0 b1 ≤ 16383 ∧
    decodeRange b0 (b1 ^^^ f) = decodeRange b0 b1 ∧
    pushSample1 [b0, b1 ^^^ f, b2, b3] scan 0 = pushSample1 [b0, b1, b2, b3] scan 0 ∧
    writeSample2 [b0, b1 ^^^ f, b2, b3] i p w 0 = writeSample2 [b0, b1, b2, b3] i p w 0 := by
  have hm : (b1 ^^^ f) &&& 0x3F = b1 &&& 0x3F := by
    obtain ⟨h1, h2, h3⟩ := flag_bits_masked b1 hb1
    rcases hf with h | h | h <;> subst h <;> assumption
  have hr : decodeRange b0 (b1 ^^^ f) = decodeRange b0 b1 := by
    unfold decodeRange; rw [hm]
  refine ⟨decodeRange_le b0 b1 hb0, hr, ?_, ?_⟩
  · simp only [pushSample1, byteAt, List.getD_cons_zero, List.getD_cons_succ, hr]
  · simp only [writeSample2, byteAt, List.getD_cons_zero, List.getD_cons_succ, hr]

/-- C15 at the sample `12 B4 56 78` with the no-return flag flipped. -/
theorem sample_range_flag_independent_witness :
    decodeRange 0x12 0xB4 ≤ 16383 ∧
    decodeRange 0x12 (0xB4 ^^^ 0x80) = decodeRange 0x12 0xB4 ∧
    pushSample1 [0x12, 0xB4 ^^^ 0x80, 0x56, 0x78] LaserScan.empty 0
      = pushSample1 [0x12, 0xB4, 0x56, 0x78] LaserScan.empty 0 ∧
    writeSample2 [0x12, 0xB4 ^^^ 0x80, 0x56, 0x78] 0 0 (walkInit LaserScan.empty) 0
      = writeSample2 [0x12, 0xB4, 0x56, 0x78] 0 0 (walkInit LaserScan.empty) 0 :=
  sample_range_flag_independent 0x12 0xB4 0x56 0x78 0x80 0 0 LaserScan.empty
    (walkInit LaserScan.empty) (by decide) (by decide) (Or.inr (Or.inl rfl))

/-! ## Firmware 2: the packet-start test -/

theorem pidxAt_lt_90_iff (raw : List Nat) (i : Nat) (hb : byteAt raw (i + 1) < 256) :
    pidxAt raw i < 90 ↔ (0xA0 ≤ byteAt raw (i + 1) ∧ byteAt raw (i + 1) ≤ 0xF9) := by
  unfold pidxAt
  omega

/-- C13. The gen-2 packet-start test with 8-bit wraparound: at a cursor `i`
with `i + 22 <= 1980`, `packet_index` is `(raw[i+1] - 0xA0) mod 256` (at least
96 when `raw[i+1] < 0xA0`), and the iteration takes the packet branch (it is not
the plain `i++` step) if and only if `raw[i] = 0xFA` and
`0xA0 <= raw[i+1] <= 0xF9`; when the test fails the iteration does not break,
the cursor advances by exactly 1 and the two vectors of the scan, `rpms_sum`
and `good_packets` are unchanged. -/
theorem gen2_packet_start_test (raw : List Nat) (w : Walk)
    (hc : w.i + 22 ≤ 1980) (hb : byteAt raw (w.i + 1) < 256) :
    ((pidxAt raw w.i : ℤ) = ((byteAt raw (w.i + 1) : ℤ) - 0xA0) % 256) ∧
    (byteAt raw (w.i + 1) < 0xA0 → 96 ≤ pidxAt raw w.i) ∧
    (walkBody raw w ≠ (moveTo w (w.i + 1), false) ↔
      (byteAt raw w.i = 0xFA ∧ 0xA0 ≤ byteAt raw (w.i + 1) ∧ byteAt raw (w.i + 1) ≤ 0xF9)) ∧
    (¬ (byteAt raw w.i = 0xFA ∧ 0xA0 ≤ byteAt raw (w.i + 1) ∧ byteAt raw (w.i + 1) ≤ 0xF9) →
      (walkBody raw w).2 = false ∧ (walkBody raw w).1.i = w.i + 1 ∧
      (walkBody raw w).1.ranges = w.ranges ∧ (walkBody raw w).1.intensities = w.intensities ∧
      (walkBody raw w).1.rpms_sum = w.rpms_sum ∧
      (walkBody raw w).1.good_packets = w.good_packets) := by
  have hiff := pidxAt_lt_90_iff raw w.i hb
  have hskip : ¬ (byteAt raw w.i = 0xFA ∧ 0xA0 ≤ byteAt raw (w.i + 1) ∧
      byteAt raw (w.i + 1) ≤ 0xF9) → walkBody raw w = (moveTo w (w.i + 1), false) := by
    intro hn
    rw [walkBody_skip raw w (fun hh => hn ⟨hh.1, hiff.mp hh.2⟩), Nat.mod_eq_of_lt (by omega)]
  refine ⟨?_, ?_, ⟨fun hne => ?_, fun hh hEq => ?_⟩, fun hn => ?_⟩
  · unfold pidxAt; omega
  · intro hlt; unfold pidxAt; omega
  · by_contra hn
    exact hne (hskip hn)
  · have hok : byteAt raw w.i = 0xFA ∧ pidxAt raw w.i < 90 := ⟨hh.1, hiff.mpr hh.2⟩
    cases hk : premature raw w.i with
    | some k =>
      obtain ⟨k1, k2, -, -⟩ := premature_some raw w.i k hk
      rw [walkBody_premature raw w k hok hk, Nat.mod_eq_of_lt (by omega)] at hEq
      have := congrArg (fun r => r.1.i) hEq
      simp only [moveTo] at this
      omega
    | none =>
      rw [walkBody_good raw w hok hk] at hEq
      split at hEq
      · exact absurd (congrArg Prod.snd hEq) (by simp)
      · have := congrArg (fun r => r.1.accepted.length) hEq
        simp only [accept, moveTo, List.length_append, List.length_singleton] at this
        omega
  · rw [hskip hn]
    exact ⟨rfl, rfl, rfl, rfl, rfl, rfl⟩

/-- C13 at the first cursor of the walk over the single-packet frame. -/
theorem gen2_packet_start_test_witness :
    ((pidxAt singlePacketFrame (walkInit LaserScan.empty).i : ℤ)
      = ((byteAt singlePacketFrame ((walkInit LaserScan.empty).i + 1) : ℤ) - 0xA0) % 256) ∧
    (byteAt singlePacketFrame ((walkInit LaserScan.empty).i + 1) < 0xA0 →
      96 ≤ pidxAt singlePacketFrame (walkInit LaserScan.empty).i) ∧
    (walkBody singlePacketFrame (walkInit LaserScan.empty)
        ≠ (moveTo (walkInit LaserScan.empty) ((walkInit LaserScan.empty).i + 1), false) ↔
      (byteAt singlePacketFrame (walkInit LaserScan.empty).i = 0xFA ∧
        0xA0 ≤ byteAt singlePacketFrame ((walkInit LaserScan.empty).i + 1) ∧
        byteAt singlePacketFrame ((walkInit LaserScan.empty).i + 1) ≤ 0xF9)) ∧
    (¬ (byteAt singlePacketFrame (walkInit LaserScan.empty).i = 0xFA ∧
        0xA0 ≤ byteAt singlePacketFrame ((walkInit LaserScan.empty).i + 1) ∧
        byteAt singlePacketFrame ((walkInit LaserScan.empty).i + 1) ≤ 0xF9) →
      (walkBody singlePacketFrame (walkInit LaserScan.empty)).2 = false ∧
      (walkBody singlePacketFrame (walkInit LaserScan.empty)).1.i
        = (walkInit LaserScan.empty).i + 1 ∧
      (walkBody singlePacketFrame (walkInit LaserScan.empty)).1.ranges
        = (walkInit LaserScan.empty).ranges ∧
      (walkBody singlePacketFrame (walkInit LaserScan.empty)).1.intensities
        = (walkInit LaserScan.empty).intensities ∧
      (walkBody singlePacketFrame (walkInit LaserScan.empty)).1.rpms_sum
        = (walkInit LaserScan.empty).rpms_sum ∧
      (walkBody singlePacketFrame (walkInit LaserScan.empty)).1.good_packets
        = (walkInit LaserScan.empty).good_packets) :=
  gen2_packet_start_test singlePacketFrame (walkInit LaserScan.empty)
    (by show 0 + 22 ≤ 1980; omega)
    (by
      show byteAt singlePacketFrame (0 + 1) < 256
      rw [singlePacketFrame_byte (0 + 1) (by omega), if_neg (by omega), if_pos rfl]
      decide)

/-! ## Firmware 2: the number of good packets -/

/-- Invariants in two parts: `Q` holds before every iteration, `R` when the
loop has ended (by the loop condition or by `break`). -/
theorem walkLoop_invariant_exit (raw : List Nat) (Q R : Walk → Prop)
    (hstep : ∀ w, w.i + 22 ≤ 1980 → Q w → (walkBody raw w).2 = false → Q (walkBody raw w).1)
    (hbreak : ∀ w, w.i + 22 ≤ 1980 → Q w → (walkBody raw w).2 = true → R (walkBody raw w).1)
    (hexit : ∀ w, ¬ (w.i + 22 ≤ 1980) → Q w → R w)
    (fuel : Nat) (w w1 : Walk) (h0 : Q w) (h : walkLoop false raw fuel w = some w1) : R w1 := by
  induction fuel generalizing w with
  | zero =>
    by_cases hc : w.i + 22 ≤ 1980
    · rw [walkLoop_zero raw w hc] at h; exact absurd h (by simp)
    · rw [walkLoop_done raw _ w hc] at h; cases h; exact hexit _ hc h0
  | succ fuel ih =>
    by_cases hc : w.i + 22 ≤ 1980
    · rw [walkLoop_succ raw _ w hc] at h
      cases hb : (walkBody raw w).2 with
      | true =>
        rw [hb] at h
        simp only [if_true, Option.some.injEq] at h
        rw [← h]; exact hbreak w hc h0 hb
      | false =>
        rw [hb] at h
        simp only [Bool.false_eq_true, if_false] at h
        exact ih _ (hstep w hc h0 hb) h
    · rw [walkLoop_done raw _ w hc] at h; cases h; exact hexit _ hc h0

/-- Cursors that lie at least 22 apart and whose windows end by `n`: there are
at most `n / 22` of them. -/
theorem spaced_length (l : List Nat) (n lo : Nat) (hlo : lo ≤ n)
    (hp : l.Pairwise (fun a b => a + 22 ≤ b)) (hl : ∀ c ∈ l, lo ≤ c ∧ c + 22 ≤ n) :
    22 * l.length + lo ≤ n := by
  induction l generalizing lo with
  | nil => simpa using hlo
  | cons a t ih =>
    rw [List.pairwise_cons] at hp
    have ha := hl a (List.mem_cons_self _ _)
    have := ih (a + 22) ha.2 hp.2
      (fun c hc => ⟨hp.1 c hc, (hl c (List.mem_cons_of_mem _ hc)).2⟩)
    rw [List.length_cons]
    omega

theorem pairwise_append_singleton (l : List Nat) (x : Nat)
    (hp : l.Pairwise (fun a b => a + 22 ≤ b)) (hx : ∀ c ∈ l, c + 22 ≤ x) :
    (l ++ [x]).Pairwise (fun a b => a + 22 ≤ b) := by
  rw [List.pairwise_append]
  refine ⟨hp, List.pairwise_singleton _ _, fun a ha b hb => ?_⟩
  rw [List.mem_singleton.mp hb]
  exact hx a ha

/-- The windows of the accepted packets are pairwise disjoint and inside the buffer. -/
theorem walkLoop_accepted_spaced (raw : List Nat) (scan : LaserScan) (fuel : Nat) (w1 : Walk)
    (h : walkLoop false raw fuel (walkInit scan) = some w1) :
    w1.accepted.Pairwise (fun a b => a + 22 ≤ b) ∧ ∀ c ∈ w1.accepted, c + 22 ≤ 1980 := by
  refine walkLoop_invariant_exit raw
    (fun w => w.accepted.Pairwise (fun a b => a + 22 ≤ b) ∧ (∀ c ∈ w.accepted, c + 22 ≤ w.i) ∧
      w.i ≤ 1980)
    (fun w => w.accepted.Pairwise (fun a b => a + 22 ≤ b) ∧ ∀ c ∈ w.accepted, c + 22 ≤ 1980)
    ?_ ?_ ?_ fuel (walkInit scan) w1 ?_ h
  · intro w hc ⟨q1, q2, q3⟩ hb
    rcases walkBody_cases raw w hc with ⟨k, k1, k2, e⟩ | ⟨-, -, -, ⟨-, e⟩ | ⟨-, e⟩⟩
    · rw [e]
      refine ⟨q1, fun c hcm => ?_, by simp only [moveTo]; omega⟩
      have := q2 c hcm
      simp only [moveTo]; omega
    · rw [e] at hb; simp at hb
    · rw [e]
      refine ⟨pairwise_append_singleton _ _ q1 q2, fun c hcm => ?_, by simp only []; omega⟩
      rcases List.mem_append.mp hcm with hm | hm
      · have := q2 c hm
        simp only []; omega
      · rw [List.mem_singleton.mp hm]
  · intro w hc ⟨q1, q2, q3⟩ hb
    rcases walkBody_cases raw w hc with ⟨k, k1, k2, e⟩ | ⟨-, -, -, ⟨-, e⟩ | ⟨-, e⟩⟩
    · rw [e] at hb; simp at hb
    · rw [e]
      refine ⟨pairwise_append_singleton _ _ q1 q2, fun c hcm => ?_⟩
      rcases List.mem_append.mp hcm with hm | hm
      · have := q2 c hm; omega
      · rw [List.mem_singleton.mp hm]; exact hc
    · rw [e] at hb; simp at hb
  · intro w _ ⟨q1, q2, q3⟩
    exact ⟨q1, fun c hcm => by have := q2 c hcm; omega⟩
  · exact ⟨List.Pairwise.nil, fun c hc => by simp [walkInit] at hc, by simp [walkInit]⟩

/-- C16. The good-packet counter is bounded: for every frame the walk ends, the
cursors of the packets it accepted lie at least 22 apart with their 22-byte
windows inside the 1980 bytes (the windows are pairwise disjoint), so at most
90 packets are accepted, and the 8-bit counter `good_packets` equals their
number: it never wraps around. -/
theorem gen2_good_packets_bound (raw : List Nat) (scan : LaserScan) :
    ∃ w1, walkLoop false raw 1980 (walkInit scan) = some w1 ∧
      w1.accepted.Pairwise (fun a b => a + 22 ≤ b) ∧
      (∀ c ∈ w1.accepted, c + 22 ≤ 1980) ∧
      w1.accepted.length ≤ 90 ∧
      w1.good_packets = w1.accepted.length ∧ w1.good_packets ≤ 90 := by
  obtain ⟨w1, hw⟩ := walkLoop_total raw 1980 (walkInit scan) (by omega)
  obtain ⟨h1, h2⟩ := walkLoop_accepted_spaced raw scan 1980 w1 hw
  have hlen : w1.accepted.length ≤ 90 := by
    have := spaced_length w1.accepted 1980 0 (by omega) h1
      (fun c hc => ⟨Nat.zero_le _, h2 c hc⟩)
    omega
  have hgp : w1.good_packets = w1.accepted.length := by
    rw [(walkLoop_consistent raw scan 1980 w1 hw).good_packets]
    exact Nat.mod_eq_of_lt (by omega)
  exact ⟨w1, hw, h1, h2, hlen, hgp, by omega⟩

/-! ## Firmware 2: termination of the packet walk -/

/-- The number of iterations run is at most 1959. -/
theorem walkLoop_iterations (raw : List Nat) (scan : LaserScan) (fuel : Nat) (w1 : Walk)
    (h : walkLoop false raw fuel (walkInit scan) = some w1) : w1.visited.length ≤ 1959 := by
  refine walkLoop_invariant_exit raw
    (fun w => w.visited.length ≤ w.i ∧ w.visited.length ≤ 1959)
    (fun w => w.visited.length ≤ 1959) ?_ ?_ ?_ fuel (walkInit scan) w1 ?_ h
  · intro w hc ⟨q1, q2⟩ hb
    rcases walkBody_cases raw w hc with ⟨k, k1, k2, e⟩ | ⟨-, -, -, ⟨-, e⟩ | ⟨-, e⟩⟩
    · rw [e]
      simp only [moveTo, List.length_append, List.length_singleton]
      omega
    · rw [e] at hb; simp at hb
    · rw [e]
      simp only [accept, List.length_append, List.length_singleton]
      omega
  · intro w hc ⟨q1, q2⟩ hb
    rcases walkBody_cases raw w hc with ⟨k, k1, k2, e⟩ | ⟨-, -, -, ⟨-, e⟩ | ⟨-, e⟩⟩
    · rw [e] at hb; simp at hb
    · rw [e]
      simp only [accept, List.length_append, List.length_singleton]
      omega
    · rw [e] at hb; simp at hb
  · intro w _ ⟨_, q2⟩
    exact q2
  · exact ⟨by simp [walkInit], by simp [walkInit]⟩

/-- C18. Termination of the gen-2 packet walk: every iteration either breaks
or moves the cursor `i` forward, by 1, by some `k` in 2..21, or by 22, and the
new value is below 2^16 (no 16-bit overflow); so the loop ends after at most
1959 iterations: 1959 runs of the body are enough for every frame, and the
walk has run the body at most 1959 times when it ends. -/
theorem gen2_walk_terminates (raw : List Nat) (scan : LaserScan) :
    (∀ w : Walk, w.i + 22 ≤ 1980 →
      (walkBody raw w).2 = true ∨
      ∃ k, (k = 1 ∨ (2 ≤ k ∧ k ≤ 21) ∨ k = 22) ∧
        (walkBody raw w).1.i = w.i + k ∧ w.i + k < 65536) ∧
    ∃ w1, walkLoop false raw 1959 (walkInit scan) = some w1 ∧
      walkLoop false raw 1980 (walkInit scan) = some w1 ∧
      w1.visited.length ≤ 1959 := by
  constructor
  · intro w hc
    by_cases hh : byteAt raw w.i = 0xFA ∧ pidxAt raw w.i < 90
    · cases hk : premature raw w.i with
      | some k =>
        obtain ⟨k1, k2, -, -⟩ := premature_some raw w.i k hk
        right
        refine ⟨k, Or.inr (Or.inl ⟨k1, k2⟩), ?_, by omega⟩
        rw [walkBody_premature raw w k hh hk, Nat.mod_eq_of_lt (by omega)]
        rfl
      | none =>
        rw [walkBody_good raw w hh hk]
        by_cases h89 : pidxAt raw w.i = 89
        · left; rw [if_pos h89]
        · right
          refine ⟨22, Or.inr (Or.inr rfl), ?_, by omega⟩
          rw [if_neg h89, Nat.mod_eq_of_lt (by omega)]
    · right
      refine ⟨1, Or.inl rfl, ?_, by omega⟩
      rw [walkBody_skip raw w hh, Nat.mod_eq_of_lt (by omega)]
      rfl
  · obtain ⟨w1, hw⟩ := walkLoop_total raw 1959 (walkInit scan) (by omega)
    have hmono : ∀ n, walkLoop false raw (1959 + n) (walkInit scan) = some w1 := by
      intro n
      induction n with
      | zero => exact hw
      | succ n ih => exact walkLoop_fuel_succ raw _ _ w1 ih
    exact ⟨w1, hw, hmono 21, walkLoop_iterations raw scan 1959 w1 hw⟩

/-! ## Firmware 2: index safety of the packet walk -/

theorem find_agree (p q : Nat → Bool) (l : List Nat) (h : ∀ x ∈ l, p x = q x) :
    l.find? p = l.find? q := by
  induction l with
  | nil => rfl
  | cons a t ih =>
    rw [List.find?_cons, List.find?_cons, h a (List.mem_cons_self _ _),
      ih (fun x hx => h x (List.mem_cons_of_mem _ hx))]

/-- One iteration reads the buffer only inside the window `raw[i .. i+21]`:
two buffers that agree there give the same iteration. -/
theorem walkBody_window (raw raw1 : List Nat) (w : Walk)
    (h : ∀ x, w.i ≤ x → x < w.i + 22 → byteAt raw1 x = byteAt raw x) :
    walkBody raw1 w = walkBody raw w := by
  have e0 : byteAt raw1 w.i = byteAt raw w.i := h _ (by omega) (by omega)
  have hk : ∀ k, k < 22 → byteAt raw1 (w.i + k) = byteAt raw (w.i + k) :=
    fun k hk => h _ (by omega) (by omega)
  have ep : pidxAt raw1 w.i = pidxAt raw w.i := by
    unfold pidxAt; rw [hk 1 (by omega)]
  have em : premature raw1 w.i = premature raw w.i := by
    unfold premature
    apply find_agree
    intro x hx
    rw [List.mem_range'_1] at hx
    rw [hk x (by omega)]
  have ea : accept raw1 w = accept raw w := by
    have a4 : ∀ m, m < 4 → sampleRange raw1 (w.i + (4 + 4 * m)) = sampleRange raw (w.i + (4 + 4 * m)) ∧
        sampleIntensity raw1 (w.i + (4 + 4 * m)) = sampleIntensity raw (w.i + (4 + 4 * m)) := by
      intro m hm
      unfold sampleRange sampleIntensity
      rw [hk _ (by omega), show w.i + (4 + 4 * m) + 1 = w.i + (4 + 4 * m + 1) from rfl,
        hk _ (by omega), show w.i + (4 + 4 * m) + 2 = w.i + (4 + 4 * m + 2) from rfl,
        hk _ (by omega), show w.i + (4 + 4 * m) + 3 = w.i + (4 + 4 * m + 3) from rfl,
        hk _ (by omega)]
      exact ⟨rfl, rfl⟩
    have s64 : speed64 raw1 w.i = speed64 raw w.i := by
      unfold speed64; rw [hk 3 (by omega), hk 2 (by omega)]
    have r0 := a4 0 (by omega)
    have r1 := a4 1 (by omega)
    have r2 := a4 2 (by omega)
    have r3 := a4 3 (by omega)
    simp only [Nat.mul_zero, Nat.mul_one, Nat.add_zero, Nat.reduceMul, Nat.reduceAdd,
      ← Nat.add_assoc] at r0 r1 r2 r3
    simp only [accept, write4, ep, s64, r0.1, r0.2, r1.1, r1.2, r2.1, r2.2, r3.1, r3.2]
  by_cases hh : byteAt raw w.i = 0xFA ∧ pidxAt raw w.i < 90
  · have hh1 : byteAt raw1 w.i = 0xFA ∧ pidxAt raw1 w.i < 90 := by rw [e0, ep]; exact hh
    cases hp : premature raw w.i with
    | some k =>
      rw [walkBody_premature raw w k hh hp, walkBody_premature raw1 w k hh1 (em.trans hp)]
    | none =>
      rw [walkBody_good raw w hh hp, walkBody_good raw1 w hh1 (em.trans hp), ep, ea]
  · have hh1 : ¬ (byteAt raw1 w.i = 0xFA ∧ pidxAt raw1 w.i < 90) := by rw [e0, ep]; exact hh
    rw [walkBody_skip raw w hh, walkBody_skip raw1 w hh1]


theorem walkLoop_visited_in_range (raw : List Nat) (scan : LaserScan) (fuel : Nat) (w1 : Walk)
    (h : walkLoop false raw fuel (walkInit scan) = some w1) :
    ∀ c ∈ w1.visited, c + 22 ≤ 1980 := by
  refine walkLoop_invariant raw (fun w => ∀ c ∈ w.visited, c + 22 ≤ 1980) ?_ fuel
    (walkInit scan) w1 (fun c hc => by simp [walkInit] at hc) h
  intro w hc hq
  have key : ∀ c ∈ w.visited ++ [w.i], c + 22 ≤ 1980 := by
    intro c hcm
    rcases List.mem_append.mp hcm with hm | hm
    · exact hq c hm
    · rw [List.mem_singleton.mp hm]; exact hc
  rcases walkBody_cases raw w hc with ⟨k, -, -, e⟩ | ⟨-, -, -, ⟨-, e⟩ | ⟨-, e⟩⟩
  · rw [e]; exact key
  · rw [e]; exact key
  · rw [e]; exact key

theorem walkLoop_accepted_index (raw : List Nat) (scan : LaserScan) (fuel : Nat) (w1 : Walk)
    (h : walkLoop false raw fuel (walkInit scan) = some w1) :
    ∀ c ∈ w1.accepted, pidxAt raw c < 90 := by
  refine walkLoop_invariant raw (fun w => ∀ c ∈ w.accepted, pidxAt raw c < 90) ?_ fuel
    (walkInit scan) w1 (fun c hc => by simp [walkInit] at hc) h
  intro w hc hq
  rcases walkBody_cases raw w hc with ⟨k, -, -, e⟩ | ⟨-, hp, -, ⟨-, e⟩ | ⟨-, e⟩⟩
  · rw [e]; exact hq
  · rw [e]
    intro c hcm
    rcases List.mem_append.mp hcm with hm | hm
    · exact hq c hm
    · rw [List.mem_singleton.mp hm]; exact hp
  · rw [e]
    intro c hcm
    rcases List.mem_append.mp hcm with hm | hm
    · exact hq c hm
    · rw [List.mem_singleton.mp hm]; exact hp

/-- C17. Index safety of the gen-2 packet walk: an iteration at cursor `i`
reads the buffer only inside the window `raw[i .. i+21]` (that is `raw[i]`,
`raw[i+1]`, `raw[i+k]` for `k` in 2..21 and `raw[j .. j+3]` for
`j = i+4, i+8, i+12, i+16`: buffers that agree on the window give the same
iteration); for every frame the walk ends, every cursor at which the body ran
has its window inside the 1980 bytes, so every read index is below 1980; and
every angle written is in 0..359, within the 360 entries of the two vectors. -/
theorem gen2_walk_index_safety (raw : List Nat) (scan : LaserScan) :
    (∀ (raw1 : List Nat) (w : Walk),
      (∀ x, w.i ≤ x → x < w.i + 22 → byteAt raw1 x = byteAt raw x) →
      walkBody raw1 w = walkBody raw w) ∧
    ∃ w1, walkLoop false raw 1980 (walkInit (setup2 scan)) = some w1 ∧
      (∀ c ∈ w1.visited, ∀ x, c ≤ x → x < c + 22 → x < 1980) ∧
      (∀ a ∈ w1.written, a < 360) ∧
      w1.ranges.length = 360 ∧ w1.intensities.length = 360 := by
  refine ⟨fun raw1 w h => walkBody_window raw raw1 w h, ?_⟩
  obtain ⟨w1, hw⟩ := walkLoop_total raw 1980 (walkInit (setup2 scan)) (by omega)
  have hv := walkLoop_visited_in_range raw _ 1980 w1 hw
  have hp := walkLoop_accepted_index raw _ 1980 w1 hw
  have hcons := walkLoop_consistent raw _ 1980 w1 hw
  obtain ⟨l1, l2⟩ := walk_lengths raw _ w1 hw
  refine ⟨w1, hw, fun c hc x _ hx => by have := hv c hc; omega, fun a ha => ?_,
    by rw [l1]; exact (setup2_lengths scan).1, by rw [l2]; exact (setup2_lengths scan).2⟩
  rw [hcons.written, List.mem_flatMap] at ha
  obtain ⟨c, hc, hac⟩ := ha
  have := hp c hc
  simp only [slotsAt, List.mem_cons, List.mem_singleton, List.not_mem_nil, or_false] at hac
  omega

/-! ## Gen-2 RPM formula and frames with missing packets -/

/-- The outcome of `poll` for firmware 2 on a stream that begins with a whole
frame: the frame is decoded and the bytes after it stay in the port. -/
theorem poll2_on_frame (ms rp : Nat) (scan : LaserScan) (raw rest : List Nat)
    (hlen : raw.length = 1980) (h0 : byteAt raw 0 = 0xFA) (h1 : byteAt raw 1 = 0xA0) :
    poll { firmware_ := 2, shutting_down_ := false, motor_speed_ := ms, rpms := rp,
           serial_ := raw ++ rest } scan =
      decode2 { firmware_ := 2, shutting_down_ := false, motor_speed_ := ms, rpms := 0,
                serial_ := rest } (setup2 scan) raw rest := by
  match raw, hlen, h0, h1 with
  | a :: b :: t, hlen, h0, h1 =>
    have ha : a = 0xFA := h0
    have hb : b = 0xA0 := h1
    subst ha hb
    have ht : t.length = 1978 := by
      simp only [List.length_cons] at hlen; omega
    have := poll2_frame ms rp scan t rest ht
    rw [show (0xFA :: 0xA0 :: t) ++ rest = 0xFA :: 0xA0 :: (t ++ rest) from rfl, this]
    exact decode2_serial _ _ _ _ rest

/-- The outcome of `poll` on a frame in terms of the result of the walk. -/
theorem poll2_on_frame_returned (ms rp : Nat) (scan : LaserScan) (raw rest : List Nat)
    (hlen : raw.length = 1980) (h0 : byteAt raw 0 = 0xFA) (h1 : byteAt raw 1 = 0xA0) :
    ∃ w1, walkLoop false raw 1980 (walkInit (setup2 scan)) = some w1 ∧
      poll { firmware_ := 2, shutting_down_ := false, motor_speed_ := ms, rpms := rp,
             serial_ := raw ++ rest } scan =
        .returned
          (timing2
            { firmware_ := 2, shutting_down_ := false, motor_speed_ := ms, rpms := 0,
              serial_ := rest }
            { setup2 scan with ranges := w1.ranges, intensities := w1.intensities }
            w1.rpms_sum w1.good_packets).1
          (timing2
            { firmware_ := 2, shutting_down_ := false, motor_speed_ := ms, rpms := 0,
              serial_ := rest }
            { setup2 scan with ranges := w1.ranges, intensities := w1.intensities }
            w1.rpms_sum w1.good_packets).2 := by
  obtain ⟨w1, hw⟩ := walkLoop_total raw 1980 (walkInit (setup2 scan)) (by omega)
  refine ⟨w1, hw, ?_⟩
  rw [poll2_on_frame ms rp scan raw rest hlen h0 h1, decode2_returned _ _ raw rest w1 rfl hw]

/-- C14. The gen-2 computed RPM: for every 1980-byte frame, after `poll`
`rpms` is the integer quotient `rpms_sum / good_packets` when
`good_packets > 0` and 0 when `good_packets = 0`, where `good_packets` is the
number of accepted packets and `rpms_sum` is the sum over the accepted packets
at cursors `i` of the integer quotient `(raw[i+2] + 256 * raw[i+3]) / 64`; the
guard `rpms_sum > 0` of the code does not change this value. -/
theorem gen2_rpm_formula (ms rp : Nat) (scan : LaserScan) (raw rest : List Nat)
    (hlen : raw.length = 1980) (hbyte : ∀ x ∈ raw, x < 256)
    (h0 : byteAt raw 0 = 0xFA) (h1 : byteAt raw 1 = 0xA0) :
    ∃ w1 self1 scan1,
      walkLoop false raw 1980 (walkInit (setup2 scan)) = some w1 ∧
      poll { firmware_ := 2, shutting_down_ := false, motor_speed_ := ms, rpms := rp,
             serial_ := raw ++ rest } scan = .returned self1 scan1 ∧
      w1.good_packets = w1.accepted.length ∧
      w1.rpms_sum =
        (w1.accepted.map (fun i => (byteAt raw (i + 2) + 256 * byteAt raw (i + 3)) / 64)).sum ∧
      self1.rpms = (if 0 < w1.good_packets then w1.rpms_sum / w1.good_packets else 0) := by
  obtain ⟨w1, hw, hp⟩ := poll2_on_frame_returned ms rp scan raw rest hlen h0 h1
  have hcons := walkLoop_consistent raw _ 1980 w1 hw
  obtain ⟨h1, h2⟩ := walkLoop_accepted_spaced raw _ 1980 w1 hw
  have hl : w1.accepted.length ≤ 90 := by
    have := spaced_length w1.accepted 1980 0 (by omega) h1
      (fun c hc => ⟨Nat.zero_le _, h2 c hc⟩)
    omega
  refine ⟨w1, _, _, hw, hp, ?_, ?_, ?_⟩
  · rw [hcons.good_packets]; exact Nat.mod_eq_of_lt (by omega)
  · rw [hcons.rpms_sum]
    congr 1
    apply List.map_congr_left
    intro c _
    exact speed64_eq raw hbyte c
  · rw [timing2_rpms]
    by_cases hz : w1.good_packets = 0
    · rw [if_pos hz, if_neg (by omega)]
    · rw [if_neg hz, if_pos (by omega)]

theorem singlePacketFrame_length : singlePacketFrame.length = 1980 := by
  unfold singlePacketFrame; rw [List.length_map, List.length_range]

theorem singlePacketFrame_sync :
    byteAt singlePacketFrame 0 = 0xFA ∧ byteAt singlePacketFrame 1 = 0xA0 := by
  constructor
  · rw [singlePacketFrame_byte 0 (by omega), if_pos rfl]
  · rw [singlePacketFrame_byte 1 (by omega), if_neg (by omega), if_pos rfl]

/-- C14 at the frame with the single packet 0 of raw speed 6400. -/
theorem gen2_rpm_formula_witness :
    ∃ w1 self1 scan1,
      walkLoop false singlePacketFrame 1980 (walkInit (setup2 LaserScan.empty)) = some w1 ∧
      poll { firmware_ := 2, shutting_down_ := false, motor_speed_ := 0, rpms := 0,
             serial_ := singlePacketFrame ++ [] } LaserScan.empty = .returned self1 scan1 ∧
      w1.good_packets = w1.accepted.length ∧
      w1.rpms_sum =
        (w1.accepted.map (fun i =>
          (byteAt singlePacketFrame (i + 2) + 256 * byteAt singlePacketFrame (i + 3)) / 64)).sum ∧
      self1.rpms = (if 0 < w1.good_packets then w1.rpms_sum / w1.good_packets else 0) :=
  gen2_rpm_formula 0 0 LaserScan.empty singlePacketFrame [] singlePacketFrame_length
    singlePacketFrame_bytes singlePacketFrame_sync.1 singlePacketFrame_sync.2

/-- The walk over the single-packet frame: one packet, speed sum 100. -/
theorem singlePacketFrame_counters (scan : LaserScan) :
    ∃ w1, walkLoop false singlePacketFrame 1980 (walkInit scan) = some w1 ∧
      w1.accepted = [0] ∧ w1.good_packets = 1 ∧ w1.rpms_sum = 100 := by
  obtain ⟨w1, hw, hacc⟩ := singlePacketFrame_accepted scan
  have hcons := walkLoop_consistent singlePacketFrame scan 1980 w1 hw
  refine ⟨w1, hw, hacc, ?_, ?_⟩
  · rw [hcons.good_packets, hacc]; rfl
  · rw [hcons.rpms_sum, hacc]
    simp only [List.map_cons, List.map_nil, List.sum_cons, List.sum_nil, Nat.add_zero]
    unfold speed64
    rw [singlePacketFrame_byte (0 + 3) (by omega), singlePacketFrame_byte (0 + 2) (by omega)]
    rfl

/-- C12 (as stated, refuted). In the frame with the single well-formed packet 0
of raw speed 6400 the walk finds one good packet, fewer than 90, and `poll`
returns with `rpms = 100` and `scan_time = 60/100`, not with 0 and 0. -/
theorem gen2_missing_packets_keep_rpm :
    ∃ w1 self1 scan1,
      walkLoop false singlePacketFrame 1980 (walkInit (setup2 LaserScan.empty)) = some w1 ∧
      w1.accepted.length = 1 ∧ w1.good_packets = 1 ∧
      poll { firmware_ := 2, shutting_down_ := false, motor_speed_ := 0, rpms := 0,
             serial_ := singlePacketFrame ++ [] } LaserScan.empty = .returned self1 scan1 ∧
      self1.rpms = 100 ∧ scan1.scan_time = .val (60 / 100) ∧
      self1.rpms ≠ 0 ∧ scan1.scan_time ≠ .val 0 := by
  obtain ⟨w1, hw, hacc, hg, hs⟩ := singlePacketFrame_counters (setup2 LaserScan.empty)
  obtain ⟨w2, hw2, hp⟩ := poll2_on_frame_returned 0 0 LaserScan.empty singlePacketFrame []
    singlePacketFrame_length singlePacketFrame_sync.1 singlePacketFrame_sync.2
  have e : w2 = w1 := Option.some.inj (hw2.symm.trans hw)
  subst e
  rw [hg, hs] at hp
  have hr : (timing2
      { firmware_ := 2, shutting_down_ := false, motor_speed_ := 0, rpms := 0, serial_ := [] }
      { setup2 LaserScan.empty with ranges := w2.ranges, intensities := w2.intensities }
      100 1).1.rpms = 100 := by
    rw [timing2_rpms]; rfl
  have ht : (timing2
      { firmware_ := 2, shutting_down_ := false, motor_speed_ := 0, rpms := 0, serial_ := [] }
      { setup2 LaserScan.empty with ranges := w2.ranges, intensities := w2.intensities }
      100 1).2.scan_time = .val (60 / 100) := by
    simp [timing2, Flt.div]
  refine ⟨w2, _, _, hw, by rw [hacc]; rfl, hg, hp, hr, ht, ?_, ?_⟩
  · rw [hr]; decide
  · rw [ht]
    intro e
    have := Flt.val.inj e
    norm_num at this

theorem timing2_scan_time_pos (self : XV11Laser) (scan : LaserScan) (a b : Nat)
    (h : 0 < (timing2 self scan a b).1.rpms) :
    (timing2 self scan a b).2.scan_time = .val (60 / ((timing2 self scan a b).1.rpms : ℚ)) := by
  unfold timing2 at h ⊢
  by_cases hg : a > 0 ∧ b > 0
  · rw [if_pos hg] at h ⊢
    simp only [] at h ⊢
    have hne : ((a / b : Nat) : ℚ) ≠ 0 := by
      exact_mod_cast (Nat.pos_iff_ne_zero.mp h)
    simp only [Flt.div, if_neg hne]
  · rw [if_neg hg] at h
    exact absurd h (by simp)

theorem timing2_scan_time_zero (self : XV11Laser) (scan : LaserScan) (a b : Nat)
    (h : b = 0 ∨ a = 0) :
    (timing2 self scan a b).1.rpms = 0 ∧ (timing2 self scan a b).2.scan_time = .val 0 := by
  unfold timing2
  rw [if_neg (by omega)]
  exact ⟨rfl, rfl⟩

theorem timing2_time_increment (self : XV11Laser) (scan : LaserScan) (a b : Nat) :
    (timing2 self scan a b).2.time_increment = (timing2 self scan a b).2.scan_time.div 360 := by
  unfold timing2
  split <;> rfl

/-- C12 (amended). Gen-2 missing packets: for every 1980-byte frame, also one
in which fewer than 90 structurally valid packets are found, `poll` returns a
scan; `rpms` is the integer quotient `rpms_sum / good_packets` over the packets
found, and 0 when none is found; `scan_time = 60 / rpms` when `rpms > 0`, and
`rpms = 0`, `scan_time = 0` when no packet is found or `rpms_sum = 0`;
`time_increment = scan_time / 360`; and every angle slot that no good packet
wrote holds the value it had after the resize to 360, which is the default 0
when the scan passed in has empty vectors. -/
theorem gen2_missing_packets (ms rp : Nat) (scan : LaserScan) (raw rest : List Nat)
    (hlen : raw.length = 1980) (h0 : byteAt raw 0 = 0xFA) (h1 : byteAt raw 1 = 0xA0) :
    ∃ w1 self1 scan1,
      walkLoop false raw 1980 (walkInit (setup2 scan)) = some w1 ∧
      poll { firmware_ := 2, shutting_down_ := false, motor_speed_ := ms, rpms := rp,
             serial_ := raw ++ rest } scan = .returned self1 scan1 ∧
      self1.rpms = (if 0 < w1.good_packets then w1.rpms_sum / w1.good_packets else 0) ∧
      (0 < self1.rpms → scan1.scan_time = .val (60 / (self1.rpms : ℚ))) ∧
      ((w1.good_packets = 0 ∨ w1.rpms_sum = 0) →
        self1.rpms = 0 ∧ scan1.scan_time = .val 0) ∧
      scan1.time_increment = scan1.scan_time.div 360 ∧
      (∀ a, a ∉ w1.written →
        scan1.ranges[a]? = (resize360 scan.ranges)[a]? ∧
        scan1.intensities[a]? = (resize360 scan.intensities)[a]?) ∧
      (scan.ranges = [] → scan.intensities = [] → ∀ a, a < 360 → a ∉ w1.written →
        scan1.ranges[a]? = some 0 ∧ scan1.intensities[a]? = some 0) := by
  obtain ⟨w1, hw, hp⟩ := poll2_on_frame_returned ms rp scan raw rest hlen h0 h1
  have hslots : ∀ a, a ∉ w1.written →
      (timing2 { firmware_ := 2, shutting_down_ := false, motor_speed_ := ms, rpms := 0,
                 serial_ := rest }
        { setup2 scan with ranges := w1.ranges, intensities := w1.intensities }
        w1.rpms_sum w1.good_packets).2.ranges[a]? = (resize360 scan.ranges)[a]? ∧
      (timing2 { firmware_ := 2, shutting_down_ := false, motor_speed_ := ms, rpms := 0,
                 serial_ := rest }
        { setup2 scan with ranges := w1.ranges, intensities := w1.intensities }
        w1.rpms_sum w1.good_packets).2.intensities[a]? = (resize360 scan.intensities)[a]? := by
    intro a ha
    obtain ⟨e1, e2⟩ := walk_unwritten raw (setup2 scan) w1 hw a ha
    rw [(timing2_vectors _ _ _ _).1, (timing2_vectors _ _ _ _).2]
    exact ⟨e1, e2⟩
  refine ⟨w1, _, _, hw, hp, ?_, timing2_scan_time_pos _ _ _ _,
    timing2_scan_time_zero _ _ _ _, timing2_time_increment _ _ _ _, hslots,
    fun hr hi a ha hnw => ?_⟩
  · rw [timing2_rpms]
    by_cases hz : w1.good_packets = 0
    · rw [if_pos hz, if_neg (by omega)]
    · rw [if_neg hz, if_pos (by omega)]
  · obtain ⟨e1, e2⟩ := hslots a hnw
    rw [e1, e2, hr, hi]
    exact ⟨resize360_nil_get a ha, resize360_nil_get a ha⟩

/-- C12 (amended) at the frame with the single packet 0. -/
theorem gen2_missing_packets_witness :
    ∃ w1 self1 scan1,
      walkLoop false singlePacketFrame 1980 (walkInit (setup2 LaserScan.empty)) = some w1 ∧
      poll { firmware_ := 2, shutting_down_ := false, motor_speed_ := 0, rpms := 0,
             serial_ := singlePacketFrame ++ [] } LaserScan.empty = .returned self1 scan1 ∧
      self1.rpms = (if 0 < w1.good_packets then w1.rpms_sum / w1.good_packets else 0) ∧
      (0 < self1.rpms → scan1.scan_time = .val (60 / (self1.rpms : ℚ))) ∧
      ((w1.good_packets = 0 ∨ w1.rpms_sum = 0) →
        self1.rpms = 0 ∧ scan1.scan_time = .val 0) ∧
      scan1.time_increment = scan1.scan_time.div 360 ∧
      (∀ a, a ∉ w1.written →
        scan1.ranges[a]? = (resize360 LaserScan.empty.ranges)[a]? ∧
        scan1.intensities[a]? = (resize360 LaserScan.empty.intensities)[a]?) ∧
      (LaserScan.empty.ranges = [] → LaserScan.empty.intensities = [] →
        ∀ a, a < 360 → a ∉ w1.written →
        scan1.ranges[a]? = some 0 ∧ scan1.intensities[a]? = some 0) :=
  gen2_missing_packets 0 0 LaserScan.empty singlePacketFrame [] singlePacketFrame_length
    singlePacketFrame_sync.1 singlePacketFrame_sync.2

/-! ## Legacy sync point -/

theorem startStep1_expected (st : Nat) (h : st ≤ 3) :
    ∃ e, startSequence.drop st = e :: startSequence.drop (st + 1) ∧
      ∀ c, (c = e → startStep1 st c = (if st = 3 then (0, true) else (st + 1, false))) ∧
           (c ≠ e → startStep1 st c = (st, false)) := by
  interval_cases st
  · exact ⟨0x5A, rfl, fun c => ⟨fun hc => by simp [startStep1, hc],
      fun hc => by simp [startStep1, hc]⟩⟩
  · exact ⟨0xA5, rfl, fun c => ⟨fun hc => by simp [startStep1, hc],
      fun hc => by simp [startStep1, hc]⟩⟩
  · exact ⟨0x00, rfl, fun c => ⟨fun hc => by simp [startStep1, hc],
      fun hc => by simp [startStep1, hc]⟩⟩
  · exact ⟨0xC0, rfl, fun c => ⟨fun hc => by simp [startStep1, hc],
      fun hc => by simp [startStep1, hc]⟩⟩

theorem sublist_cons_of_ne {e c : Nat} {ps t : List Nat} (hne : c ≠ e)
    (h : List.Sublist (e :: ps) (c :: t)) : List.Sublist (e :: ps) t := by
  cases h with
  | cons _ h => exact h
  | cons₂ _ h => exact absurd rfl hne

/-- Soundness of the legacy matcher: where it declares sync, the rest of the
expected bytes have just occurred in order for the first time. -/
theorem syncRest1_sound (s : List Nat) (st : Nat) (hst : st ≤ 3) (rest : List Nat)
    (h : syncRest1 st s = some rest) :
    ∃ n, rest = s.drop n ∧ List.Sublist (startSequence.drop st) (s.take n) ∧
      ∀ m, m < n → ¬ List.Sublist (startSequence.drop st) (s.take m) := by
  induction s generalizing st with
  | nil => rw [syncRest1] at h; exact absurd h (by simp)
  | cons c s ih =>
    obtain ⟨e, hd, hstep⟩ := startStep1_expected st hst
    rw [syncRest1] at h
    by_cases hc : c = e
    · rw [(hstep c).1 hc] at h
      by_cases h3 : st = 3
      · rw [if_pos h3] at h
        simp only [if_true, Option.some.injEq] at h
        have hnil : startSequence.drop (st + 1) = [] := by rw [h3]; rfl
        refine ⟨1, by rw [← h]; rfl, ?_, ?_⟩
        · rw [hd, hnil, hc]; exact List.Sublist.refl _
        · intro m hm
          have : m = 0 := by omega
          rw [this, hd, List.take_zero]
          exact fun hs => by cases hs
      · rw [if_neg h3] at h
        simp only [Bool.false_eq_true, if_false] at h
        obtain ⟨n, hr, hsub, hmin⟩ := ih (st + 1) (by omega) h
        refine ⟨n + 1, by rw [hr]; rfl, ?_, ?_⟩
        · rw [hd, List.take_succ_cons, hc]
          exact List.Sublist.cons₂ _ hsub
        · intro m hm
          rw [hd]
          cases m with
          | zero => rw [List.take_zero]; exact fun hs => by cases hs
          | succ m =>
            rw [List.take_succ_cons, hc, List.cons_sublist_cons]
            exact hmin m (by omega)
    · rw [(hstep c).2 hc] at h
      simp only [Bool.false_eq_true, if_false] at h
      obtain ⟨n, hr, hsub, hmin⟩ := ih st hst h
      refine ⟨n + 1, by rw [hr]; rfl, ?_, ?_⟩
      · rw [List.take_succ_cons]
        exact List.Sublist.cons _ hsub
      · intro m hm
        cases m with
        | zero => rw [List.take_zero, hd]; exact fun hs => by cases hs
        | succ m =>
          rw [List.take_succ_cons]
          intro hs
          rw [hd] at hs
          have := sublist_cons_of_ne hc hs
          rw [← hd] at this
          exact hmin m (by omega) this

/-- Completeness of the legacy matcher: when the rest of the expected bytes
occur in order in the stream, sync is declared. -/
theorem syncRest1_complete (s : List Nat) (st : Nat) (hst : st ≤ 3)
    (h : List.Sublist (startSequence.drop st) s) : ∃ rest, syncRest1 st s = some rest := by
  induction s generalizing st with
  | nil =>
    obtain ⟨e, hd, _⟩ := startStep1_expected st hst
    rw [hd] at h; cases h
  | cons c s ih =>
    obtain ⟨e, hd, hstep⟩ := startStep1_expected st hst
    rw [syncRest1]
    by_cases hc : c = e
    · rw [(hstep c).1 hc]
      by_cases h3 : st = 3
      · rw [if_pos h3]; exact ⟨s, by simp⟩
      · rw [if_neg h3]
        simp only [Bool.false_eq_true, if_false]
        apply ih (st + 1) (by omega)
        rw [hd, hc, List.cons_sublist_cons] at h
        exact h
    · rw [(hstep c).2 hc]
      simp only [Bool.false_eq_true, if_false]
      apply ih st hst
      rw [hd] at h
      have := sublist_cons_of_ne hc h
      rw [← hd] at this
      exact this

theorem firstSubsequenceAt_unique (s : List Nat) (n n1 : Nat)
    (h : FirstSubsequenceAt s n) (h1 : FirstSubsequenceAt s n1) : n = n1 := by
  rcases Nat.lt_trichotomy n n1 with hlt | heq | hgt
  · exact absurd h.1 (h1.2 n hlt)
  · exact heq
  · exact absurd h1.1 (h.2 n1 hgt)

theorem syncRest1_first (s rest : List Nat) (h : syncRest1 0 s = some rest) :
    ∃ n, FirstSubsequenceAt s n ∧ rest = s.drop n := by
  obtain ⟨n, hr, hsub, hmin⟩ := syncRest1_sound s 0 (by omega) rest h
  exact ⟨n, ⟨hsub, hmin⟩, hr⟩

theorem syncRest1_at_first (s : List Nat) (n : Nat) (h : FirstSubsequenceAt s n) :
    syncRest1 0 s = some (s.drop n) := by
  obtain ⟨rest, hr⟩ := syncRest1_complete s 0 (by omega) (h.1.trans (List.take_sublist n s))
  obtain ⟨n1, h1, e1⟩ := syncRest1_first s rest hr
  rw [hr, e1, firstSubsequenceAt_unique s n n1 h h1]

theorem syncRest1_none_iff (s : List Nat) :
    syncRest1 0 s = none ↔ ¬ List.Sublist startSequence s := by
  constructor
  · intro h hs
    obtain ⟨rest, hr⟩ := syncRest1_complete s 0 (by omega) hs
    rw [h] at hr; exact absurd hr (by simp)
  · intro h
    cases hr : syncRest1 0 s with
    | none => rfl
    | some rest =>
      obtain ⟨n, hn, _⟩ := syncRest1_first s rest hr
      exact absurd (hn.1.trans (List.take_sublist n s)) h

/-- C19. Legacy sync point: for every byte stream `s`, the firmware-1 matcher
declares sync exactly at the first position `n` at which `5A, A5, 00, C0` have
occurred in that order as a (not necessarily contiguous) subsequence of the
first `n` bytes: the bytes left for the frame are `s.drop n`, and `poll`
continues with the frame read on them; when the four bytes never occur in that
order no sync is declared and `poll` fails on the transport; and when the
sequence occurs contiguously after a prefix `a`, sync is declared after at most
`a.length + 4` bytes. -/
theorem legacy_sync_point (ms rp : Nat) (scan : LaserScan) (s : List Nat) :
    (∀ rest, syncRest1 0 s = some rest ↔ ∃ n, FirstSubsequenceAt s n ∧ rest = s.drop n) ∧
    (syncRest1 0 s = none ↔ ¬ List.Sublist startSequence s) ∧
    (∀ n, FirstSubsequenceAt s n →
      poll { firmware_ := 1, shutting_down_ := false, motor_speed_ := ms, rpms := rp,
             serial_ := s } scan =
        frame1 { firmware_ := 1, shutting_down_ := false, motor_speed_ := ms, rpms := rp,
                 serial_ := s } scan (s.drop n)) ∧
    (¬ List.Sublist startSequence s →
      poll { firmware_ := 1, shutting_down_ := false, motor_speed_ := ms, rpms := rp,
             serial_ := s } scan = .transportFailure scan) ∧
    (∀ a b, s = a ++ startSequence ++ b →
      ∃ n, n ≤ a.length + 4 ∧ FirstSubsequenceAt s n ∧ syncRest1 0 s = some (s.drop n)) := by
  have hpoll :
      poll { firmware_ := 1, shutting_down_ := false, motor_speed_ := ms, rpms := rp,
             serial_ := s } scan =
      match syncRest1 0 s with
      | none => .transportFailure scan
      | some rest => frame1 { firmware_ := 1, shutting_down_ := false, motor_speed_ := ms,
                              rpms := rp, serial_ := s } scan rest := by
    unfold poll
    rw [if_pos rfl]
    exact poll1Loop_sync _ scan s 0 rfl
  refine ⟨fun rest => ⟨syncRest1_first s rest, ?_⟩, syncRest1_none_iff s, ?_, ?_, ?_⟩
  · rintro ⟨n, hn, hr⟩
    rw [hr]; exact syncRest1_at_first s n hn
  · intro n hn
    rw [hpoll, syncRest1_at_first s n hn]
  · intro hs
    rw [hpoll, (syncRest1_none_iff s).2 hs]
  · intro a b hab
    have hsub : List.Sublist startSequence s := by
      rw [hab]
      exact (List.sublist_append_right a startSequence).trans (List.sublist_append_left _ b)
    obtain ⟨rest, hr⟩ := syncRest1_complete s 0 (by omega) hsub
    obtain ⟨n, hn, e⟩ := syncRest1_first s rest hr
    refine ⟨n, ?_, hn, by rw [hr, e]⟩
    by_contra hgt
    have htake : s.take (a.length + 4) = a ++ startSequence := by
      rw [hab, List.take_append_of_le_length (by simp [startSequence])]
      rw [List.take_of_length_le (by simp [startSequence])]
    apply hn.2 (a.length + 4) (by omega)
    rw [htake]
    exact List.sublist_append_right a startSequence

end XV11
